import Mathlib

/-!
# The slice schema node of zog (`slices.go`, `utilsOptions.go`)

A shallow embedding of `SliceSchema` and of its two pipelines, `validate` and
`process`, followed by theorems about them.

Conventions of the embedding.

* Go values of type `any` are values of `Any`, described by their dynamic shape.
  Static Go types are not tracked: a `reflect` call that would panic because of the
  *kind* of a value (`Len` of a non-sequence, `Elem` of a non-pointer) makes the
  embedded function return `none`; a panic that depends on static assignability
  (`reflect.Value.Set` with an unassignable value) is outside the embedding.
* A Go pointer is represented by the value it addresses. `SchemaCtx.Val` in validate
  mode and `SchemaCtx.DestPtr` in both modes hold the addressed value, and a write
  through the pointer is a change of that field. A callee that is handed the
  pointer itself (a rule test, the zero check of validate mode) receives `Any.ptr` of
  the addressed value. Every pointer is taken to be non-nil.
* Callbacks (transforms, tests, coercer) are functions of their arguments; they read
  the context and do not write it. The element schema is an interface value and may
  change any part of the context it is given.
* `validate` and `process` return, next to the context they leave behind, the list
  of callbacks the node invoked, in order of invocation (`Event`).
* Rendering of issue messages (formatters, `Message`, `MessageFunc`) is not part of
  the embedding.
-/

namespace Zog

/-! ## Values -/

/-- A Go value of interface type `any`, by dynamic shape. `null` is the nil interface,
`nilSlice` a nil slice, `slice xs` a non-nil slice, `ptr v` a pointer to a variable
holding `v`. -/
inductive Any where
  | null
  | int (n : Int)
  | str (s : String)
  | bool (b : Bool)
  | nilSlice
  | slice (xs : List Any)
  | ptr (v : Any)
  deriving Repr

mutual
/-- Decision procedure for equality of values. -/
def Any.decEq : (a b : Any) → Decidable (a = b)
  | .null, b => by cases b <;> first | exact isTrue rfl | exact isFalse (by intro h; cases h)
  | .int a, b => by
      cases b with
      | int c => exact if h : a = c then isTrue (by rw [h]) else isFalse (by intro e; cases e; exact h rfl)
      | _ => exact isFalse (by intro h; cases h)
  | .str a, b => by
      cases b with
      | str c => exact if h : a = c then isTrue (by rw [h]) else isFalse (by intro e; cases e; exact h rfl)
      | _ => exact isFalse (by intro h; cases h)
  | .bool a, b => by
      cases b with
      | bool c => exact if h : a = c then isTrue (by rw [h]) else isFalse (by intro e; cases e; exact h rfl)
      | _ => exact isFalse (by intro h; cases h)
  | .nilSlice, b => by cases b <;> first | exact isTrue rfl | exact isFalse (by intro h; cases h)
  | .slice xs, b => by
      cases b with
      | slice ys => exact match Any.decEqList xs ys with
          | isTrue h => isTrue (by rw [h])
          | isFalse h => isFalse (by intro e; cases e; exact h rfl)
      | _ => exact isFalse (by intro h; cases h)
  | .ptr a, b => by
      cases b with
      | ptr c => exact match Any.decEq a c with
          | isTrue h => isTrue (by rw [h])
          | isFalse h => isFalse (by intro e; cases e; exact h rfl)
      | _ => exact isFalse (by intro h; cases h)
/-- Decision procedure for equality of lists of values. -/
def Any.decEqList : (as bs : List Any) → Decidable (as = bs)
  | [], [] => isTrue rfl
  | [], _ :: _ => isFalse (by intro h; cases h)
  | _ :: _, [] => isFalse (by intro h; cases h)
  | a :: as, b :: bs =>
      match Any.decEq a b, Any.decEqList as bs with
      | isTrue h₁, isTrue h₂ => isTrue (by rw [h₁, h₂])
      | isFalse h₁, _ => isFalse (by intro e; cases e; exact h₁ rfl)
      | _, isFalse h₂ => isFalse (by intro e; cases e; exact h₂ rfl)
end

instance : DecidableEq Any := Any.decEq

/-- The call `reflect.Value.Len` on a value: the length of a slice, a panic (`none`) on
a value that is no sequence. -/
def Any.Len : Any → Option Nat
  | .slice xs => some xs.length
  | .nilSlice => some 0
  | _ => none

/-- The elements `Index(0) .. Index(Len()-1)` of a value; `none` where `Len` panics. -/
def Any.elems : Any → Option (List Any)
  | .slice xs => some xs
  | .nilSlice => some []
  | _ => none

/-! ## Issues, paths and contexts (package `internals`) -/

/-- The name of a schema type (`zconst.ZogType`). -/
abbrev ZogType := String

/-- The constant `zconst.TypeSlice`. -/
def TypeSlice : ZogType := "slice"

/-- Modelled from the spec: the issue code `zconst.IssueCodeMin` ("code \"min\""). -/
def IssueCodeMin : String := "min"

/-- Modelled from the spec: one recorded validation failure. The three constructors are
the three ways the spec gives to build an issue: from a failed rule test (code and
parameters of the test), from a coercion failure, and from an uncategorized error. Each
carries the rendered path at which it was built. -/
inductive Issue where
  | test (path : String) (code : String) (params : List (String × Any))
  | coerce (path : String) (err : String)
  | unknown (path : String) (err : String)
  deriving DecidableEq, Repr

/-- The rendered path an issue is keyed by. -/
def Issue.Path : Issue → String
  | .test p _ _ => p
  | .coerce p _ => p
  | .unknown p _ => p

/-- Modelled from the spec: the issue map, "mapping from rendered path to an ordered
sequence of issues; insertion order within a path is preserved". It is kept as the list
of recorded issues in order of insertion, each issue carrying its key; `get` is the
lookup of a key and the empty list is the empty map. -/
abbrev ZogIssueMap := List Issue

/-- The ordered issues recorded under a rendered path. -/
def ZogIssueMap.get (m : ZogIssueMap) (path : String) : List Issue :=
  m.filter (fun e => e.Path = path)

/-- Modelled from the spec: the path builder, "an ordered, mutable sequence of path
segments with push/pop operations and a render-to-string operation". -/
abbrev PathBuilder := List String

/-- The call `p.NewPathBuilder()`. -/
def NewPathBuilder : PathBuilder := []

/-- Pushes a segment. -/
def PathBuilder.Push (p : PathBuilder) (k : String) : PathBuilder := p ++ [k]

/-- Pops the last segment. -/
def PathBuilder.Pop (p : PathBuilder) : PathBuilder := p.dropLast

/-- Modelled from the spec: renders the path. Index markers are written one after the
other (outer index 1, inner index 2 is keyed `"[1][2]"`); the root path is the empty
string. -/
def PathBuilder.String (p : PathBuilder) : String := String.join p

/-- Modelled from the spec: the execution context, per-call state shared by all nodes:
the issue map and the bag of caller-supplied values. -/
structure ExecCtx where
  Errs : ZogIssueMap
  m : List (String × Any)
  deriving DecidableEq, Repr

/-- Modelled from the spec: the schema context, per-node state under an execution
context: current value, destination, the shared path builder, the declared type of the
node and the exit flag. `Val` (validate mode) and `DestPtr` hold the addressed value. -/
structure SchemaCtx where
  exec : ExecCtx
  Val : Any
  DestPtr : Any
  Path : PathBuilder
  DType : ZogType
  Exit : Bool
  deriving DecidableEq, Repr

/-- The call `p.NewErrsMap()`. -/
def NewErrsMap : ZogIssueMap := []

/-- The call `p.NewExecCtx(errs, fmter)`. -/
def NewExecCtx (errs : ZogIssueMap) : ExecCtx := { Errs := errs, m := [] }

/-- Modelled from the spec: "a child context shares the Execution Context's issue map and
the Path Builder instance but owns its own value/destination/type/exit fields". -/
def ExecCtx.NewSchemaCtx (e : ExecCtx) (val dest : Any) (path : PathBuilder)
    (dtype : ZogType) : SchemaCtx :=
  { exec := e, Val := val, DestPtr := dest, Path := path, DType := dtype, Exit := false }

/-- The method `NewSchemaCtx` promoted from the embedded execution context. -/
def SchemaCtx.NewSchemaCtx (c : SchemaCtx) (val dest : Any) (path : PathBuilder)
    (dtype : ZogType) : SchemaCtx :=
  c.exec.NewSchemaCtx val dest path dtype

/-- Modelled from the spec: records an issue in the shared issue map, under the path the
issue carries. -/
def SchemaCtx.AddIssue (c : SchemaCtx) (e : Issue) : SchemaCtx :=
  { c with exec := { c.exec with Errs := c.exec.Errs ++ [e] } }

/-- Modelled from the spec: the aggregate "has errored" flag of the execution context:
some issue has been recorded anywhere in this call. -/
def SchemaCtx.HasErrored (c : SchemaCtx) : Bool := !c.exec.Errs.isEmpty

/-- Modelled from the spec: the zero check of validate mode, "the zero value for its
declared type". A non-nil slice is not the zero value, whatever its length, and neither
is a pointer to a variable. -/
def IsZeroValue : Any → Bool
  | .null => true
  | .int n => n == 0
  | .str s => s == ""
  | .bool b => !b
  | .nilSlice => true
  | .slice _ => false
  | .ptr _ => false

/-- Modelled from the spec: the zero check of process mode, which "also treats zero
length the same way" for container values. -/
def IsParseZeroValue (val : Any) (_ctx : SchemaCtx) : Bool :=
  IsZeroValue val || val.Len == some 0

/-! ## Tests, transforms and schemas -/

/-- A rule test (`p.Test`): issue code, parameters and predicate. The predicate is handed
the value the node passes (a pointer) and the context; `none` is a panic. -/
structure Test where
  IssueCode : String
  Params : List (String × Any)
  ValidateFunc : Any → SchemaCtx → Option Bool

/-- Options that can be passed to a test: `func(test *p.Test)`. -/
abbrev TestOption := Test → Test

/-- A pre-transform, `func(val any, ctx Ctx) (any, error)`. -/
abbrev PreTransform := Any → SchemaCtx → Except String Any

/-- A post-transform, `func(dataPtr any, ctx Ctx) error`: it is given the addressed value
and returns the value it leaves there together with its error, if any. -/
abbrev PostTransform := Any → SchemaCtx → Any × Option String

/-- A coercer, `conf.CoercerFunc`. -/
abbrev CoercerFunc := Any → Except String Any

/-- Modelled from the spec: builds the issue of a failed rule test at the current path. -/
def SchemaCtx.IssueFromTest (c : SchemaCtx) (test : Test) (_val : Any) : Issue :=
  .test c.Path.String test.IssueCode test.Params

/-- Modelled from the spec: builds the issue of a coercion failure at the current path. -/
def SchemaCtx.IssueFromCoerce (c : SchemaCtx) (err : String) : Issue :=
  .coerce c.Path.String err

/-- Modelled from the spec: wraps an uncategorized error at the current path. -/
def SchemaCtx.IssueFromUnknownError (c : SchemaCtx) (err : String) : Issue :=
  .unknown c.Path.String err

/-- The interface `ZogSchema` as the slice node uses it. In validate mode `Val` of the
context given is the value addressed by `ctx.Val` and `Val` of the context returned is
the value left there; in process mode the same holds of `DestPtr`. `none` is a panic. -/
structure ZogSchema where
  validate : SchemaCtx → Option SchemaCtx
  process : SchemaCtx → Option SchemaCtx
  getType : ZogType

/-- The struct `SliceSchema`. `defaultVal = Any.null` is the unset default (`nil`). -/
structure SliceSchema where
  preTransforms : List PreTransform
  tests : List Test
  schema : ZogSchema
  postTransforms : List PostTransform
  required : Option Test
  defaultVal : Any
  coercer : CoercerFunc

/-- A callback invoked by a slice node: the pre-transform, rule test or post-transform of
the given position in its list, the coercer, or the element schema for the element of
the given index. -/
inductive Event where
  | preTransform (idx : Nat)
  | coercer
  | schema (idx : Nat)
  | test (idx : Nat)
  | postTransform (idx : Nat)
  deriving DecidableEq, Repr

/-- Outcome of a phase that may execute `return`. -/
inductive Flow where
  | returned (ctx : SchemaCtx) (log : List Event)
  | continues (ctx : SchemaCtx) (log : List Event)

/-! ## The pipelines of the slice node -/

/-- Returns the type of the schema. -/
def SliceSchema.getType (_v : SliceSchema) : ZogType := TypeSlice

/-- Sets the coercer for the schema. -/
def SliceSchema.setCoercer (v : SliceSchema) (c : CoercerFunc) : SliceSchema :=
  { v with coercer := c }

/-- The pre-transform loop, `validate` lines 87-95 and `process` lines 161-169: each
pre-transform is applied to the current value; an error records one issue and returns,
a result replaces the current value. -/
def preTransformLoop : List PreTransform → Nat → SchemaCtx → List Event → Flow
  | [], _, ctx, log => .continues ctx log
  | fn :: fns, i, ctx, log =>
    match fn ctx.Val ctx with
    | .error err =>
      .returned (ctx.AddIssue (ctx.IssueFromUnknownError err)) (log ++ [.preTransform i])
    | .ok nVal => preTransformLoop fns (i + 1) { ctx with Val := nVal } (log ++ [.preTransform i])

/-- The loop of the deferred function of `validate`, lines 75-81: the post-transforms
are handed `ctx.Val`; the first error records one issue and returns. -/
def validatePostLoop : List PostTransform → Nat → SchemaCtx → List Event → SchemaCtx × List Event
  | [], _, ctx, log => (ctx, log)
  | fn :: fns, i, ctx, log =>
    match fn ctx.Val ctx with
    | (nVal, some err) =>
      ({ ctx with Val := nVal }.AddIssue ({ ctx with Val := nVal }.IssueFromUnknownError err),
        log ++ [.postTransform i])
    | (nVal, none) => validatePostLoop fns (i + 1) { ctx with Val := nVal } (log ++ [.postTransform i])

/-- The deferred function of `validate`, lines 72-83: "only run posttransforms on
success". -/
def SliceSchema.validateDeferred (v : SliceSchema) (r : SchemaCtx × List Event) :
    SchemaCtx × List Event :=
  if !r.1.HasErrored then validatePostLoop v.postTransforms 0 r.1 r.2 else r

/-- The loop over the items in `validate`, lines 115-123: the child context gets the
address of element `idx`, the segment `[idx]` is pushed, the exit flag is cleared, the
element schema validates, the segment is popped. `done` collects the elements as the
element schema leaves them. -/
def validateItems (schema : ZogSchema) :
    List Any → Nat → List Any → SchemaCtx → List Event →
      Option (List Any × SchemaCtx × List Event)
  | [], _, done, subCtx, log => some (done, subCtx, log)
  | item :: rest, idx, done, subCtx, log =>
    let k := "[" ++ toString idx ++ "]"
    match schema.validate { subCtx with Val := item, Path := subCtx.Path.Push k, Exit := false } with
    | none => none
    | some sub =>
      validateItems schema rest (idx + 1) (done ++ [sub.Val]) { sub with Path := sub.Path.Pop }
        (log ++ [.schema idx])

/-- The loop over the rule tests in `validate`, lines 126-136: every test is handed
`ctx.Val` and the context; a test that returns false records its issue. -/
def validateTests : List Test → Nat → SchemaCtx → List Event → Option (SchemaCtx × List Event)
  | [], _, ctx, log => some (ctx, log)
  | test :: tests, i, ctx, log =>
    match test.ValidateFunc (.ptr ctx.Val) ctx with
    | none => none
    | some ok =>
      validateTests tests (i + 1)
        (if !ok then ctx.AddIssue (ctx.IssueFromTest test (.ptr ctx.Val)) else ctx)
        (log ++ [.test i])

/-- Lines 112-136 of `validate`: the child context, the loop over the items and the loop
over the rule tests. The path builder and the execution context are shared with the
child context, so the node goes on with what the child context holds. -/
def SliceSchema.validateItemsAndTests (v : SliceSchema) (ctx : SchemaCtx) (log : List Event) :
    Option (SchemaCtx × List Event) :=
  let subCtx := ctx.NewSchemaCtx ctx.Val ctx.DestPtr ctx.Path v.schema.getType
  match ctx.Val.elems with
  | none => none
  | some xs =>
    match validateItems v.schema xs 0 [] subCtx log with
    | none => none
    | some (done, sub, log1) =>
      validateTests v.tests 0
        { ctx with
          Val := (match ctx.Val with | .slice _ => .slice done | other => other),
          Path := sub.Path, exec := sub.exec }
        log1

/-- Lines 97-136 of `validate`, what is run once the pre-transforms have succeeded: the
zero check with default, optional and required handling, then items and tests. Line 98
hands `IsZeroValue` the pointer `ctx.Val`, not the value it addresses; `||` evaluates
`refVal.Len()` whenever `isZeroVal` is false. -/
def SliceSchema.validateFromZeroCheck (v : SliceSchema) (ctx : SchemaCtx) (log : List Event) :
    Option (SchemaCtx × List Event) :=
  let isZeroVal := IsZeroValue (.ptr ctx.Val)
  match (if isZeroVal then some true else ctx.Val.Len.map (fun n => n == 0)) with
  | none => none
  | some true =>
    if v.defaultVal ≠ .null then
      v.validateItemsAndTests { ctx with Val := v.defaultVal } log
    else
      match v.required with
      | none => some (ctx, log)
      | some required => some (ctx.AddIssue (ctx.IssueFromTest required (.ptr ctx.Val)), log)
  | some false => v.validateItemsAndTests ctx log

/-- The body of `validate`, lines 85-136, up to the point where the function returns and
its deferred function is run. -/
def SliceSchema.validateBody (v : SliceSchema) (ctx : SchemaCtx) :
    Option (SchemaCtx × List Event) :=
  match preTransformLoop v.preTransforms 0 ctx [] with
  | .returned c log => some (c, log)
  | .continues c log => v.validateFromZeroCheck c log

/-- Internal function to validate the data (`SliceSchema.validate`): the body, then the
deferred function, which is registered first and so runs at every return. -/
def SliceSchema.validate (v : SliceSchema) (ctx : SchemaCtx) : Option (SchemaCtx × List Event) :=
  (v.validateBody ctx).map v.validateDeferred

/-- The loop of the deferred function of `process`, lines 175-181: the post-transforms
are handed `ctx.DestPtr`. -/
def processPostLoop : List PostTransform → Nat → SchemaCtx → List Event → SchemaCtx × List Event
  | [], _, ctx, log => (ctx, log)
  | fn :: fns, i, ctx, log =>
    match fn ctx.DestPtr ctx with
    | (nVal, some err) =>
      ({ ctx with DestPtr := nVal }.AddIssue
          ({ ctx with DestPtr := nVal }.IssueFromUnknownError err),
        log ++ [.postTransform i])
    | (nVal, none) =>
      processPostLoop fns (i + 1) { ctx with DestPtr := nVal } (log ++ [.postTransform i])

/-- The deferred function of `process`, lines 172-183. -/
def SliceSchema.processDeferred (v : SliceSchema) (r : SchemaCtx × List Event) :
    SchemaCtx × List Event :=
  if !r.1.HasErrored then processPostLoop v.postTransforms 0 r.1 r.2 else r

/-- The value `reflect.MakeSlice(destVal.Type(), n, n)`: a non-nil slice of `n` slots.
The element type of the destination is not tracked, a slot not yet written holds
`Any.null`. -/
def MakeSlice (n : Nat) : Any := .slice (List.replicate n .null)

/-- The loop over the items in `process`, lines 215-224: the child context gets source
element `idx` and the address of destination element `idx`, the segment `[idx]` is
pushed, the element schema processes, the segment is popped. `dest` collects the
destination elements as the element schema leaves them. -/
def processItems (schema : ZogSchema) :
    List Any → Nat → List Any → SchemaCtx → List Event →
      Option (List Any × SchemaCtx × List Event)
  | [], _, dest, subCtx, log => some (dest, subCtx, log)
  | item :: rest, idx, dest, subCtx, log =>
    let k := "[" ++ toString idx ++ "]"
    match schema.process { subCtx with Val := item, DestPtr := .null, Path := subCtx.Path.Push k } with
    | none => none
    | some sub =>
      processItems schema rest (idx + 1) (dest ++ [sub.DestPtr]) { sub with Path := sub.Path.Pop }
        (log ++ [.schema idx])

/-- The loop over the rule tests in `process`, lines 227-231: every test is handed
`ctx.DestPtr`. -/
def processTests : List Test → Nat → SchemaCtx → List Event → Option (SchemaCtx × List Event)
  | [], _, ctx, log => some (ctx, log)
  | test :: tests, i, ctx, log =>
    match test.ValidateFunc (.ptr ctx.DestPtr) ctx with
    | none => none
    | some ok =>
      processTests tests (i + 1)
        (if !ok then ctx.AddIssue (ctx.IssueFromTest test (.ptr ctx.DestPtr)) else ctx)
        (log ++ [.test i])

/-- Lines 210-231 of `process`: the destination is set to a fresh slice of the length of
`refVal`, then the loop over the items and the loop over the rule tests. The static type
of the destination is not tracked: it is taken to be a slice type. -/
def SliceSchema.processItemsAndTests (v : SliceSchema) (ctx : SchemaCtx) (refVal : Any)
    (log : List Event) : Option (SchemaCtx × List Event) :=
  match refVal.elems with
  | none => none
  | some xs =>
    let ctx0 := { ctx with DestPtr := MakeSlice xs.length }
    let subCtx := ctx0.NewSchemaCtx ctx0.Val ctx0.DestPtr ctx0.Path v.schema.getType
    match processItems v.schema xs 0 [] subCtx log with
    | none => none
    | some (dest, sub, log1) =>
      processTests v.tests 0 { ctx0 with DestPtr := .slice dest, Path := sub.Path, exec := sub.exec }
        log1

/-- Lines 185-231 of `process`, what is run once the pre-transforms have succeeded and
the deferred function is registered. -/
def SliceSchema.processFromZeroCheck (v : SliceSchema) (ctx : SchemaCtx) (log : List Event) :
    Option (SchemaCtx × List Event) :=
  let isZeroVal := IsParseZeroValue ctx.Val ctx
  if isZeroVal then
    if v.defaultVal ≠ .null then
      v.processItemsAndTests ctx v.defaultVal log
    else
      match v.required with
      | none => some (ctx, log)
      | some required => some (ctx.AddIssue (ctx.IssueFromTest required ctx.Val), log)
  else
    match v.coercer ctx.Val with
    | .error err => some (ctx.AddIssue (ctx.IssueFromCoerce err), log ++ [.coercer])
    | .ok coerced => v.processItemsAndTests ctx coerced (log ++ [.coercer])

/-- Internal function to process the data (`SliceSchema.process`). A pre-transform error
returns before the deferred function is registered; every later return runs it. -/
def SliceSchema.process (v : SliceSchema) (ctx : SchemaCtx) : Option (SchemaCtx × List Event) :=
  match preTransformLoop v.preTransforms 0 ctx [] with
  | .returned c log => some (c, log)
  | .continues c log => (v.processFromZeroCheck c log).map v.processDeferred

/-- The part of `process` that comes before its post-transforms: the context and the
callbacks invoked at the point where the function returns, before any deferred function
is run. -/
def SliceSchema.processBody (v : SliceSchema) (ctx : SchemaCtx) :
    Option (SchemaCtx × List Event) :=
  match preTransformLoop v.preTransforms 0 ctx [] with
  | .returned c log => some (c, log)
  | .continues c log => v.processFromZeroCheck c log

/-- A slice node seen through the interface `ZogSchema`. -/
def SliceSchema.toZogSchema (v : SliceSchema) : ZogSchema :=
  { validate := fun ctx => (v.validate ctx).map (fun r => r.1)
    process := fun ctx => (v.process ctx).map (fun r => r.1)
    getType := v.getType }

/-! ## User facing functions -/

/-- Options that can be passed to a `schema.New()` call: `func(s ZogSchema)`, here on a
slice node. -/
abbrev SchemaOption := SliceSchema → SliceSchema

/-- The option `WithCoercer`. -/
def WithCoercer (c : CoercerFunc) : SchemaOption := fun s => s.setCoercer c

/-- Options that can be passed to a `schema.Parse()` call. The formatter of
`WithErrFormatter` only renders messages and is left out. -/
inductive ExecOption where
  | WithErrFormatter
  | WithCtxValue (key : String) (val : Any)

/-- Applies an option to the execution context: `WithCtxValue` is `p.Set(key, val)`. -/
def ExecOption.apply : ExecOption → ExecCtx → ExecCtx
  | .WithErrFormatter, p => p
  | .WithCtxValue key val, p => { p with m := (key, val) :: p.m.filter (fun kv => kv.1 ≠ key) }

/-- Creates a slice schema (`Slice`). `defaultCoercer` stands for `conf.Coercers.Slice`. -/
def Slice (defaultCoercer : CoercerFunc) (schema : ZogSchema) (opts : List SchemaOption) :
    SliceSchema :=
  opts.foldl (fun s opt => opt s)
    { preTransforms := [], tests := [], schema := schema, postTransforms := [],
      required := none, defaultVal := .null, coercer := defaultCoercer }

/-- Validates a slice (`SliceSchema.Validate`). `data` is the value the argument
addresses; the result is the issue map together with the value left there. -/
def SliceSchema.Validate (v : SliceSchema) (data : Any) (options : List ExecOption) :
    Option (ZogIssueMap × Any) :=
  let errs := NewErrsMap
  let ctx := options.foldl (fun c opt => opt.apply c) (NewExecCtx errs)
  let path := NewPathBuilder
  let sctx := ctx.NewSchemaCtx data data path v.getType
  (v.validate sctx).map (fun r => (r.1.exec.Errs, r.1.Val))

/-- Parses `data` into `dest` (`SliceSchema.Parse`). `dest` is the value the destination
pointer addresses; the result is the issue map together with the value left there. -/
def SliceSchema.Parse (v : SliceSchema) (data dest : Any) (options : List ExecOption) :
    Option (ZogIssueMap × Any) :=
  let errs := NewErrsMap
  let ctx := options.foldl (fun c opt => opt.apply c) (NewExecCtx errs)
  let path := NewPathBuilder
  let sctx := ctx.NewSchemaCtx data dest path v.getType
  (v.process sctx).map (fun r => (r.1.exec.Errs, r.1.DestPtr))

/-- Adds pretransform function to schema (`SliceSchema.PreTransform`). -/
def SliceSchema.PreTransform (v : SliceSchema) (transform : PreTransform) : SliceSchema :=
  { v with preTransforms := v.preTransforms ++ [transform] }

/-- Adds posttransform function to schema (`SliceSchema.PostTransform`). -/
def SliceSchema.PostTransform (v : SliceSchema) (transform : PostTransform) : SliceSchema :=
  { v with postTransforms := v.postTransforms ++ [transform] }

/-- The predicate of `sliceMin`, lines 370-376: `Elem` of the value handed, false if that
is no slice, else `Len() >= n`. `Elem` panics on a value that is no pointer. -/
def sliceMinFunc (n : Int) (val : Any) (_ctx : SchemaCtx) : Option Bool :=
  match val with
  | .ptr rv =>
    match rv with
    | .slice xs => some (decide ((xs.length : Int) ≥ n))
    | .nilSlice => some (decide ((0 : Int) ≥ n))
    | _ => some false
  | _ => none

/-- The test `sliceMin(n)`. -/
def sliceMin (n : Int) : Test :=
  { IssueCode := IssueCodeMin
    Params := [(IssueCodeMin, .int n)]
    ValidateFunc := sliceMinFunc n }

/-- Minimum number of items (`SliceSchema.Min`). -/
def SliceSchema.Min (v : SliceSchema) (n : Int) (options : List TestOption) : SliceSchema :=
  { v with tests := v.tests ++ [options.foldl (fun t opt => opt t) (sliceMin n)] }

/-- Modelled from the spec: the issue code `zconst.IssueCodeMax`, taken to be "max" as
the codes of the other built-in tests are the names of the tests. -/
def IssueCodeMax : String := "max"

/-- Modelled from the spec: the issue code `zconst.IssueCodeLen` ("code \"len\""). -/
def IssueCodeLen : String := "len"

/-- Modelled from the spec: the issue code `zconst.IssueCodeContains` ("code
\"contains\""). -/
def IssueCodeContains : String := "contains"

/-- The predicate of `sliceMax`, lines 385-391. -/
def sliceMaxFunc (n : Int) (val : Any) (_ctx : SchemaCtx) : Option Bool :=
  match val with
  | .ptr rv =>
    match rv with
    | .slice xs => some (decide ((xs.length : Int) ≤ n))
    | .nilSlice => some (decide ((0 : Int) ≤ n))
    | _ => some false
  | _ => none

/-- The test `sliceMax(n)`. -/
def sliceMax (n : Int) : Test :=
  { IssueCode := IssueCodeMax
    Params := [(IssueCodeMax, .int n)]
    ValidateFunc := sliceMaxFunc n }

/-- The predicate of `sliceLength`, lines 400-406. -/
def sliceLengthFunc (n : Int) (val : Any) (_ctx : SchemaCtx) : Option Bool :=
  match val with
  | .ptr rv =>
    match rv with
    | .slice xs => some (decide ((xs.length : Int) = n))
    | .nilSlice => some (decide ((0 : Int) = n))
    | _ => some false
  | _ => none

/-- The test `sliceLength(n)`. -/
def sliceLength (n : Int) : Test :=
  { IssueCode := IssueCodeLen
    Params := [(IssueCodeLen, .int n)]
    ValidateFunc := sliceLengthFunc n }

/-- The call `reflect.DeepEqual(v, value)` on two values, as far as values are described
here: equality of shape and content. A nil slice and a slice of length 0 are not deeply
equal. -/
def DeepEqual (v value : Any) : Bool := decide (v = value)

/-- The loop of the predicate of `Contains`, lines 347-355: true at the first element
that is deeply equal to `value`, false when the elements are exhausted. -/
def containsLoop (value : Any) : List Any → Bool
  | [] => false
  | v :: rest => if DeepEqual v value then true else containsLoop value rest

/-- The predicate of the test of `Contains`, lines 342-356. -/
def containsFunc (value : Any) (val : Any) (_ctx : SchemaCtx) : Option Bool :=
  match val with
  | .ptr rv =>
    match rv with
    | .slice xs => some (containsLoop value xs)
    | .nilSlice => some (containsLoop value [])
    | _ => some false
  | _ => none

/-- Maximum number of items (`SliceSchema.Max`). -/
def SliceSchema.Max (v : SliceSchema) (n : Int) (options : List TestOption) : SliceSchema :=
  { v with tests := v.tests ++ [options.foldl (fun t opt => opt t) (sliceMax n)] }

/-- Exact number of items (`SliceSchema.Len`). -/
def SliceSchema.Len (v : SliceSchema) (n : Int) (options : List TestOption) : SliceSchema :=
  { v with tests := v.tests ++ [options.foldl (fun t opt => opt t) (sliceLength n)] }

/-- Slice contains a specific value (`SliceSchema.Contains`). -/
def SliceSchema.Contains (v : SliceSchema) (value : Any) (options : List TestOption) :
    SliceSchema :=
  { v with
    tests := v.tests ++ [options.foldl (fun t opt => opt t)
      { IssueCode := IssueCodeContains
        Params := [(IssueCodeContains, value)]
        ValidateFunc := containsFunc value }] }

/-- Marks field as required (`SliceSchema.Required`). `pRequired` stands for the test
that `p.Required()` returns. -/
def SliceSchema.Required (v : SliceSchema) (pRequired : Test) (options : List TestOption) :
    SliceSchema :=
  { v with required := some (options.foldl (fun r opt => opt r) pRequired) }

/-- Marks field as optional (`SliceSchema.Optional`). -/
def SliceSchema.Optional (v : SliceSchema) : SliceSchema :=
  { v with required := none }

/-- Sets the default value (`SliceSchema.Default`). -/
def SliceSchema.Default (v : SliceSchema) (val : Any) : SliceSchema :=
  { v with defaultVal := val }

/-- Custom test function (`SliceSchema.Test`). -/
def SliceSchema.Test (v : SliceSchema) (t : Test) (opts : List TestOption) : SliceSchema :=
  { v with tests := v.tests ++ [opts.foldl (fun t opt => opt t) t] }

/-! ## Auxiliary definitions for the statements -/

/-- The context with further issues recorded after those it holds. -/
def SchemaCtx.withIssues (c : SchemaCtx) (es : List Issue) : SchemaCtx :=
  { c with exec := { c.exec with Errs := c.exec.Errs ++ es } }

/-- The issues of the tests that returned false, one for each, in the order of the
tests: `oks` lists what the tests returned. -/
def failedIssues (path : String) : List Test → List Bool → List Issue
  | test :: tests, ok :: oks =>
    (if ok then [] else [Issue.test path test.IssueCode test.Params]) ++ failedIssues path tests oks
  | _, _ => []

/-- The loop over the rule tests with the value handed to the tests held fixed: what
`validateTests` and `processTests` both are, as recording an issue changes neither
`ctx.Val` nor `ctx.DestPtr`. -/
def testsLoop (val : Any) : List Test → Nat → SchemaCtx → List Event → Option (SchemaCtx × List Event)
  | [], _, ctx, log => some (ctx, log)
  | test :: tests, i, ctx, log =>
    match test.ValidateFunc val ctx with
    | none => none
    | some ok =>
      testsLoop val tests (i + 1) (if !ok then ctx.AddIssue (ctx.IssueFromTest test val) else ctx)
        (log ++ [.test i])

/-- The issues an inner slice node adds when its element schema records `g path value`
for each element: for a sequence at path `P`, those of element `j` at `P` with `[j]`
pushed, in ascending order of `j`. -/
def innerIssues (g : String → Any → List Issue) (P : PathBuilder) (v : Any) : List Issue :=
  match v with
  | .slice xs => xs.enum.flatMap (fun jx => g (P.Push ("[" ++ toString jx.1 ++ "]")).String jx.2)
  | _ => []

/-- The context with the recorded issues replaced by `es`. -/
def SchemaCtx.setIssues (c : SchemaCtx) (es : List Issue) : SchemaCtx :=
  { c with exec := { c.exec with Errs := es } }

/-- An element schema that accepts every value: validate mode leaves the context as it
is, process mode copies the source value into the destination. -/
def leafAccept : ZogSchema :=
  { validate := fun c => some c
    process := fun c => some { c with DestPtr := c.Val }
    getType := "any" }

/-- A coercer that returns the value it is given. -/
def coerceSame : CoercerFunc := fun v => .ok v

/-- A post-transform that leaves the value as it is and returns an error. -/
def postFail : PostTransform := fun v _ => (v, some "post failed")

/-- A pre-transform that returns an error. -/
def preFail : PreTransform := fun _ _ => .error "pre failed"

/-- A pre-transform that returns the value it is given. -/
def preSame : PreTransform := fun v _ => .ok v

/-- A rule test standing for a configured required test. -/
def requiredTest : Test :=
  { IssueCode := "required", Params := [], ValidateFunc := fun _ _ => some false }

/-- The root context of a call on `data` with destination `dest`, no options given. -/
def rootCtx (data dest : Any) : SchemaCtx :=
  (NewExecCtx NewErrsMap).NewSchemaCtx data dest NewPathBuilder TypeSlice

/-- A post-transform that leaves the value as it is and returns no error. -/
def postSame : PostTransform := fun v _ => (v, none)

/-- An element schema that records one rule issue at the current path for every value
it is given, in both modes. -/
def leafReject : ZogSchema :=
  { validate := fun c => some (c.AddIssue (.test c.Path.String "rejected" []))
    process := fun c => some (c.AddIssue (.test c.Path.String "rejected" []))
    getType := "any" }

/-- The issues of an element schema for integers with the rule "not negative": one rule
issue at the given path for a negative integer, none for any other value. -/
def notNegativeIssues (path : String) (x : Any) : List Issue :=
  match x with
  | .int n => if n < 0 then [Issue.test path "gte" [("gte", .int 0)]] else []
  | _ => []

/-- An element schema that records, at its current path, `notNegativeIssues` of the
value it is given. -/
def leafNotNegative : ZogSchema :=
  { validate := fun c => some (c.withIssues (notNegativeIssues c.Path.String c.Val))
    process := fun c =>
      some ({ c with DestPtr := c.Val }.withIssues (notNegativeIssues c.Path.String c.Val))
    getType := "number" }

/-- A coercer that returns an error. -/
def coerceFail : CoercerFunc := fun _ => .error "not a slice"

/-- The context of a slice node reached under the field `items`: the path builder holds
one segment at entry. -/
def nestedCtx (data dest : Any) : SchemaCtx :=
  (NewExecCtx NewErrsMap).NewSchemaCtx data dest (NewPathBuilder.Push "items") TypeSlice

/-- A context that already holds an issue recorded by a sibling node under `name`. -/
def siblingErroredCtx (data dest : Any) : SchemaCtx :=
  (nestedCtx data dest).AddIssue (Issue.test "name" "required" [])

/-- A post-transform that overwrites the value with a nil slice and returns no error. -/
def postClear : PostTransform := fun _ _ => (.nilSlice, none)

/-- A post-transform that leaves the value as it is and returns an error on a nil slice
only. -/
def postNotNil : PostTransform :=
  fun v _ => (v, if v = .nilSlice then some "nil slice" else none)

/-- A slice schema with three post-transforms: one that returns an error on a nil slice
only, one that returns an error, one that would clear the value. -/
def threePostSchema : SliceSchema :=
  (((Slice coerceSame leafAccept []).PostTransform postNotNil).PostTransform postFail).PostTransform
    postClear

/-- An element schema with a default value: in validate mode a zero value is replaced in
place by the default, any other value is left as it is; no issue is recorded. In process
mode the value, or the default for a zero value, is written to the destination. -/
def leafWithDefault (d : Any) : ZogSchema :=
  { validate := fun c => some (if IsZeroValue c.Val then { c with Val := d } else c)
    process := fun c => some { c with DestPtr := if IsZeroValue c.Val then d else c.Val }
    getType := "number" }

/-- A slice schema of not negative integers with the default `[1, -2]`, a required test
and a minimum of 3. -/
def defaultedSchema : SliceSchema :=
  (((Slice coerceSame leafNotNegative []).Min 3 []).Default (.slice [.int 1, .int (-2)])).Required
    requiredTest []

/-- Reads a list of decimal digits as a natural number, most significant digit first;
`none` if a character is no digit. -/
def parseDigits : List Char → Nat → Option Nat
  | [], acc => some acc
  | ch :: rest, acc =>
    if ch.isDigit then parseDigits rest (acc * 10 + (ch.toNat - 48)) else none

/-- What an element schema for integers writes for a source value: the integer a
non-empty string of digits stands for, the value itself if it is an integer, the zero
slot otherwise. -/
def parsedInt (x : Any) : Any :=
  match x with
  | .str s =>
    match s.data with
    | [] => .null
    | ch :: rest =>
      match parseDigits (ch :: rest) 0 with
      | some n => .int n
      | none => .null
  | .int n => .int n
  | _ => .null

/-- An element schema for integers with no rules: in process mode it writes `parsedInt`
of the source value to the destination and records an issue when there is nothing to
write; validate mode leaves the context as it is. -/
def leafInt : ZogSchema :=
  { validate := fun c => some c
    process := fun c =>
      some (if parsedInt c.Val = .null then
          { c with DestPtr := parsedInt c.Val }.AddIssue (.coerce c.Path.String "not a number")
        else { c with DestPtr := parsedInt c.Val })
    getType := "number" }

/-- A required slice schema with a minimum of 1 and a post-transform that returns an
error. -/
def requiredSchema : SliceSchema :=
  (((Slice coerceSame leafAccept []).Min 1 []).PostTransform postFail).Required requiredTest []

/-! ## Lemmas about the loops -/

theorem pathString_Push (p : PathBuilder) (k : String) :
    (p.Push k).String = p.String ++ k := by
  simp [PathBuilder.Push, PathBuilder.String, String.join, List.foldl_append]

theorem pathPop_Push (p : PathBuilder) (k : String) : (p.Push k).Pop = p := by
  simp [PathBuilder.Push, PathBuilder.Pop]

theorem preTransformLoop_continues (ps : List PreTransform) :
    ∀ (i : Nat) (ctx : SchemaCtx) (log : List Event) (c : SchemaCtx) (log1 : List Event),
      preTransformLoop ps i ctx log = .continues c log1 →
        c.exec = ctx.exec ∧ c.Path = ctx.Path ∧ c.DestPtr = ctx.DestPtr ∧
          log1 = log ++ (List.range' i ps.length).map Event.preTransform := by
  induction ps with
  | nil =>
    intro i ctx log c log1 h
    simp only [preTransformLoop, Flow.continues.injEq] at h
    obtain ⟨rfl, rfl⟩ := h
    simp
  | cons fn fns ih =>
    intro i ctx log c log1 h
    simp only [preTransformLoop] at h
    split at h
    · cases h
    · next nVal hfn =>
      obtain ⟨h1, h2, h3, h4⟩ := ih _ _ _ _ _ h
      refine ⟨h1, h2, h3, ?_⟩
      rw [h4]
      simp [List.range'_succ]

theorem preTransformLoop_returned (ps : List PreTransform) :
    ∀ (i : Nat) (ctx : SchemaCtx) (log : List Event) (c : SchemaCtx) (log1 : List Event),
      preTransformLoop ps i ctx log = .returned c log1 →
        c.Path = ctx.Path ∧ c.DestPtr = ctx.DestPtr ∧
        (∃ err, c.exec.Errs = ctx.exec.Errs ++ [Issue.unknown ctx.Path.String err]) ∧
        ∃ k, k < ps.length ∧ log1 = log ++ (List.range' i (k + 1)).map Event.preTransform := by
  induction ps with
  | nil =>
    intro i ctx log c log1 h
    simp [preTransformLoop] at h
  | cons fn fns ih =>
    intro i ctx log c log1 h
    simp only [preTransformLoop] at h
    split at h
    · next err hfn =>
      simp only [Flow.returned.injEq] at h
      obtain ⟨rfl, rfl⟩ := h
      refine ⟨rfl, rfl, ⟨err, rfl⟩, 0, by simp, by simp [List.range'_succ]⟩
    · next nVal hfn =>
      obtain ⟨h1, h2, h3, k, hk, h4⟩ := ih _ _ _ _ _ h
      refine ⟨h1, h2, h3, k + 1, by simpa using hk, ?_⟩
      rw [h4]
      simp [List.range'_succ]

theorem preTransformLoop_error (ps : List PreTransform) (fn : PreTransform)
    (rest : List PreTransform) (err : String) :
    ∀ (i : Nat) (ctx : SchemaCtx) (log : List Event) (c : SchemaCtx) (log1 : List Event),
      preTransformLoop ps i ctx log = .continues c log1 → fn c.Val c = .error err →
        preTransformLoop (ps ++ fn :: rest) i ctx log =
          .returned (c.AddIssue (c.IssueFromUnknownError err))
            (log1 ++ [Event.preTransform (i + ps.length)]) := by
  induction ps with
  | nil =>
    intro i ctx log c log1 h hfn
    simp only [preTransformLoop, Flow.continues.injEq] at h
    obtain ⟨rfl, rfl⟩ := h
    simp [preTransformLoop, hfn]
  | cons g gs ih =>
    intro i ctx log c log1 h hfn
    simp only [preTransformLoop] at h
    split at h
    · cases h
    · next nVal hg =>
      have := ih _ _ _ _ _ h hfn
      have e : i + 1 + gs.length = i + (gs.length + 1) := by omega
      rw [e] at this
      simp only [List.cons_append, preTransformLoop, hg, List.length_cons]
      exact this

theorem validateItems_total (E : ZogSchema) :
    ∀ (xs : List Any) (idx : Nat) (done : List Any) (sub : SchemaCtx) (log : List Event),
      (∀ c : SchemaCtx, c.Val ∈ xs → ∃ c1, E.validate c = some c1) →
      ∃ done1 sub1, validateItems E xs idx done sub log =
          some (done1, sub1, log ++ (List.range' idx xs.length).map Event.schema) ∧
        done1.length = done.length + xs.length := by
  intro xs
  induction xs with
  | nil => intro idx done sub log _; exact ⟨done, sub, by simp [validateItems], by simp⟩
  | cons x xs ih =>
    intro idx done sub log hE
    obtain ⟨c1, hc1⟩ := hE
      { sub with Val := x, Path := sub.Path.Push ("[" ++ toString idx ++ "]"), Exit := false }
      (List.mem_cons_self _ _)
    obtain ⟨done1, sub1, h1, h2⟩ := ih (idx + 1) (done ++ [c1.Val]) { c1 with Path := c1.Path.Pop }
      (log ++ [Event.schema idx]) (fun c hc => hE c (List.mem_cons_of_mem _ hc))
    refine ⟨done1, sub1, ?_, ?_⟩
    · simp only [validateItems, hc1, h1]
      simp [List.range'_succ]
    · simp at h2 ⊢; omega

theorem processItems_total (E : ZogSchema) :
    ∀ (xs : List Any) (idx : Nat) (dest : List Any) (sub : SchemaCtx) (log : List Event),
      (∀ c : SchemaCtx, c.Val ∈ xs → ∃ c1, E.process c = some c1) →
      ∃ dest1 sub1, processItems E xs idx dest sub log =
          some (dest1, sub1, log ++ (List.range' idx xs.length).map Event.schema) ∧
        dest1.length = dest.length + xs.length := by
  intro xs
  induction xs with
  | nil => intro idx dest sub log _; exact ⟨dest, sub, by simp [processItems], by simp⟩
  | cons x xs ih =>
    intro idx dest sub log hE
    obtain ⟨c1, hc1⟩ := hE
      { sub with Val := x, DestPtr := .null, Path := sub.Path.Push ("[" ++ toString idx ++ "]") }
      (List.mem_cons_self _ _)
    obtain ⟨dest1, sub1, h1, h2⟩ := ih (idx + 1) (dest ++ [c1.DestPtr]) { c1 with Path := c1.Path.Pop }
      (log ++ [Event.schema idx]) (fun c hc => hE c (List.mem_cons_of_mem _ hc))
    refine ⟨dest1, sub1, ?_, ?_⟩
    · simp only [processItems, hc1, h1]
      simp [List.range'_succ]
    · simp at h2 ⊢; omega

theorem validateItems_path (E : ZogSchema)
    (hE : ∀ c c', E.validate c = some c' → c'.Path = c.Path) :
    ∀ (xs : List Any) (idx : Nat) (done : List Any) (sub : SchemaCtx) (log : List Event)
      (r : List Any × SchemaCtx × List Event),
      validateItems E xs idx done sub log = some r → r.2.1.Path = sub.Path := by
  intro xs
  induction xs with
  | nil =>
    intro idx done sub log r h
    simp only [validateItems, Option.some.injEq] at h
    subst h; rfl
  | cons x xs ih =>
    intro idx done sub log r h
    simp only [validateItems] at h
    split at h
    · cases h
    · next c1 hc1 =>
      have hp := hE _ _ hc1
      have := ih _ _ _ _ _ h
      simp only at this hp
      rw [this, hp, pathPop_Push]

theorem processItems_path (E : ZogSchema)
    (hE : ∀ c c', E.process c = some c' → c'.Path = c.Path) :
    ∀ (xs : List Any) (idx : Nat) (dest : List Any) (sub : SchemaCtx) (log : List Event)
      (r : List Any × SchemaCtx × List Event),
      processItems E xs idx dest sub log = some r → r.2.1.Path = sub.Path := by
  intro xs
  induction xs with
  | nil =>
    intro idx dest sub log r h
    simp only [processItems, Option.some.injEq] at h
    subst h; rfl
  | cons x xs ih =>
    intro idx dest sub log r h
    simp only [processItems] at h
    split at h
    · cases h
    · next c1 hc1 =>
      have hp := hE _ _ hc1
      have := ih _ _ _ _ _ h
      simp only at this hp
      rw [this, hp, pathPop_Push]

theorem validateItems_log (E : ZogSchema) :
    ∀ (xs : List Any) (idx : Nat) (done : List Any) (sub : SchemaCtx) (log : List Event)
      (r : List Any × SchemaCtx × List Event),
      validateItems E xs idx done sub log = some r →
        r.2.2 = log ++ (List.range' idx xs.length).map Event.schema := by
  intro xs
  induction xs with
  | nil =>
    intro idx done sub log r h
    simp only [validateItems, Option.some.injEq] at h
    subst h; simp
  | cons x xs ih =>
    intro idx done sub log r h
    simp only [validateItems] at h
    split at h
    · cases h
    · next c1 hc1 =>
      rw [ih _ _ _ _ _ h]
      simp [List.range'_succ]

theorem processItems_log (E : ZogSchema) :
    ∀ (xs : List Any) (idx : Nat) (dest : List Any) (sub : SchemaCtx) (log : List Event)
      (r : List Any × SchemaCtx × List Event),
      processItems E xs idx dest sub log = some r →
        r.2.2 = log ++ (List.range' idx xs.length).map Event.schema := by
  intro xs
  induction xs with
  | nil =>
    intro idx dest sub log r h
    simp only [processItems, Option.some.injEq] at h
    subst h; simp
  | cons x xs ih =>
    intro idx dest sub log r h
    simp only [processItems] at h
    split at h
    · cases h
    · next c1 hc1 =>
      rw [ih _ _ _ _ _ h]
      simp [List.range'_succ]

theorem validateTests_eq (tests : List Test) :
    ∀ (i : Nat) (ctx : SchemaCtx) (log : List Event),
      validateTests tests i ctx log = testsLoop (.ptr ctx.Val) tests i ctx log := by
  induction tests with
  | nil => intro i ctx log; rfl
  | cons t ts ih =>
    intro i ctx log
    simp only [validateTests, testsLoop]
    split
    · rfl
    · next ok _ =>
      rw [ih]
      cases ok <;> rfl

theorem processTests_eq (tests : List Test) :
    ∀ (i : Nat) (ctx : SchemaCtx) (log : List Event),
      processTests tests i ctx log = testsLoop (.ptr ctx.DestPtr) tests i ctx log := by
  induction tests with
  | nil => intro i ctx log; rfl
  | cons t ts ih =>
    intro i ctx log
    simp only [processTests, testsLoop]
    split
    · rfl
    · next ok _ =>
      rw [ih]
      cases ok <;> rfl

theorem withIssues_nil (c : SchemaCtx) : c.withIssues [] = c := by
  simp [SchemaCtx.withIssues]

theorem withIssues_withIssues (c : SchemaCtx) (a b : List Issue) :
    (c.withIssues a).withIssues b = c.withIssues (a ++ b) := by
  simp [SchemaCtx.withIssues]

theorem testsLoop_spec (val : Any) (tests : List Test) :
    ∀ (i : Nat) (ctx : SchemaCtx) (log : List Event),
      (∀ t ∈ tests, ∀ c : SchemaCtx, ∃ b, t.ValidateFunc val c = some b) →
      ∃ oks : List Bool, oks.length = tests.length ∧
        testsLoop val tests i ctx log =
          some (ctx.withIssues (failedIssues ctx.Path.String tests oks),
            log ++ (List.range' i tests.length).map Event.test) ∧
        ∀ (j : Nat) (t : Test) (b : Bool), tests[j]? = some t → oks[j]? = some b →
          t.ValidateFunc val
            (ctx.withIssues (failedIssues ctx.Path.String (tests.take j) (oks.take j))) = some b := by
  induction tests with
  | nil =>
    intro i ctx log _
    exact ⟨[], rfl, by simp [testsLoop, failedIssues, withIssues_nil], by simp⟩
  | cons t ts ih =>
    intro i ctx log hT
    obtain ⟨b, hb⟩ := hT t (List.mem_cons_self _ _) ctx
    have hT1 : ∀ t ∈ ts, ∀ c : SchemaCtx, ∃ b, t.ValidateFunc val c = some b :=
      fun t ht c => hT t (List.mem_cons_of_mem _ ht) c
    have hstep : (if !b then ctx.AddIssue (ctx.IssueFromTest t val) else ctx) =
        ctx.withIssues (if b then [] else [Issue.test ctx.Path.String t.IssueCode t.Params]) := by
      cases b <;> simp [SchemaCtx.withIssues, SchemaCtx.AddIssue, SchemaCtx.IssueFromTest]
    obtain ⟨oks, hlen, hrun, hk⟩ := ih (i + 1)
      (ctx.withIssues (if b then [] else [Issue.test ctx.Path.String t.IssueCode t.Params]))
      (log ++ [Event.test i]) hT1
    have hpath : (ctx.withIssues
        (if b then [] else [Issue.test ctx.Path.String t.IssueCode t.Params])).Path = ctx.Path := rfl
    rw [hpath] at hrun hk
    refine ⟨b :: oks, by simp [hlen], ?_, ?_⟩
    · simp only [testsLoop, hb, hstep, hrun, failedIssues, withIssues_withIssues]
      simp [List.range'_succ]
    · intro j t1 b1 h1 h2
      cases j with
      | zero =>
        simp only [List.getElem?_cons_zero, Option.some.injEq] at h1 h2
        subst h1 h2
        simpa [failedIssues, withIssues_nil] using hb
      | succ j =>
        simp only [List.getElem?_cons_succ] at h1 h2
        have := hk j t1 b1 h1 h2
        simpa [failedIssues, withIssues_withIssues] using this

theorem testsLoop_ret (val : Any) (tests : List Test) :
    ∀ (i : Nat) (ctx : SchemaCtx) (log : List Event) (r : SchemaCtx × List Event),
      testsLoop val tests i ctx log = some r →
        r.1.Path = ctx.Path ∧ r.1.Val = ctx.Val ∧ r.1.DestPtr = ctx.DestPtr ∧
          r.2 = log ++ (List.range' i tests.length).map Event.test := by
  induction tests with
  | nil =>
    intro i ctx log r h
    simp only [testsLoop, Option.some.injEq] at h
    subst h; simp
  | cons t ts ih =>
    intro i ctx log r h
    simp only [testsLoop] at h
    split at h
    · cases h
    · next ok _ =>
      obtain ⟨h1, h2, h3, h4⟩ := ih _ _ _ _ h
      refine ⟨?_, ?_, ?_, ?_⟩
      · rw [h1]; cases ok <;> rfl
      · rw [h2]; cases ok <;> rfl
      · rw [h3]; cases ok <;> rfl
      · rw [h4]; simp [List.range'_succ]

theorem validatePostLoop_ret (ps : List PostTransform) :
    ∀ (i : Nat) (ctx : SchemaCtx) (log : List Event),
      (validatePostLoop ps i ctx log).1.Path = ctx.Path ∧
        ∃ k, k ≤ ps.length ∧
          (validatePostLoop ps i ctx log).2 = log ++ (List.range' i k).map Event.postTransform := by
  induction ps with
  | nil => intro i ctx log; exact ⟨rfl, 0, by simp, by simp [validatePostLoop]⟩
  | cons fn fns ih =>
    intro i ctx log
    simp only [validatePostLoop]
    split
    · next nVal err _ =>
      exact ⟨rfl, 1, by simp, by simp [List.range'_succ]⟩
    · next nVal _ =>
      obtain ⟨h1, k, hk, h2⟩ := ih (i + 1) { ctx with Val := nVal } (log ++ [Event.postTransform i])
      refine ⟨h1, k + 1, by simpa using hk, ?_⟩
      rw [h2]; simp [List.range'_succ]

theorem processPostLoop_ret (ps : List PostTransform) :
    ∀ (i : Nat) (ctx : SchemaCtx) (log : List Event),
      (processPostLoop ps i ctx log).1.Path = ctx.Path ∧
        ∃ k, k ≤ ps.length ∧
          (processPostLoop ps i ctx log).2 = log ++ (List.range' i k).map Event.postTransform := by
  induction ps with
  | nil => intro i ctx log; exact ⟨rfl, 0, by simp, by simp [processPostLoop]⟩
  | cons fn fns ih =>
    intro i ctx log
    simp only [processPostLoop]
    split
    · next nVal err _ =>
      exact ⟨rfl, 1, by simp, by simp [List.range'_succ]⟩
    · next nVal _ =>
      obtain ⟨h1, k, hk, h2⟩ := ih (i + 1) { ctx with DestPtr := nVal } (log ++ [Event.postTransform i])
      refine ⟨h1, k + 1, by simpa using hk, ?_⟩
      rw [h2]; simp [List.range'_succ]

theorem pathString_Push_ne (p : PathBuilder) (idx : Nat) (suffix : String) :
    (p.Push ("[" ++ toString idx ++ "]")).String ++ suffix ≠ p.String := by
  intro h
  have h1 := congrArg String.length h
  rw [pathString_Push] at h1
  simp only [String.length_append] at h1
  have h2 : "[".length = 1 := by decide
  omega

theorem validateItems_issues (E : ZogSchema) :
    ∀ (xs : List Any) (idx : Nat) (done : List Any) (sub : SchemaCtx) (log : List Event),
      (∀ c : SchemaCtx, c.Val ∈ xs → ∃ c1, E.validate c = some c1 ∧ c1.Path = c.Path ∧
        ∃ new, c1.exec.Errs = c.exec.Errs ++ new ∧
          ∀ e ∈ new, ∃ suffix, e.Path = c.Path.String ++ suffix) →
      ∃ done1 sub1 new, validateItems E xs idx done sub log =
          some (done1, sub1, log ++ (List.range' idx xs.length).map Event.schema) ∧
        done1.length = done.length + xs.length ∧ sub1.Path = sub.Path ∧
        sub1.exec.Errs = sub.exec.Errs ++ new ∧ ∀ e ∈ new, e.Path ≠ sub.Path.String := by
  intro xs
  induction xs with
  | nil =>
    intro idx done sub log _
    exact ⟨done, sub, [], by simp [validateItems], by simp, rfl, by simp, by simp⟩
  | cons x xs ih =>
    intro idx done sub log hE
    obtain ⟨c1, hc1, hp1, new1, he1, hn1⟩ :=
      hE { sub with Val := x, Path := sub.Path.Push ("[" ++ toString idx ++ "]"), Exit := false }
        (List.mem_cons_self _ _)
    obtain ⟨done1, sub1, new2, h1, h2, h3, h4, h5⟩ :=
      ih (idx + 1) (done ++ [c1.Val]) { c1 with Path := c1.Path.Pop } (log ++ [Event.schema idx])
        (fun c hc => hE c (List.mem_cons_of_mem _ hc))
    simp only at hp1 he1 hn1 h3 h4 h5
    have hpop : c1.Path.Pop = sub.Path := by rw [hp1, pathPop_Push]
    refine ⟨done1, sub1, new1 ++ new2, ?_, ?_, ?_, ?_, ?_⟩
    · simp only [validateItems, hc1, h1]
      simp [List.range'_succ]
    · simp at h2 ⊢; omega
    · rw [h3, hpop]
    · rw [h4, he1]; simp
    · intro e he
      rcases List.mem_append.mp he with he | he
      · obtain ⟨suffix, hs⟩ := hn1 e he
        rw [hs]
        exact pathString_Push_ne _ _ _
      · rw [← hpop]; exact h5 e he

theorem processPostLoop_ok (ps : List PostTransform)
    (hps : ∀ fn ∈ ps, ∀ (x : Any) (c : SchemaCtx), (fn x c).2 = none) :
    ∀ (i : Nat) (ctx : SchemaCtx) (log : List Event),
      (processPostLoop ps i ctx log).1.exec = ctx.exec ∧
        (processPostLoop ps i ctx log).2 =
          log ++ (List.range' i ps.length).map Event.postTransform := by
  induction ps with
  | nil => intro i ctx log; simp [processPostLoop]
  | cons fn fns ih =>
    intro i ctx log
    have h := hps fn (List.mem_cons_self _ _) ctx.DestPtr ctx
    simp only [processPostLoop]
    split
    · next nVal err hfn => rw [hfn] at h; cases h
    · next nVal hfn =>
      obtain ⟨h1, h2⟩ := ih (fun g hg => hps g (List.mem_cons_of_mem _ hg)) (i + 1)
        { ctx with DestPtr := nVal } (log ++ [Event.postTransform i])
      refine ⟨h1, ?_⟩
      rw [h2]; simp [List.range'_succ]

theorem validateItems_keyed (E : ZogSchema) (F : PathBuilder → Any → List Issue) :
    ∀ (xs : List Any) (idx : Nat) (done : List Any) (sub : SchemaCtx) (log : List Event),
      (∀ c : SchemaCtx, c.Val ∈ xs → ∃ c1, E.validate c = some c1 ∧ c1.Path = c.Path ∧
        c1.exec.Errs = c.exec.Errs ++ F c.Path c.Val) →
      ∃ done1 sub1, validateItems E xs idx done sub log =
          some (done1, sub1, log ++ (List.range' idx xs.length).map Event.schema) ∧
        done1.length = done.length + xs.length ∧ sub1.Path = sub.Path ∧
        sub1.exec.Errs = sub.exec.Errs ++
          (xs.enumFrom idx).flatMap
            (fun ix => F (sub.Path.Push ("[" ++ toString ix.1 ++ "]")) ix.2) := by
  intro xs
  induction xs with
  | nil =>
    intro idx done sub log _
    exact ⟨done, sub, by simp [validateItems], by simp, rfl, by simp⟩
  | cons x xs ih =>
    intro idx done sub log hE
    obtain ⟨c1, hc1, hp1, he1⟩ :=
      hE { sub with Val := x, Path := sub.Path.Push ("[" ++ toString idx ++ "]"), Exit := false }
        (List.mem_cons_self _ _)
    obtain ⟨done1, sub1, h1, h2, h3, h4⟩ :=
      ih (idx + 1) (done ++ [c1.Val]) { c1 with Path := c1.Path.Pop } (log ++ [Event.schema idx])
        (fun c hc => hE c (List.mem_cons_of_mem _ hc))
    simp only at hp1 he1 h3 h4
    have hpop : c1.Path.Pop = sub.Path := by rw [hp1, pathPop_Push]
    refine ⟨done1, sub1, ?_, ?_, ?_, ?_⟩
    · simp only [validateItems, hc1, h1]
      simp [List.range'_succ]
    · simp at h2 ⊢; omega
    · rw [h3, hpop]
    · rw [h4, he1, hpop]
      simp [List.enumFrom_cons, List.flatMap_cons]

theorem plainSlice_validate_keyed (co : CoercerFunc) (E : ZogSchema)
    (F : PathBuilder → Any → List Issue) (c : SchemaCtx) (xs : List Any)
    (hval : c.Val = .slice xs)
    (hE : ∀ c : SchemaCtx, c.Val ∈ xs → ∃ c1, E.validate c = some c1 ∧ c1.Path = c.Path ∧
        c1.exec.Errs = c.exec.Errs ++ F c.Path c.Val) :
    ∃ c1, (Slice co E []).toZogSchema.validate c = some c1 ∧ c1.Path = c.Path ∧
      c1.exec.Errs = c.exec.Errs ++
        xs.enum.flatMap (fun ix => F (c.Path.Push ("[" ++ toString ix.1 ++ "]")) ix.2) := by
  cases xs with
  | nil =>
    refine ⟨c, ?_, rfl, by simp⟩
    simp [SliceSchema.toZogSchema, SliceSchema.validate, SliceSchema.validateBody, Slice,
      preTransformLoop, SliceSchema.validateFromZeroCheck, hval, IsZeroValue, Any.Len,
      SliceSchema.validateDeferred, validatePostLoop]
  | cons x xs =>
    obtain ⟨done1, sub1, h1, h2, h3, h4⟩ := validateItems_keyed E F (x :: xs) 0 []
      (c.NewSchemaCtx c.Val c.DestPtr c.Path E.getType) [] hE
    simp only [SchemaCtx.NewSchemaCtx, ExecCtx.NewSchemaCtx, hval] at h1 h2 h3 h4
    refine ⟨{ c with Val := .slice done1, Path := sub1.Path, exec := sub1.exec }, ?_, h3, ?_⟩
    · simp [SliceSchema.toZogSchema, SliceSchema.validate, SliceSchema.validateBody, Slice,
        preTransformLoop, SliceSchema.validateFromZeroCheck, hval, IsZeroValue, Any.Len,
        SliceSchema.validateDeferred, validatePostLoop, SliceSchema.validateItemsAndTests,
        Any.elems, SchemaCtx.NewSchemaCtx, ExecCtx.NewSchemaCtx, h1, validateTests]
    · simpa [List.enum] using h4

theorem toZogSchema_validate (v : SliceSchema) (c : SchemaCtx) :
    v.toZogSchema.validate c = (v.validate c).map (fun r => r.1) := rfl

theorem validateDeferred_path (v : SliceSchema) (r : SchemaCtx × List Event) :
    (v.validateDeferred r).1.Path = r.1.Path := by
  simp only [SliceSchema.validateDeferred]
  split
  · exact (validatePostLoop_ret v.postTransforms 0 r.1 r.2).1
  · rfl

theorem processDeferred_path (v : SliceSchema) (r : SchemaCtx × List Event) :
    (v.processDeferred r).1.Path = r.1.Path := by
  simp only [SliceSchema.processDeferred]
  split
  · exact (processPostLoop_ret v.postTransforms 0 r.1 r.2).1
  · rfl

theorem validateItemsAndTests_path (v : SliceSchema)
    (hE : ∀ c c1, v.schema.validate c = some c1 → c1.Path = c.Path)
    (ctx : SchemaCtx) (log : List Event) (r : SchemaCtx × List Event)
    (h : v.validateItemsAndTests ctx log = some r) : r.1.Path = ctx.Path := by
  simp only [SliceSchema.validateItemsAndTests] at h
  split at h
  · cases h
  · next xs _ =>
    split at h
    · cases h
    · next done sub log1 hitems =>
      have hp := validateItems_path v.schema hE _ _ _ _ _ _ hitems
      rw [validateTests_eq] at h
      obtain ⟨h1, _, _, _⟩ := testsLoop_ret _ _ _ _ _ _ h
      rw [h1]
      simpa [SchemaCtx.NewSchemaCtx, ExecCtx.NewSchemaCtx] using hp

theorem processItemsAndTests_path (v : SliceSchema)
    (hE : ∀ c c1, v.schema.process c = some c1 → c1.Path = c.Path)
    (ctx : SchemaCtx) (refVal : Any) (log : List Event) (r : SchemaCtx × List Event)
    (h : v.processItemsAndTests ctx refVal log = some r) : r.1.Path = ctx.Path := by
  simp only [SliceSchema.processItemsAndTests] at h
  split at h
  · cases h
  · next xs _ =>
    split at h
    · cases h
    · next dest sub log1 hitems =>
      have hp := processItems_path v.schema hE _ _ _ _ _ _ hitems
      rw [processTests_eq] at h
      obtain ⟨h1, _, _, _⟩ := testsLoop_ret _ _ _ _ _ _ h
      rw [h1]
      simpa [SchemaCtx.NewSchemaCtx, ExecCtx.NewSchemaCtx] using hp

theorem validateFromZeroCheck_path (v : SliceSchema)
    (hE : ∀ c c1, v.schema.validate c = some c1 → c1.Path = c.Path)
    (ctx : SchemaCtx) (log : List Event) (r : SchemaCtx × List Event)
    (h : v.validateFromZeroCheck ctx log = some r) : r.1.Path = ctx.Path := by
  simp only [SliceSchema.validateFromZeroCheck] at h
  split at h
  · cases h
  · split at h
    · exact validateItemsAndTests_path v hE { ctx with Val := v.defaultVal } _ _ h
    · split at h
      · simp only [Option.some.injEq] at h
        subst h; rfl
      · simp only [Option.some.injEq] at h
        subst h; rfl
  · exact validateItemsAndTests_path v hE _ _ _ h

theorem processFromZeroCheck_path (v : SliceSchema)
    (hE : ∀ c c1, v.schema.process c = some c1 → c1.Path = c.Path)
    (ctx : SchemaCtx) (log : List Event) (r : SchemaCtx × List Event)
    (h : v.processFromZeroCheck ctx log = some r) : r.1.Path = ctx.Path := by
  simp only [SliceSchema.processFromZeroCheck] at h
  split at h
  · split at h
    · exact processItemsAndTests_path v hE _ _ _ _ h
    · split at h
      · simp only [Option.some.injEq] at h
        subst h; rfl
      · simp only [Option.some.injEq] at h
        subst h; rfl
  · split at h
    · simp only [Option.some.injEq] at h
      subst h; rfl
    · exact processItemsAndTests_path v hE _ _ _ _ h

theorem validateItemsAndTests_log (v : SliceSchema) (ctx : SchemaCtx) (log : List Event)
    (r : SchemaCtx × List Event) (h : v.validateItemsAndTests ctx log = some r) :
    ∃ n, r.2 = log ++ ((List.range' 0 n).map Event.schema ++
      (List.range' 0 v.tests.length).map Event.test) := by
  simp only [SliceSchema.validateItemsAndTests] at h
  split at h
  · cases h
  · next xs _ =>
    split at h
    · cases h
    · next done sub log1 hitems =>
      have hl := validateItems_log v.schema _ _ _ _ _ _ hitems
      rw [validateTests_eq] at h
      obtain ⟨_, _, _, h4⟩ := testsLoop_ret _ _ _ _ _ _ h
      simp only at hl
      exact ⟨xs.length, by rw [h4, hl, List.append_assoc]⟩

theorem processItemsAndTests_log (v : SliceSchema) (ctx : SchemaCtx) (refVal : Any)
    (log : List Event) (r : SchemaCtx × List Event)
    (h : v.processItemsAndTests ctx refVal log = some r) :
    ∃ n, r.2 = log ++ ((List.range' 0 n).map Event.schema ++
      (List.range' 0 v.tests.length).map Event.test) := by
  simp only [SliceSchema.processItemsAndTests] at h
  split at h
  · cases h
  · next xs _ =>
    split at h
    · cases h
    · next dest sub log1 hitems =>
      have hl := processItems_log v.schema _ _ _ _ _ _ hitems
      rw [processTests_eq] at h
      obtain ⟨_, _, _, h4⟩ := testsLoop_ret _ _ _ _ _ _ h
      simp only at hl
      exact ⟨xs.length, by rw [h4, hl, List.append_assoc]⟩

theorem validateFromZeroCheck_log (v : SliceSchema) (ctx : SchemaCtx) (log : List Event)
    (r : SchemaCtx × List Event) (h : v.validateFromZeroCheck ctx log = some r) :
    ∃ l, r.2 = log ++ l ∧ ∀ i, Event.postTransform i ∉ l := by
  simp only [SliceSchema.validateFromZeroCheck] at h
  split at h
  · cases h
  · split at h
    · obtain ⟨n, hn⟩ := validateItemsAndTests_log v _ _ _ h
      exact ⟨_, hn, by simp⟩
    · split at h
      · simp only [Option.some.injEq] at h
        subst h; exact ⟨[], by simp, by simp⟩
      · simp only [Option.some.injEq] at h
        subst h; exact ⟨[], by simp, by simp⟩
  · obtain ⟨n, hn⟩ := validateItemsAndTests_log v _ _ _ h
    exact ⟨_, hn, by simp⟩

theorem processFromZeroCheck_log (v : SliceSchema) (ctx : SchemaCtx) (log : List Event)
    (r : SchemaCtx × List Event) (h : v.processFromZeroCheck ctx log = some r) :
    ∃ l, r.2 = log ++ l ∧ ∀ i, Event.postTransform i ∉ l := by
  simp only [SliceSchema.processFromZeroCheck] at h
  split at h
  · split at h
    · obtain ⟨n, hn⟩ := processItemsAndTests_log v _ _ _ _ h
      exact ⟨_, hn, by simp⟩
    · split at h
      · simp only [Option.some.injEq] at h
        subst h; exact ⟨[], by simp, by simp⟩
      · simp only [Option.some.injEq] at h
        subst h; exact ⟨[], by simp, by simp⟩
  · split at h
    · simp only [Option.some.injEq] at h
      subst h; exact ⟨[Event.coercer], by simp, by simp⟩
    · obtain ⟨n, hn⟩ := processItemsAndTests_log v _ _ _ _ h
      exact ⟨[Event.coercer] ++ ((List.range' 0 n).map Event.schema ++
        (List.range' 0 v.tests.length).map Event.test), by rw [hn]; simp, by simp⟩

theorem validatePostLoop_errs (ps : List PostTransform) :
    ∀ (i : Nat) (ctx : SchemaCtx) (log : List Event),
      (validatePostLoop ps i ctx log).1.exec.Errs = ctx.exec.Errs ∨
        ∃ err, (validatePostLoop ps i ctx log).1.exec.Errs =
          ctx.exec.Errs ++ [Issue.unknown ctx.Path.String err] := by
  induction ps with
  | nil => intro i ctx log; exact Or.inl rfl
  | cons fn fns ih =>
    intro i ctx log
    simp only [validatePostLoop]
    split
    · next nVal err _ => exact Or.inr ⟨err, rfl⟩
    · next nVal _ => exact ih (i + 1) { ctx with Val := nVal } (log ++ [Event.postTransform i])

theorem processPostLoop_errs (ps : List PostTransform) :
    ∀ (i : Nat) (ctx : SchemaCtx) (log : List Event),
      (processPostLoop ps i ctx log).1.exec.Errs = ctx.exec.Errs ∨
        ∃ err, (processPostLoop ps i ctx log).1.exec.Errs =
          ctx.exec.Errs ++ [Issue.unknown ctx.Path.String err] := by
  induction ps with
  | nil => intro i ctx log; exact Or.inl rfl
  | cons fn fns ih =>
    intro i ctx log
    simp only [processPostLoop]
    split
    · next nVal err _ => exact Or.inr ⟨err, rfl⟩
    · next nVal _ => exact ih (i + 1) { ctx with DestPtr := nVal } (log ++ [Event.postTransform i])

theorem validateItems_unchanged (E : ZogSchema) :
    ∀ (xs : List Any) (idx : Nat) (done : List Any) (sub : SchemaCtx) (log : List Event)
      (r : List Any × SchemaCtx × List Event),
      (∀ c c1 : SchemaCtx, c.Val ∈ xs → E.validate c = some c1 → c1.Val = c.Val) →
      validateItems E xs idx done sub log = some r → r.1 = done ++ xs := by
  intro xs
  induction xs with
  | nil =>
    intro idx done sub log r _ h
    simp only [validateItems, Option.some.injEq] at h
    subst h; simp
  | cons x xs ih =>
    intro idx done sub log r hE h
    simp only [validateItems] at h
    split at h
    · cases h
    · next c1 hc1 =>
      have hval := hE _ _ (List.mem_cons_self _ _) hc1
      have := ih _ _ _ _ _ (fun c c2 hc => hE c c2 (List.mem_cons_of_mem _ hc)) h
      simp only at hval
      rw [this, hval]
      simp

theorem containsLoop_iff (value : Any) (xs : List Any) :
    containsLoop value xs = true ↔ ∃ e ∈ xs, e = value := by
  induction xs with
  | nil => simp [containsLoop]
  | cons y ys ih =>
    simp only [containsLoop, DeepEqual]
    by_cases h : y = value
    · simp [h]
    · have h1 : ¬ value = y := fun e => h e.symm
      simp [h, h1, ih]

theorem validateItems_quiet (E : ZogSchema) :
    ∀ (xs : List Any) (idx : Nat) (done : List Any) (sub : SchemaCtx) (log : List Event),
      (∀ c : SchemaCtx, c.Val ∈ xs → ∃ c1, E.validate c = some c1 ∧ c1.Val = c.Val ∧
        c1.exec.Errs = c.exec.Errs) →
      ∃ sub1, validateItems E xs idx done sub log =
          some (done ++ xs, sub1, log ++ (List.range' idx xs.length).map Event.schema) ∧
        sub1.exec.Errs = sub.exec.Errs := by
  intro xs
  induction xs with
  | nil =>
    intro idx done sub log _
    exact ⟨sub, by simp [validateItems], rfl⟩
  | cons x xs ih =>
    intro idx done sub log hE
    obtain ⟨c1, hc1, hv1, he1⟩ :=
      hE { sub with Val := x, Path := sub.Path.Push ("[" ++ toString idx ++ "]"), Exit := false }
        (List.mem_cons_self _ _)
    obtain ⟨sub1, h1, h2⟩ :=
      ih (idx + 1) (done ++ [c1.Val]) { c1 with Path := c1.Path.Pop } (log ++ [Event.schema idx])
        (fun c hc => hE c (List.mem_cons_of_mem _ hc))
    simp only at hv1 he1 h2
    refine ⟨sub1, ?_, by rw [h2, he1]⟩
    rw [hv1] at h1
    simp only [validateItems, hc1, hv1, h1]
    simp [List.range'_succ]

theorem testsLoop_all_pass (val : Any) (tests : List Test) :
    ∀ (i : Nat) (ctx : SchemaCtx) (log : List Event),
      (∀ t ∈ tests, ∀ c : SchemaCtx, t.ValidateFunc val c = some true) →
      testsLoop val tests i ctx log =
        some (ctx, log ++ (List.range' i tests.length).map Event.test) := by
  induction tests with
  | nil => intro i ctx log _; simp [testsLoop]
  | cons t ts ih =>
    intro i ctx log hT
    have ht := hT t (List.mem_cons_self _ _) ctx
    simp only [testsLoop, ht]
    rw [show (if (!true) = true then ctx.AddIssue (ctx.IssueFromTest t val) else ctx) = ctx from rfl]
    rw [ih (i + 1) ctx _ (fun t1 h1 c => hT t1 (List.mem_cons_of_mem _ h1) c)]
    simp [List.range'_succ]

theorem processItems_written (E : ZogSchema) (w : Any → Any) :
    ∀ (xs : List Any) (idx : Nat) (dest : List Any) (sub : SchemaCtx) (log : List Event),
      (∀ c : SchemaCtx, c.Val ∈ xs → ∃ c1, E.process c = some c1 ∧ c1.DestPtr = w c.Val) →
      ∃ sub1, processItems E xs idx dest sub log =
          some (dest ++ xs.map w, sub1, log ++ (List.range' idx xs.length).map Event.schema) ∧
        ((∀ c c1 : SchemaCtx, c.Val ∈ xs → E.process c = some c1 →
            c1.exec.Errs = c.exec.Errs) → sub1.exec.Errs = sub.exec.Errs) := by
  intro xs
  induction xs with
  | nil =>
    intro idx dest sub log _
    exact ⟨sub, by simp [processItems], fun _ => rfl⟩
  | cons x xs ih =>
    intro idx dest sub log hE
    obtain ⟨c1, hc1, hw1⟩ :=
      hE { sub with Val := x, DestPtr := .null, Path := sub.Path.Push ("[" ++ toString idx ++ "]") }
        (List.mem_cons_self _ _)
    obtain ⟨sub1, h1, h2⟩ :=
      ih (idx + 1) (dest ++ [c1.DestPtr]) { c1 with Path := c1.Path.Pop }
        (log ++ [Event.schema idx]) (fun c hc => hE c (List.mem_cons_of_mem _ hc))
    simp only at hw1
    refine ⟨sub1, ?_, ?_⟩
    · rw [hw1] at h1
      simp only [processItems, hc1, hw1, h1]
      simp [List.range'_succ]
    · intro hq
      have hq1 := hq _ _ (List.mem_cons_self _ _) hc1
      have := h2 (fun c c2 hc => hq c c2 (List.mem_cons_of_mem _ hc))
      simp only at this hq1
      rw [this, hq1]

theorem validatePostLoop_trace (qs more : List PostTransform) :
    ∀ (i : Nat) (ctx : SchemaCtx) (log : List Event) (val : Nat → Any),
      val 0 = ctx.Val →
      (∀ k g, qs[k]? = some g → g (val k) { ctx with Val := val k } = (val (k + 1), none)) →
      validatePostLoop (qs ++ more) i ctx log =
        validatePostLoop more (i + qs.length) { ctx with Val := val qs.length }
          (log ++ (List.range' i qs.length).map Event.postTransform) := by
  induction qs with
  | nil =>
    intro i ctx log val h0 _
    simp [h0]
  | cons g gs ih =>
    intro i ctx log val h0 hq
    have h : g ctx.Val ctx = (val 1, none) := by
      have := hq 0 g (by simp)
      rw [h0] at this
      exact this
    have hrec := ih (i + 1) { ctx with Val := val 1 } (log ++ [Event.postTransform i])
      (fun k => val (k + 1)) rfl (fun k g1 hk => hq (k + 1) g1 (by simpa using hk))
    have e : i + (g :: gs).length = i + 1 + gs.length := by
      simp only [List.length_cons]; omega
    simp only [List.cons_append, validatePostLoop]
    split
    · next nVal err hg => rw [hg] at h; cases h
    · next nVal hg =>
      rw [hg] at h
      simp only [Prod.mk.injEq, and_true] at h
      subst h
      rw [e]
      refine hrec.trans ?_
      simp [List.range'_succ]

theorem processPostLoop_trace (qs more : List PostTransform) :
    ∀ (i : Nat) (ctx : SchemaCtx) (log : List Event) (val : Nat → Any),
      val 0 = ctx.DestPtr →
      (∀ k g, qs[k]? = some g → g (val k) { ctx with DestPtr := val k } = (val (k + 1), none)) →
      processPostLoop (qs ++ more) i ctx log =
        processPostLoop more (i + qs.length) { ctx with DestPtr := val qs.length }
          (log ++ (List.range' i qs.length).map Event.postTransform) := by
  induction qs with
  | nil =>
    intro i ctx log val h0 _
    simp [h0]
  | cons g gs ih =>
    intro i ctx log val h0 hq
    have h : g ctx.DestPtr ctx = (val 1, none) := by
      have := hq 0 g (by simp)
      rw [h0] at this
      exact this
    have hrec := ih (i + 1) { ctx with DestPtr := val 1 } (log ++ [Event.postTransform i])
      (fun k => val (k + 1)) rfl (fun k g1 hk => hq (k + 1) g1 (by simpa using hk))
    have e : i + (g :: gs).length = i + 1 + gs.length := by
      simp only [List.length_cons]; omega
    simp only [List.cons_append, processPostLoop]
    split
    · next nVal err hg => rw [hg] at h; cases h
    · next nVal hg =>
      rw [hg] at h
      simp only [Prod.mk.injEq, and_true] at h
      subst h
      rw [e]
      refine hrec.trans ?_
      simp [List.range'_succ]

theorem validateItems_effect (E : ZogSchema) (w : Any → Any)
    (F : PathBuilder → Any → List Issue) :
    ∀ (xs : List Any) (idx : Nat) (done : List Any) (sub : SchemaCtx) (log : List Event),
      (∀ c : SchemaCtx, c.Val ∈ xs → ∃ c1, E.validate c = some c1 ∧ c1.Val = w c.Val ∧
        c1.Path = c.Path ∧ c1.exec.Errs = c.exec.Errs ++ F c.Path c.Val) →
      ∃ sub1, validateItems E xs idx done sub log =
          some (done ++ xs.map w, sub1, log ++ (List.range' idx xs.length).map Event.schema) ∧
        sub1.Path = sub.Path ∧
        sub1.exec.Errs = sub.exec.Errs ++
          (xs.enumFrom idx).flatMap
            (fun ix => F (sub.Path.Push ("[" ++ toString ix.1 ++ "]")) ix.2) := by
  intro xs
  induction xs with
  | nil =>
    intro idx done sub log _
    exact ⟨sub, by simp [validateItems], rfl, by simp⟩
  | cons x xs ih =>
    intro idx done sub log hE
    obtain ⟨c1, hc1, hw1, hp1, he1⟩ :=
      hE { sub with Val := x, Path := sub.Path.Push ("[" ++ toString idx ++ "]"), Exit := false }
        (List.mem_cons_self _ _)
    obtain ⟨sub1, h1, h3, h4⟩ :=
      ih (idx + 1) (done ++ [c1.Val]) { c1 with Path := c1.Path.Pop } (log ++ [Event.schema idx])
        (fun c hc => hE c (List.mem_cons_of_mem _ hc))
    simp only at hw1 hp1 he1 h3 h4
    have hpop : c1.Path.Pop = sub.Path := by rw [hp1, pathPop_Push]
    refine ⟨sub1, ?_, ?_, ?_⟩
    · rw [hw1] at h1
      simp only [validateItems, hc1, hw1, h1]
      simp [List.range'_succ]
    · rw [h3, hpop]
    · rw [h4, he1, hpop]
      simp [List.enumFrom_cons, List.flatMap_cons]

theorem processItems_effect (E : ZogSchema) (w : Any → Any)
    (F : PathBuilder → Any → List Issue) :
    ∀ (xs : List Any) (idx : Nat) (dest : List Any) (sub : SchemaCtx) (log : List Event),
      (∀ c : SchemaCtx, c.Val ∈ xs → ∃ c1, E.process c = some c1 ∧ c1.DestPtr = w c.Val ∧
        c1.Path = c.Path ∧ c1.exec.Errs = c.exec.Errs ++ F c.Path c.Val) →
      ∃ sub1, processItems E xs idx dest sub log =
          some (dest ++ xs.map w, sub1, log ++ (List.range' idx xs.length).map Event.schema) ∧
        sub1.Path = sub.Path ∧
        sub1.exec.Errs = sub.exec.Errs ++
          (xs.enumFrom idx).flatMap
            (fun ix => F (sub.Path.Push ("[" ++ toString ix.1 ++ "]")) ix.2) := by
  intro xs
  induction xs with
  | nil =>
    intro idx dest sub log _
    exact ⟨sub, by simp [processItems], rfl, by simp⟩
  | cons x xs ih =>
    intro idx dest sub log hE
    obtain ⟨c1, hc1, hw1, hp1, he1⟩ :=
      hE { sub with Val := x, DestPtr := .null, Path := sub.Path.Push ("[" ++ toString idx ++ "]") }
        (List.mem_cons_self _ _)
    obtain ⟨sub1, h1, h3, h4⟩ :=
      ih (idx + 1) (dest ++ [c1.DestPtr]) { c1 with Path := c1.Path.Pop }
        (log ++ [Event.schema idx]) (fun c hc => hE c (List.mem_cons_of_mem _ hc))
    simp only at hw1 hp1 he1 h3 h4
    have hpop : c1.Path.Pop = sub.Path := by rw [hp1, pathPop_Push]
    refine ⟨sub1, ?_, ?_, ?_⟩
    · rw [hw1] at h1
      simp only [processItems, hc1, hw1, h1]
      simp [List.range'_succ]
    · rw [h3, hpop]
    · rw [h4, he1, hpop]
      simp [List.enumFrom_cons, List.flatMap_cons]

theorem validateItemsAndTests_effect (v : SliceSchema) (ctx : SchemaCtx) (log : List Event)
    (xs : List Any) (w : Any → Any) (F : PathBuilder → Any → List Issue)
    (hxs : ctx.Val.elems = some xs)
    (hE : ∀ c : SchemaCtx, c.Val ∈ xs → ∃ c1, v.schema.validate c = some c1 ∧ c1.Val = w c.Val ∧
      c1.Path = c.Path ∧ c1.exec.Errs = c.exec.Errs ++ F c.Path c.Val)
    (hT : ∀ t ∈ v.tests, ∀ (x : Any) (c : SchemaCtx), x.elems = some (xs.map w) →
      ∃ ok, t.ValidateFunc (.ptr x) c = some ok) :
    ∃ (b : SchemaCtx × List Event) (oks : List Bool),
      v.validateItemsAndTests ctx log = some b ∧
      b.1.Val.elems = some (xs.map w) ∧
      ((∀ x ∈ xs, w x = x) → b.1.Val = ctx.Val) ∧
      b.1.Path = ctx.Path ∧
      oks.length = v.tests.length ∧
      b.1.exec.Errs = ctx.exec.Errs ++
        xs.enum.flatMap (fun ix => F (ctx.Path.Push ("[" ++ toString ix.1 ++ "]")) ix.2) ++
        failedIssues ctx.Path.String v.tests oks ∧
      (∀ (j : Nat) (t : Test) (ok : Bool), v.tests[j]? = some t → oks[j]? = some ok →
        t.ValidateFunc (.ptr b.1.Val)
          (b.1.setIssues (ctx.exec.Errs ++
            xs.enum.flatMap (fun ix => F (ctx.Path.Push ("[" ++ toString ix.1 ++ "]")) ix.2) ++
            failedIssues ctx.Path.String (v.tests.take j) (oks.take j))) = some ok) ∧
      b.2 = log ++ (List.range xs.length).map Event.schema ++
        (List.range v.tests.length).map Event.test := by
  obtain ⟨sub1, h1, h3, h4⟩ := validateItems_effect v.schema w F xs 0 []
    (ctx.NewSchemaCtx ctx.Val ctx.DestPtr ctx.Path v.schema.getType) log hE
  simp only [SchemaCtx.NewSchemaCtx, ExecCtx.NewSchemaCtx] at h3 h4
  have hfin : (match ctx.Val with | .slice _ => Any.slice ([] ++ xs.map w) | other => other).elems =
      some (xs.map w) := by
    cases hv : ctx.Val <;> rw [hv] at hxs <;> simp [Any.elems] at hxs ⊢
    rw [← hxs]
  obtain ⟨oks, hlen, h5, h6⟩ := testsLoop_spec
    (.ptr (match ctx.Val with | .slice _ => .slice ([] ++ xs.map w) | other => other)) v.tests 0
    { ctx with
      Val := (match ctx.Val with | .slice _ => .slice ([] ++ xs.map w) | other => other),
      Path := sub1.Path, exec := sub1.exec }
    (log ++ (List.range' 0 xs.length).map Event.schema) (fun t ht c => hT t ht _ c hfin)
  have hfull : v.validateItemsAndTests ctx log =
      testsLoop (.ptr (match ctx.Val with | .slice _ => .slice ([] ++ xs.map w) | other => other))
        v.tests 0
        { ctx with
          Val := (match ctx.Val with | .slice _ => .slice ([] ++ xs.map w) | other => other),
          Path := sub1.Path, exec := sub1.exec }
        (log ++ (List.range' 0 xs.length).map Event.schema) := by
    simp only [SliceSchema.validateItemsAndTests, hxs, h1, validateTests_eq]
  refine ⟨_, oks, hfull.trans h5, ?_, ?_, ?_, hlen, ?_, ?_, ?_⟩
  · simpa [SchemaCtx.withIssues] using hfin
  · intro hw
    have hmap : xs.map w = xs := by
      conv_rhs => rw [← List.map_id xs]
      exact List.map_congr_left hw
    cases hv : ctx.Val <;> rw [hv] at hxs <;> simp [Any.elems, SchemaCtx.withIssues] at hxs ⊢
    rw [hmap, hxs]
  · simp [SchemaCtx.withIssues, h3]
  · simp [SchemaCtx.withIssues, h3, h4, List.enum]
  · intro j t ok ht hok
    have := h6 j t ok ht hok
    simp only [SchemaCtx.withIssues, h3, h4] at this
    simpa [SchemaCtx.withIssues, SchemaCtx.setIssues, h3, h4, List.enum] using this
  · simp [List.range_eq_range']

theorem processItemsAndTests_effect (v : SliceSchema) (ctx : SchemaCtx) (refVal : Any)
    (log : List Event) (xs : List Any) (w : Any → Any) (F : PathBuilder → Any → List Issue)
    (hxs : refVal.elems = some xs)
    (hE : ∀ c : SchemaCtx, c.Val ∈ xs → ∃ c1, v.schema.process c = some c1 ∧
      c1.DestPtr = w c.Val ∧ c1.Path = c.Path ∧ c1.exec.Errs = c.exec.Errs ++ F c.Path c.Val)
    (hT : ∀ t ∈ v.tests, ∀ c : SchemaCtx,
      ∃ ok, t.ValidateFunc (.ptr (.slice (xs.map w))) c = some ok) :
    ∃ (b : SchemaCtx × List Event) (oks : List Bool),
      v.processItemsAndTests ctx refVal log = some b ∧
      b.1.DestPtr = .slice (xs.map w) ∧
      b.1.Val = ctx.Val ∧
      b.1.Path = ctx.Path ∧
      oks.length = v.tests.length ∧
      b.1.exec.Errs = ctx.exec.Errs ++
        xs.enum.flatMap (fun ix => F (ctx.Path.Push ("[" ++ toString ix.1 ++ "]")) ix.2) ++
        failedIssues ctx.Path.String v.tests oks ∧
      (∀ (j : Nat) (t : Test) (ok : Bool), v.tests[j]? = some t → oks[j]? = some ok →
        t.ValidateFunc (.ptr b.1.DestPtr)
          (b.1.setIssues (ctx.exec.Errs ++
            xs.enum.flatMap (fun ix => F (ctx.Path.Push ("[" ++ toString ix.1 ++ "]")) ix.2) ++
            failedIssues ctx.Path.String (v.tests.take j) (oks.take j))) = some ok) ∧
      b.2 = log ++ (List.range xs.length).map Event.schema ++
        (List.range v.tests.length).map Event.test := by
  obtain ⟨sub1, h1, h3, h4⟩ := processItems_effect v.schema w F xs 0 []
    ({ ctx with DestPtr := MakeSlice xs.length }.NewSchemaCtx ctx.Val
      (MakeSlice xs.length) ctx.Path v.schema.getType) log hE
  simp only [SchemaCtx.NewSchemaCtx, ExecCtx.NewSchemaCtx] at h3 h4
  obtain ⟨oks, hlen, h5, h6⟩ := testsLoop_spec (.ptr (.slice ([] ++ xs.map w))) v.tests 0
    { ctx with DestPtr := .slice ([] ++ xs.map w), Path := sub1.Path, exec := sub1.exec }
    (log ++ (List.range' 0 xs.length).map Event.schema)
    (fun t ht c => by simpa using hT t ht c)
  have hfull : v.processItemsAndTests ctx refVal log =
      testsLoop (.ptr (.slice ([] ++ xs.map w))) v.tests 0
        { ctx with DestPtr := .slice ([] ++ xs.map w), Path := sub1.Path, exec := sub1.exec }
        (log ++ (List.range' 0 xs.length).map Event.schema) := by
    simp only [SliceSchema.processItemsAndTests, hxs, h1, processTests_eq]
  refine ⟨_, oks, hfull.trans h5, ?_, ?_, ?_, hlen, ?_, ?_, ?_⟩
  · simp [SchemaCtx.withIssues]
  · simp [SchemaCtx.withIssues]
  · simp [SchemaCtx.withIssues, h3]
  · simp [SchemaCtx.withIssues, h3, h4, List.enum]
  · intro j t ok ht hok
    have := h6 j t ok ht hok
    simp only [SchemaCtx.withIssues, h3, h4] at this
    simpa [SchemaCtx.withIssues, SchemaCtx.setIssues, h3, h4, List.enum] using this
  · simp [List.range_eq_range']

/-! ## The claims -/

theorem execOptions_Errs (options : List ExecOption) :
    ∀ e : ExecCtx, (options.foldl (fun c opt => ExecOption.apply opt c) e).Errs = e.Errs := by
  induction options with
  | nil => intro e; rfl
  | cons o os ih =>
    intro e
    simp only [List.foldl_cons]
    rw [ih]
    cases o <;> rfl

theorem validateDeferred_nil (v : SliceSchema) (h : v.postTransforms = [])
    (r : SchemaCtx × List Event) : v.validateDeferred r = r := by
  simp [SliceSchema.validateDeferred, h, validatePostLoop]

theorem processDeferred_nil (v : SliceSchema) (h : v.postTransforms = [])
    (r : SchemaCtx × List Event) : v.processDeferred r = r := by
  simp [SliceSchema.processDeferred, h, processPostLoop]

/-- C1, the first half as the claim states it, at `Slice(E).Min(1)` and the sequence of
length 0: the length is below the minimum, yet it is false that the returned map holds
the issue with code "min" at the root path. -/
theorem C1_counterexample :
    ¬ (((([] : List Any).length : Int) < 1) →
        ∃ M data, ((Slice coerceSame leafAccept []).Min 1 []).Validate (.slice []) [] = some (M, data) ∧
          M.get NewPathBuilder.String =
            [Issue.test NewPathBuilder.String IssueCodeMin [(IssueCodeMin, .int 1)]]) := by
  intro h
  obtain ⟨M, data, h1, h2⟩ := h (by decide)
  have h3 : ((Slice coerceSame leafAccept []).Min 1 []).Validate (.slice []) [] = some ([], .slice []) := by
    decide
  rw [h3] at h1
  simp only [Option.some.injEq, Prod.mk.injEq] at h1
  obtain ⟨rfl, _⟩ := h1
  revert h2
  decide

/-- C1 (amended): for `Slice(E).Min(m)` and a sequence `s`, with an element schema that
on the elements of `s` returns, leaves the path builder as it found it and keys its
issues under its own path: `Validate` returns; when `s` is not empty and shorter than
`m` the issues at the root path are exactly the one issue with code "min" and parameter
`m`; when `s` is not empty and of length at least `m` there is no issue at the root
path; when `s` is empty (nil or of length 0) the map is empty, whatever `m` is. -/
theorem C1_min_issue_at_root (coercer : CoercerFunc) (E : ZogSchema) (m : Int)
    (data : Any) (s : List Any) (options : List ExecOption)
    (hdata : data.elems = some s)
    (hE : ∀ c : SchemaCtx, c.Val ∈ s → ∃ c1, E.validate c = some c1 ∧ c1.Path = c.Path ∧
        ∃ new, c1.exec.Errs = c.exec.Errs ++ new ∧
          ∀ e ∈ new, ∃ suffix, e.Path = c.Path.String ++ suffix) :
    ∃ M out, ((Slice coercer E []).Min m []).Validate data options = some (M, out) ∧
      (s ≠ [] → (s.length : Int) < m →
        M.get NewPathBuilder.String =
          [Issue.test NewPathBuilder.String IssueCodeMin [(IssueCodeMin, .int m)]]) ∧
      (s ≠ [] → (s.length : Int) ≥ m → M.get NewPathBuilder.String = []) ∧
      (s = [] → M = []) := by
  have hopt := execOptions_Errs options (NewExecCtx NewErrsMap)
  simp only [NewExecCtx, NewErrsMap] at hopt
  cases data with
  | null => simp [Any.elems] at hdata
  | int n => simp [Any.elems] at hdata
  | str n => simp [Any.elems] at hdata
  | bool n => simp [Any.elems] at hdata
  | ptr n => simp [Any.elems] at hdata
  | nilSlice =>
    simp only [Any.elems, Option.some.injEq] at hdata
    subst hdata
    refine ⟨[], .nilSlice, ?_, by simp, by simp, by simp⟩
    simp [SliceSchema.Validate, SliceSchema.validate, SliceSchema.validateBody, Slice,
      SliceSchema.Min, preTransformLoop, SliceSchema.validateFromZeroCheck, IsZeroValue, Any.Len,
      SliceSchema.validateDeferred, validatePostLoop, ExecCtx.NewSchemaCtx, hopt, NewExecCtx,
      NewErrsMap]
  | slice xs =>
    simp only [Any.elems, Option.some.injEq] at hdata
    subst hdata
    cases xs with
    | nil =>
      refine ⟨[], .slice [], ?_, by simp, by simp, by simp⟩
      simp [SliceSchema.Validate, SliceSchema.validate, SliceSchema.validateBody, Slice,
        SliceSchema.Min, preTransformLoop, SliceSchema.validateFromZeroCheck, IsZeroValue,
        SliceSchema.validateDeferred, validatePostLoop, ExecCtx.NewSchemaCtx, hopt, NewExecCtx,
        NewErrsMap, Any.Len]
    | cons x xs =>
      obtain ⟨done1, sub1, new, h1, h2, h3, h4, h5⟩ :=
        validateItems_issues E (x :: xs) 0 []
          (((options.foldl (fun c opt => ExecOption.apply opt c) (NewExecCtx NewErrsMap)).NewSchemaCtx
            (.slice (x :: xs)) (.slice (x :: xs)) NewPathBuilder TypeSlice).NewSchemaCtx
            (.slice (x :: xs)) (.slice (x :: xs)) NewPathBuilder E.getType) [] hE
      simp only [SchemaCtx.NewSchemaCtx, ExecCtx.NewSchemaCtx, hopt, NewExecCtx, NewErrsMap,
        List.nil_append, List.length_nil, Nat.zero_add] at h1 h2 h3 h4 h5
      have hfilter : ZogIssueMap.get new NewPathBuilder.String = [] := by
        simp only [ZogIssueMap.get, List.filter_eq_nil_iff, decide_eq_true_eq]
        exact h5
      have hlen : ((x :: xs).length : Int) = (xs.length : Int) + 1 := by simp
      refine ⟨new ++ (if ((x :: xs).length : Int) < m then
          [Issue.test NewPathBuilder.String IssueCodeMin [(IssueCodeMin, .int m)]] else []),
          .slice done1, ?_, ?_, ?_, by simp⟩
      · simp only [SliceSchema.Validate, SliceSchema.validate, SliceSchema.validateBody, Slice,
          SliceSchema.Min, preTransformLoop, SliceSchema.validateFromZeroCheck, IsZeroValue,
          SliceSchema.validateDeferred, validatePostLoop, ExecCtx.NewSchemaCtx, NewExecCtx,
          NewErrsMap, Any.Len, SliceSchema.validateItemsAndTests, SchemaCtx.NewSchemaCtx,
          Any.elems, h1, validateTests, sliceMin, sliceMinFunc, SliceSchema.getType,
          SchemaCtx.AddIssue, SchemaCtx.IssueFromTest, h3, h4, List.foldl_nil, List.nil_append,
          h2]
        by_cases hm : ((x :: xs).length : Int) < m
        · have hm1 : ¬ (m ≤ (xs.length : Int) + 1) := by rw [hlen] at hm; omega
          have hm2 : (xs.length : Int) + 1 < m := by omega
          simp [hm1, hm2, hlen, validateDeferred_nil]
        · have hm1 : m ≤ (xs.length : Int) + 1 := by rw [hlen] at hm; omega
          simp [hm, hm1, hlen, ← h4, validateDeferred_nil]
      · intro _ hm
        simp only [hm, if_true, ZogIssueMap.get, List.filter_append]
        simp only [ZogIssueMap.get] at hfilter
        rw [hfilter]
        simp [Issue.Path]
      · intro _ hm
        have hm1 : ¬ ((x :: xs).length : Int) < m := by omega
        simp only [hm1, if_false, List.append_nil]
        exact hfilter

/-- Witness of C1 (amended): `Slice(E).Min(2)` on the one-element sequence `[1]`. -/
theorem C1_min_issue_at_root_witness :
    (Any.slice [.int 1]).elems = some [.int 1] ∧
    (∀ c : SchemaCtx, c.Val ∈ [Any.int 1] → ∃ c1, leafAccept.validate c = some c1 ∧
        c1.Path = c.Path ∧ ∃ new, c1.exec.Errs = c.exec.Errs ++ new ∧
          ∀ e ∈ new, ∃ suffix, e.Path = c.Path.String ++ suffix) ∧
    ∃ M out, ((Slice coerceSame leafAccept []).Min 2 []).Validate (.slice [.int 1]) [] =
        some (M, out) ∧
      ([Any.int 1] ≠ [] → (([Any.int 1].length : Nat) : Int) < 2 →
        M.get NewPathBuilder.String =
          [Issue.test NewPathBuilder.String IssueCodeMin [(IssueCodeMin, .int 2)]]) ∧
      ([Any.int 1] ≠ [] → (([Any.int 1].length : Nat) : Int) ≥ 2 →
        M.get NewPathBuilder.String = []) ∧
      ([Any.int 1] = [] → M = []) :=
  ⟨rfl, fun c _ => ⟨c, rfl, rfl, [], by simp, by simp⟩,
    C1_min_issue_at_root coerceSame leafAccept 2 (.slice [.int 1]) [.int 1] [] rfl
      (fun c _ => ⟨c, rfl, rfl, [], by simp, by simp⟩)⟩

/-- C2 as the claim states it, at a schema with no required test, no default and one
post-transform, with nothing recorded in the context, in validate mode on a nil slice
(length 0) and in process mode on an absent input: it is false that the node returns
with no issue recorded and no post-transform invoked. The post-transform is invoked,
and as it returns an error the node records an issue. -/
theorem C2_counterexample :
    ((Slice coerceSame leafAccept []).PostTransform postFail).required.isNone = true ∧
    ((Slice coerceSame leafAccept []).PostTransform postFail).defaultVal = Any.null ∧
    (rootCtx .nilSlice .nilSlice).Val.Len = some 0 ∧
    IsParseZeroValue (rootCtx .null .nilSlice).Val (rootCtx .null .nilSlice) = true ∧
    ¬ (∀ r : SchemaCtx × List Event,
        ((Slice coerceSame leafAccept []).PostTransform postFail).validate
          (rootCtx .nilSlice .nilSlice) = some r →
        r.1.exec.Errs = (rootCtx .nilSlice .nilSlice).exec.Errs ∧
          ∀ i, Event.postTransform i ∉ r.2) ∧
    ¬ (∀ r : SchemaCtx × List Event,
        ((Slice coerceSame leafAccept []).PostTransform postFail).process
          (rootCtx .null .nilSlice) = some r →
        r.1.exec.Errs = (rootCtx .null .nilSlice).exec.Errs ∧
          ∀ i, Event.postTransform i ∉ r.2) := by
  have hv : ((Slice coerceSame leafAccept []).PostTransform postFail).validate
      (rootCtx .nilSlice .nilSlice) =
        some ((rootCtx .nilSlice .nilSlice).AddIssue (Issue.unknown "" "post failed"),
          [Event.postTransform 0]) := by decide
  have hp : ((Slice coerceSame leafAccept []).PostTransform postFail).process
      (rootCtx .null .nilSlice) =
        some ((rootCtx .null .nilSlice).AddIssue (Issue.unknown "" "post failed"),
          [Event.postTransform 0]) := by decide
  refine ⟨rfl, rfl, rfl, rfl, ?_, ?_⟩
  · intro h
    exact (h _ hv).2 0 (by simp)
  · intro h
    exact (h _ hp).2 0 (by simp)

theorem optional_absent_returns (v : SliceSchema) (ctx c : SchemaCtx) (log : List Event)
    (hreq : v.required = none) (hdef : v.defaultVal = .null)
    (hpre : preTransformLoop v.preTransforms 0 ctx [] = .continues c log) :
    (c.Val.Len = some 0 → v.validate ctx = some (v.validateDeferred (c, log))) ∧
    (IsParseZeroValue c.Val c = true → v.process ctx = some (v.processDeferred (c, log))) := by
  constructor
  · intro hz
    have hzero : (if IsZeroValue (.ptr c.Val) then some true
        else c.Val.Len.map (fun n => n == 0)) = some true := by
      simp [IsZeroValue, hz]
    simp only [SliceSchema.validate, SliceSchema.validateBody, hpre,
      SliceSchema.validateFromZeroCheck, hzero, hdef, hreq]
    simp
  · intro hz
    simp only [SliceSchema.process, hpre, SliceSchema.processFromZeroCheck, hz, hdef, hreq]
    simp

/-- C2 (amended): for a slice schema with no required test and no default, when the
pre-transforms have succeeded and left a zero value (validate mode: the value addressed
is a sequence of length 0, nil or not; process mode: the zero check of process mode),
the node has recorded no issue and invoked nothing but its pre-transforms when it
returns, so neither the coercer, nor the element schema, nor a rule test is invoked; the
deferred post-transforms then run as at any other return: not at all when the context
holds an issue, else in declared order up to the first that returns an error. -/
theorem C2_optional_absent (v : SliceSchema) (ctx c : SchemaCtx) (log : List Event)
    (hreq : v.required = none) (hdef : v.defaultVal = .null)
    (hpre : preTransformLoop v.preTransforms 0 ctx [] = .continues c log) :
    c.exec = ctx.exec ∧ c.Path = ctx.Path ∧
    log = (List.range v.preTransforms.length).map Event.preTransform ∧
    (c.Val.Len = some 0 →
      v.validateBody ctx = some (c, log) ∧
      v.validate ctx =
        some (if c.HasErrored then (c, log) else validatePostLoop v.postTransforms 0 c log)) ∧
    (IsParseZeroValue c.Val c = true →
      v.processBody ctx = some (c, log) ∧
      v.process ctx =
        some (if c.HasErrored then (c, log) else processPostLoop v.postTransforms 0 c log)) := by
  obtain ⟨h1, h2, _, h4⟩ := preTransformLoop_continues _ _ _ _ _ _ hpre
  obtain ⟨hv, hp⟩ := optional_absent_returns v ctx c log hreq hdef hpre
  refine ⟨h1, h2, by simpa [List.range_eq_range'] using h4, ?_, ?_⟩
  · intro hz
    refine ⟨?_, ?_⟩
    · simp [SliceSchema.validateBody, hpre, SliceSchema.validateFromZeroCheck, IsZeroValue, hz,
        hdef, hreq]
    · rw [hv hz]
      cases hc : c.HasErrored <;> simp [SliceSchema.validateDeferred, hc]
  · intro hz
    refine ⟨?_, ?_⟩
    · simp [SliceSchema.processBody, hpre, SliceSchema.processFromZeroCheck, hz, hdef, hreq]
    · rw [hp hz]
      cases hc : c.HasErrored <;> simp [SliceSchema.processDeferred, hc]

/-- Witness of C2 (amended): one succeeding pre-transform and one post-transform, in
validate mode on a nil slice and in process mode on an absent input. -/
theorem C2_optional_absent_witness :
    (((Slice coerceSame leafAccept []).PreTransform preSame).PostTransform postFail).required = none ∧
    (((Slice coerceSame leafAccept []).PreTransform preSame).PostTransform postFail).defaultVal
      = Any.null ∧
    preTransformLoop
      (((Slice coerceSame leafAccept []).PreTransform preSame).PostTransform postFail).preTransforms
      0 (rootCtx .nilSlice .nilSlice) [] =
        .continues (rootCtx .nilSlice .nilSlice) [Event.preTransform 0] ∧
    (rootCtx .nilSlice .nilSlice).Val.Len = some 0 ∧
    ((((Slice coerceSame leafAccept []).PreTransform preSame).PostTransform postFail).validateBody
        (rootCtx .nilSlice .nilSlice) =
      some (rootCtx .nilSlice .nilSlice, [Event.preTransform 0]) ∧
    (((Slice coerceSame leafAccept []).PreTransform preSame).PostTransform postFail).validate
        (rootCtx .nilSlice .nilSlice) =
      some (if (rootCtx .nilSlice .nilSlice).HasErrored then
          (rootCtx .nilSlice .nilSlice, [Event.preTransform 0])
        else validatePostLoop
          (((Slice coerceSame leafAccept []).PreTransform preSame).PostTransform postFail).postTransforms
          0 (rootCtx .nilSlice .nilSlice) [Event.preTransform 0])) ∧
    preTransformLoop
      (((Slice coerceSame leafAccept []).PreTransform preSame).PostTransform postFail).preTransforms
      0 (rootCtx .null .nilSlice) [] =
        .continues (rootCtx .null .nilSlice) [Event.preTransform 0] ∧
    IsParseZeroValue (rootCtx .null .nilSlice).Val (rootCtx .null .nilSlice) = true ∧
    ((((Slice coerceSame leafAccept []).PreTransform preSame).PostTransform postFail).processBody
        (rootCtx .null .nilSlice) =
      some (rootCtx .null .nilSlice, [Event.preTransform 0]) ∧
    (((Slice coerceSame leafAccept []).PreTransform preSame).PostTransform postFail).process
        (rootCtx .null .nilSlice) =
      some (if (rootCtx .null .nilSlice).HasErrored then
          (rootCtx .null .nilSlice, [Event.preTransform 0])
        else processPostLoop
          (((Slice coerceSame leafAccept []).PreTransform preSame).PostTransform postFail).postTransforms
          0 (rootCtx .null .nilSlice) [Event.preTransform 0])) :=
  ⟨rfl, rfl, rfl, rfl,
    (C2_optional_absent
      (((Slice coerceSame leafAccept []).PreTransform preSame).PostTransform postFail)
      (rootCtx .nilSlice .nilSlice) (rootCtx .nilSlice .nilSlice) [Event.preTransform 0]
      rfl rfl rfl).2.2.2.1 rfl,
    rfl, rfl,
    (C2_optional_absent
      (((Slice coerceSame leafAccept []).PreTransform preSame).PostTransform postFail)
      (rootCtx .null .nilSlice) (rootCtx .null .nilSlice) [Event.preTransform 0]
      rfl rfl rfl).2.2.2.2 rfl⟩

theorem hasErrored_AddIssue (c : SchemaCtx) (e : Issue) : (c.AddIssue e).HasErrored = true := by
  simp [SchemaCtx.AddIssue, SchemaCtx.HasErrored]

/-- C3: when the pre-transforms `ps` before `fn` have succeeded, leaving the context
`c`, and `fn` returns the error `err`, then `validate` and `process` both return with
exactly one more issue recorded, the uncategorized error `err` at the current path, and
the callbacks invoked are the pre-transforms up to `fn` and nothing else: no later
pre-transform, no coercer, no element schema, no rule test, no post-transform. -/
theorem C3_pre_transform_error (v : SliceSchema) (ctx c : SchemaCtx) (log : List Event)
    (ps rest : List PreTransform) (fn : PreTransform) (err : String)
    (hv : v.preTransforms = ps ++ fn :: rest)
    (hps : preTransformLoop ps 0 ctx [] = .continues c log)
    (hfn : fn c.Val c = .error err) :
    ∃ r : SchemaCtx × List Event,
      v.validate ctx = some r ∧ v.process ctx = some r ∧
      r.1.exec.Errs = ctx.exec.Errs ++ [Issue.unknown ctx.Path.String err] ∧
      r.1.Path = ctx.Path ∧
      r.2 = (List.range (ps.length + 1)).map Event.preTransform := by
  have hrun := preTransformLoop_error ps fn rest err 0 ctx [] c log hps hfn
  obtain ⟨h1, h2, _, h4⟩ := preTransformLoop_continues _ _ _ _ _ _ hps
  rw [← hv] at hrun
  refine ⟨(c.AddIssue (c.IssueFromUnknownError err), log ++ [Event.preTransform (0 + ps.length)]),
    ?_, ?_, ?_, ?_, ?_⟩
  · simp [SliceSchema.validate, SliceSchema.validateBody, hrun, SliceSchema.validateDeferred,
      hasErrored_AddIssue]
  · simp [SliceSchema.process, hrun]
  · simp [SchemaCtx.AddIssue, SchemaCtx.IssueFromUnknownError, h1, h2]
  · simp [SchemaCtx.AddIssue, h2]
  · rw [h4]
    simp [List.range_eq_range', List.range'_concat]

/-- Witness of C3: a succeeding pre-transform, then a failing one, then a further one. -/
theorem C3_pre_transform_error_witness :
    ((((Slice coerceSame leafAccept []).PreTransform preSame).PreTransform preFail).PreTransform
        preSame).preTransforms = [preSame] ++ preFail :: [preSame] ∧
    preTransformLoop [preSame] 0 (rootCtx (.slice [.int 1]) .nilSlice) [] =
      .continues (rootCtx (.slice [.int 1]) .nilSlice) [Event.preTransform 0] ∧
    preFail (rootCtx (.slice [.int 1]) .nilSlice).Val (rootCtx (.slice [.int 1]) .nilSlice) =
      .error "pre failed" ∧
    ∃ r : SchemaCtx × List Event,
      ((((Slice coerceSame leafAccept []).PreTransform preSame).PreTransform preFail).PreTransform
        preSame).validate (rootCtx (.slice [.int 1]) .nilSlice) = some r ∧
      ((((Slice coerceSame leafAccept []).PreTransform preSame).PreTransform preFail).PreTransform
        preSame).process (rootCtx (.slice [.int 1]) .nilSlice) = some r ∧
      r.1.exec.Errs = (rootCtx (.slice [.int 1]) .nilSlice).exec.Errs ++
        [Issue.unknown (rootCtx (.slice [.int 1]) .nilSlice).Path.String "pre failed"] ∧
      r.1.Path = (rootCtx (.slice [.int 1]) .nilSlice).Path ∧
      r.2 = (List.range ([preSame].length + 1)).map Event.preTransform :=
  ⟨rfl, rfl, rfl,
    C3_pre_transform_error _ (rootCtx (.slice [.int 1]) .nilSlice)
      (rootCtx (.slice [.int 1]) .nilSlice) [Event.preTransform 0] [preSame] [preSame] preFail
      "pre failed" rfl rfl rfl⟩

/-- C4: for a slice schema with the required test `req` and no default, when the
pre-transforms have succeeded and left a zero value (validate mode: the value addressed
is a sequence of length 0, nil or not; process mode: the zero check of process mode),
`validate` and `process` return with exactly one more issue recorded, the one built from
`req` at the current path, and the callbacks invoked are the pre-transforms and nothing
else: no coercer, no element schema, no rule test, no post-transform. -/
theorem C4_required_zero (v : SliceSchema) (ctx c : SchemaCtx) (log : List Event) (req : Test)
    (hreq : v.required = some req) (hdef : v.defaultVal = .null)
    (hpre : preTransformLoop v.preTransforms 0 ctx [] = .continues c log) :
    ∃ r : SchemaCtx × List Event,
      r.1.exec.Errs = ctx.exec.Errs ++ [Issue.test ctx.Path.String req.IssueCode req.Params] ∧
      r.1.Path = ctx.Path ∧
      r.2 = (List.range v.preTransforms.length).map Event.preTransform ∧
      (c.Val.Len = some 0 → v.validate ctx = some r) ∧
      (IsParseZeroValue c.Val c = true → v.process ctx = some r) := by
  obtain ⟨h1, h2, _, h4⟩ := preTransformLoop_continues _ _ _ _ _ _ hpre
  refine ⟨(c.AddIssue (Issue.test c.Path.String req.IssueCode req.Params), log), ?_, ?_, ?_, ?_, ?_⟩
  · simp [SchemaCtx.AddIssue, h1, h2]
  · simp [SchemaCtx.AddIssue, h2]
  · simpa [List.range_eq_range'] using h4
  · intro hz
    simp [SliceSchema.validate, SliceSchema.validateBody, hpre,
      SliceSchema.validateFromZeroCheck, IsZeroValue, hz, hdef, hreq,
      SliceSchema.validateDeferred, hasErrored_AddIssue, SchemaCtx.IssueFromTest]
  · intro hz
    simp [SliceSchema.process, hpre, SliceSchema.processFromZeroCheck, hz, hdef, hreq,
      SliceSchema.processDeferred, hasErrored_AddIssue, SchemaCtx.IssueFromTest]

/-- Witness of C4: a required slice schema with a minimum and a post-transform, in
validate mode on a non-nil sequence of length 0 and in process mode on an absent input:
one issue, the required one, and no callback invoked. -/
theorem C4_required_zero_witness :
    requiredSchema.required = some requiredTest ∧
    requiredSchema.defaultVal = Any.null ∧
    (preTransformLoop requiredSchema.preTransforms 0 (rootCtx (.slice []) .nilSlice) [] =
      .continues (rootCtx (.slice []) .nilSlice) [] ∧
      (rootCtx (.slice []) .nilSlice).Val.Len = some 0 ∧
      ∃ r : SchemaCtx × List Event,
        r.1.exec.Errs = [Issue.test "" "required" []] ∧ r.2 = [] ∧
        requiredSchema.validate (rootCtx (.slice []) .nilSlice) = some r) ∧
    (preTransformLoop requiredSchema.preTransforms 0 (rootCtx .null .nilSlice) [] =
      .continues (rootCtx .null .nilSlice) [] ∧
      IsParseZeroValue (rootCtx .null .nilSlice).Val (rootCtx .null .nilSlice) = true ∧
      ∃ r : SchemaCtx × List Event,
        r.1.exec.Errs = [Issue.test "" "required" []] ∧ r.2 = [] ∧
        requiredSchema.process (rootCtx .null .nilSlice) = some r) :=
  ⟨rfl, rfl,
    ⟨rfl, rfl,
      (C4_required_zero requiredSchema
        (rootCtx (.slice []) .nilSlice) (rootCtx (.slice []) .nilSlice) [] requiredTest
        rfl rfl rfl).elim (fun r h => ⟨r, h.1, h.2.2.1, h.2.2.2.1 rfl⟩)⟩,
    ⟨rfl, rfl,
      (C4_required_zero requiredSchema
        (rootCtx .null .nilSlice) (rootCtx .null .nilSlice) [] requiredTest
        rfl rfl rfl).elim (fun r h => ⟨r, h.1, h.2.2.1, h.2.2.2.2 rfl⟩)⟩⟩

/-- C5 as the claim states it, at a schema on which `Required()` was never called, with
no default and one post-transform, on a sequence of length 0 (`Validate`) and on an
absent input (`Parse`): it is false that the returned issue map is empty. The map holds
the issue of the post-transform, which the node runs. -/
theorem C5_counterexample :
    ((Slice coerceSame leafAccept []).PostTransform postFail).required.isNone = true ∧
    ((Slice coerceSame leafAccept []).PostTransform postFail).defaultVal = Any.null ∧
    ¬ (∃ out, ((Slice coerceSame leafAccept []).PostTransform postFail).Validate (.slice []) [] =
        some ([], out)) ∧
    ¬ (∃ out, ((Slice coerceSame leafAccept []).PostTransform postFail).Parse .null .nilSlice [] =
        some ([], out)) := by
  have hv : ((Slice coerceSame leafAccept []).PostTransform postFail).Validate (.slice []) [] =
      some ([Issue.unknown "" "post failed"], .slice []) := by decide
  have hp : ((Slice coerceSame leafAccept []).PostTransform postFail).Parse .null .nilSlice [] =
      some ([Issue.unknown "" "post failed"], .nilSlice) := by decide
  refine ⟨rfl, rfl, ?_, ?_⟩
  · rintro ⟨out, h⟩
    rw [hv] at h
    simp at h
  · rintro ⟨out, h⟩
    rw [hp] at h
    simp at h

/-- C5 (amended): for a slice schema with no required test and no default, whose
post-transforms return no error on the run (`val k` is the value post-transform `k` is
handed, `val (k+1)` the value it leaves): when the pre-transforms succeed on the input
and leave a zero value (for `Validate` a sequence of length 0, nil or not; for `Parse`
the zero check of process mode; with no pre-transforms, the input itself), `Validate`
and `Parse` return an empty issue map, and the callbacks the node invokes are its
pre-transforms and then its post-transforms, so the element schema is never invoked. -/
theorem C5_optional_absent_empty_map (v : SliceSchema) (data dest : Any)
    (options : List ExecOption) (c : SchemaCtx) (log : List Event) (val : Nat → Any)
    (hreq : v.required = none) (hdef : v.defaultVal = .null) :
    (preTransformLoop v.preTransforms 0
        ((options.foldl (fun e opt => ExecOption.apply opt e) (NewExecCtx NewErrsMap)).NewSchemaCtx
          data data NewPathBuilder v.getType) [] = .continues c log →
      c.Val.Len = some 0 →
      val 0 = c.Val →
      (∀ k g, v.postTransforms[k]? = some g →
        g (val k) { c with Val := val k } = (val (k + 1), none)) →
      ∃ r out, v.validate
          ((options.foldl (fun e opt => ExecOption.apply opt e) (NewExecCtx NewErrsMap)).NewSchemaCtx
            data data NewPathBuilder v.getType) = some r ∧
        r.2 = (List.range v.preTransforms.length).map Event.preTransform ++
          (List.range v.postTransforms.length).map Event.postTransform ∧
        v.Validate data options = some ([], out)) ∧
    (preTransformLoop v.preTransforms 0
        ((options.foldl (fun e opt => ExecOption.apply opt e) (NewExecCtx NewErrsMap)).NewSchemaCtx
          data dest NewPathBuilder v.getType) [] = .continues c log →
      IsParseZeroValue c.Val c = true →
      val 0 = c.DestPtr →
      (∀ k g, v.postTransforms[k]? = some g →
        g (val k) { c with DestPtr := val k } = (val (k + 1), none)) →
      ∃ r out, v.process
          ((options.foldl (fun e opt => ExecOption.apply opt e) (NewExecCtx NewErrsMap)).NewSchemaCtx
            data dest NewPathBuilder v.getType) = some r ∧
        r.2 = (List.range v.preTransforms.length).map Event.preTransform ++
          (List.range v.postTransforms.length).map Event.postTransform ∧
        v.Parse data dest options = some ([], out)) := by
  have hopt := execOptions_Errs options (NewExecCtx NewErrsMap)
  simp only [NewExecCtx, NewErrsMap] at hopt
  constructor
  · intro hpre hz h0 hpost
    obtain ⟨h1, _, _, h4⟩ := preTransformLoop_continues _ _ _ _ _ _ hpre
    have hlog : log = (List.range' 0 v.preTransforms.length).map Event.preTransform := by
      simpa using h4
    have hne : c.HasErrored = false := by
      simp [SchemaCtx.HasErrored, h1, ExecCtx.NewSchemaCtx, NewExecCtx, NewErrsMap, hopt]
    have hrun := (optional_absent_returns v _ c log hreq hdef hpre).1 hz
    simp only [SliceSchema.validateDeferred, hne, Bool.not_false, if_true] at hrun
    have htr := validatePostLoop_trace v.postTransforms [] 0 c log val h0 hpost
    simp only [List.append_nil, validatePostLoop, Nat.zero_add] at htr
    rw [htr] at hrun
    refine ⟨_, val v.postTransforms.length, hrun, ?_, ?_⟩
    · rw [hlog]; simp [List.range_eq_range']
    · simp only [SliceSchema.Validate, hrun, Option.map_some', h1]
      simp [ExecCtx.NewSchemaCtx, NewExecCtx, NewErrsMap, hopt]
  · intro hpre hz h0 hpost
    obtain ⟨h1, _, _, h4⟩ := preTransformLoop_continues _ _ _ _ _ _ hpre
    have hlog : log = (List.range' 0 v.preTransforms.length).map Event.preTransform := by
      simpa using h4
    have hne : c.HasErrored = false := by
      simp [SchemaCtx.HasErrored, h1, ExecCtx.NewSchemaCtx, NewExecCtx, NewErrsMap, hopt]
    have hrun := (optional_absent_returns v _ c log hreq hdef hpre).2 hz
    simp only [SliceSchema.processDeferred, hne, Bool.not_false, if_true] at hrun
    have htr := processPostLoop_trace v.postTransforms [] 0 c log val h0 hpost
    simp only [List.append_nil, processPostLoop, Nat.zero_add] at htr
    rw [htr] at hrun
    refine ⟨_, val v.postTransforms.length, hrun, ?_, ?_⟩
    · rw [hlog]; simp [List.range_eq_range']
    · simp only [SliceSchema.Parse, hrun, Option.map_some', h1]
      simp [ExecCtx.NewSchemaCtx, NewExecCtx, NewErrsMap, hopt]

/-- Witness of C5 (amended): a schema with one succeeding post-transform, with a context
value given as option: `Validate` on a sequence of length 0 and `Parse` of an absent
input into a nil destination return an empty map after invoking the post-transform
only. -/
theorem C5_optional_absent_empty_map_witness :
    ((Slice coerceSame leafAccept []).PostTransform postSame).required = none ∧
    ((Slice coerceSame leafAccept []).PostTransform postSame).defaultVal = Any.null ∧
    (Any.slice []).Len = some 0 ∧
    (∀ (k : Nat) (g : PostTransform),
      ((Slice coerceSame leafAccept []).PostTransform postSame).postTransforms[k]? = some g →
      ∀ c : SchemaCtx, g (Any.slice []) { c with Val := Any.slice [] } = (Any.slice [], none)) ∧
    (∃ r out, ((Slice coerceSame leafAccept []).PostTransform postSame).validate
        (([ExecOption.WithCtxValue "k" (.int 1)].foldl (fun e opt => ExecOption.apply opt e)
          (NewExecCtx NewErrsMap)).NewSchemaCtx (.slice []) (.slice []) NewPathBuilder
          ((Slice coerceSame leafAccept []).PostTransform postSame).getType) = some r ∧
      r.2 = (List.range
            ((Slice coerceSame leafAccept []).PostTransform postSame).preTransforms.length).map
          Event.preTransform ++
        (List.range
            ((Slice coerceSame leafAccept []).PostTransform postSame).postTransforms.length).map
          Event.postTransform ∧
      ((Slice coerceSame leafAccept []).PostTransform postSame).Validate (.slice [])
        [ExecOption.WithCtxValue "k" (.int 1)] = some ([], out)) ∧
    ((Slice coerceSame leafAccept []).PostTransform postSame).Validate (.slice [])
      [ExecOption.WithCtxValue "k" (.int 1)] = some ([], .slice []) ∧
    IsParseZeroValue Any.null (rootCtx .null .nilSlice) = true ∧
    (∃ r out, ((Slice coerceSame leafAccept []).PostTransform postSame).process
        (([ExecOption.WithCtxValue "k" (.int 1)].foldl (fun e opt => ExecOption.apply opt e)
          (NewExecCtx NewErrsMap)).NewSchemaCtx .null .nilSlice NewPathBuilder
          ((Slice coerceSame leafAccept []).PostTransform postSame).getType) = some r ∧
      r.2 = (List.range
            ((Slice coerceSame leafAccept []).PostTransform postSame).preTransforms.length).map
          Event.preTransform ++
        (List.range
            ((Slice coerceSame leafAccept []).PostTransform postSame).postTransforms.length).map
          Event.postTransform ∧
      ((Slice coerceSame leafAccept []).PostTransform postSame).Parse .null .nilSlice
        [ExecOption.WithCtxValue "k" (.int 1)] = some ([], out)) ∧
    ((Slice coerceSame leafAccept []).PostTransform postSame).Parse .null .nilSlice
      [ExecOption.WithCtxValue "k" (.int 1)] = some ([], .nilSlice) :=
  have hpost : ∀ (x : Any) (k : Nat) (g : PostTransform),
      ((Slice coerceSame leafAccept []).PostTransform postSame).postTransforms[k]? = some g →
      ∀ c : SchemaCtx, g x c = (x, none) := by
    intro x k g hg c
    cases k with
    | zero =>
      simp only [Slice, SliceSchema.PostTransform, List.foldl_nil, List.nil_append,
        List.getElem?_cons_zero, Option.some.injEq] at hg
      subst hg
      rfl
    | succ k =>
      simp [Slice, SliceSchema.PostTransform] at hg
  ⟨rfl, rfl, rfl, fun k g hg c => hpost _ k g hg _,
    (C5_optional_absent_empty_map ((Slice coerceSame leafAccept []).PostTransform postSame)
      (.slice []) (.slice []) [ExecOption.WithCtxValue "k" (.int 1)]
      (([ExecOption.WithCtxValue "k" (.int 1)].foldl (fun e opt => ExecOption.apply opt e)
          (NewExecCtx NewErrsMap)).NewSchemaCtx (.slice []) (.slice []) NewPathBuilder
          ((Slice coerceSame leafAccept []).PostTransform postSame).getType)
      [] (fun _ => .slice []) rfl rfl).1 rfl rfl rfl (fun k g hg => hpost _ k g hg _),
    by decide, rfl,
    (C5_optional_absent_empty_map ((Slice coerceSame leafAccept []).PostTransform postSame)
      .null .nilSlice [ExecOption.WithCtxValue "k" (.int 1)]
      (([ExecOption.WithCtxValue "k" (.int 1)].foldl (fun e opt => ExecOption.apply opt e)
          (NewExecCtx NewErrsMap)).NewSchemaCtx .null .nilSlice NewPathBuilder
          ((Slice coerceSame leafAccept []).PostTransform postSame).getType)
      [] (fun _ => .nilSlice) rfl rfl).2 rfl rfl rfl (fun k g hg => hpost _ k g hg _),
    by decide⟩

/-- C6: the rule-test phase of `validate` (lines 126-136) and of `process` (lines
227-231), entered with any context and any list of rule tests none of which panics on
the value handed to it: the phase returns; the tests it invokes are all the tests, each
once, in declared order; and with `oks` what the tests returned (each evaluated in the
context holding the issues of the failing tests before it), the issues recorded are
exactly one per test that returned false, in declared order, built from that test at
the current path. -/
theorem C6_rule_tests_all_run (v : SliceSchema) (ctx : SchemaCtx) (log : List Event)
    (hV : ∀ t ∈ v.tests, ∀ c : SchemaCtx, ∃ b, t.ValidateFunc (.ptr ctx.Val) c = some b)
    (hP : ∀ t ∈ v.tests, ∀ c : SchemaCtx, ∃ b, t.ValidateFunc (.ptr ctx.DestPtr) c = some b) :
    (∃ oks : List Bool, oks.length = v.tests.length ∧
      validateTests v.tests 0 ctx log =
        some (ctx.withIssues (failedIssues ctx.Path.String v.tests oks),
          log ++ (List.range v.tests.length).map Event.test) ∧
      ∀ (j : Nat) (t : Test) (b : Bool), v.tests[j]? = some t → oks[j]? = some b →
        t.ValidateFunc (.ptr ctx.Val)
          (ctx.withIssues (failedIssues ctx.Path.String (v.tests.take j) (oks.take j))) =
            some b) ∧
    (∃ oks : List Bool, oks.length = v.tests.length ∧
      processTests v.tests 0 ctx log =
        some (ctx.withIssues (failedIssues ctx.Path.String v.tests oks),
          log ++ (List.range v.tests.length).map Event.test) ∧
      ∀ (j : Nat) (t : Test) (b : Bool), v.tests[j]? = some t → oks[j]? = some b →
        t.ValidateFunc (.ptr ctx.DestPtr)
          (ctx.withIssues (failedIssues ctx.Path.String (v.tests.take j) (oks.take j))) =
            some b) := by
  constructor
  · obtain ⟨oks, h1, h2, h3⟩ := testsLoop_spec (.ptr ctx.Val) v.tests 0 ctx log hV
    refine ⟨oks, h1, ?_, h3⟩
    rw [validateTests_eq, h2, List.range_eq_range']
  · obtain ⟨oks, h1, h2, h3⟩ := testsLoop_spec (.ptr ctx.DestPtr) v.tests 0 ctx log hP
    refine ⟨oks, h1, ?_, h3⟩
    rw [processTests_eq, h2, List.range_eq_range']

/-- Witness of C6: the tests `Min(2)`, `Min(0)`, `Min(3)` on a sequence of length 1; the
first and the third fail and both are recorded, the second is evaluated in between. -/
theorem C6_rule_tests_all_run_witness :
    (∀ t ∈ ((((Slice coerceSame leafAccept []).Min 2 []).Min 0 []).Min 3 []).tests,
      ∀ c : SchemaCtx, ∃ b,
        t.ValidateFunc (.ptr (rootCtx (.slice [.int 1]) (.slice [.int 1])).Val) c = some b) ∧
    validateTests ((((Slice coerceSame leafAccept []).Min 2 []).Min 0 []).Min 3 []).tests 0
        (rootCtx (.slice [.int 1]) (.slice [.int 1])) [] =
      some ((rootCtx (.slice [.int 1]) (.slice [.int 1])).withIssues
          [Issue.test "" "min" [("min", .int 2)], Issue.test "" "min" [("min", .int 3)]],
        [Event.test 0, Event.test 1, Event.test 2]) ∧
    ∃ oks : List Bool,
      oks.length = ((((Slice coerceSame leafAccept []).Min 2 []).Min 0 []).Min 3 []).tests.length ∧
      processTests ((((Slice coerceSame leafAccept []).Min 2 []).Min 0 []).Min 3 []).tests 0
          (rootCtx (.slice [.int 1]) (.slice [.int 1])) [] =
        some ((rootCtx (.slice [.int 1]) (.slice [.int 1])).withIssues
            (failedIssues (rootCtx (.slice [.int 1]) (.slice [.int 1])).Path.String
              ((((Slice coerceSame leafAccept []).Min 2 []).Min 0 []).Min 3 []).tests oks),
          [] ++ (List.range
            ((((Slice coerceSame leafAccept []).Min 2 []).Min 0 []).Min 3 []).tests.length).map
              Event.test) ∧
      ∀ (j : Nat) (t : Test) (b : Bool),
        ((((Slice coerceSame leafAccept []).Min 2 []).Min 0 []).Min 3 []).tests[j]? = some t →
        oks[j]? = some b →
        t.ValidateFunc (.ptr (rootCtx (.slice [.int 1]) (.slice [.int 1])).DestPtr)
          ((rootCtx (.slice [.int 1]) (.slice [.int 1])).withIssues
            (failedIssues (rootCtx (.slice [.int 1]) (.slice [.int 1])).Path.String
              (((((Slice coerceSame leafAccept []).Min 2 []).Min 0 []).Min 3 []).tests.take j)
              (oks.take j))) = some b :=
  have hT : ∀ t ∈ ((((Slice coerceSame leafAccept []).Min 2 []).Min 0 []).Min 3 []).tests,
      ∀ c : SchemaCtx, ∃ b,
        t.ValidateFunc (.ptr (rootCtx (.slice [.int 1]) (.slice [.int 1])).Val) c = some b := by
    intro t ht c
    simp only [Slice, SliceSchema.Min, List.foldl_nil, List.nil_append, List.cons_append,
      List.mem_cons, List.mem_singleton, List.not_mem_nil, or_false] at ht
    rcases ht with rfl | rfl | rfl <;> exact ⟨_, rfl⟩
  ⟨hT, by decide,
    (C6_rule_tests_all_run ((((Slice coerceSame leafAccept []).Min 2 []).Min 0 []).Min 3 [])
      (rootCtx (.slice [.int 1]) (.slice [.int 1])) [] hT hT).2⟩

/-- C7: once the zero/required/default step (and in process mode the coercion) has left
a sequence `xs` to go through, with an element schema that returns on the elements of
`xs`: the loop over the items returns and invokes the element schema once for each
index `0 .. len(xs)-1`, in ascending order, whatever issues the element schema records;
and whenever the rest of the node returns, the callbacks invoked from there on are
these `len(xs)` invocations followed by the rule tests. -/
theorem C7_every_element_visited (v : SliceSchema) (ctx : SchemaCtx) (log : List Event)
    (xs : List Any) (refVal : Any)
    (hEv : ∀ c : SchemaCtx, c.Val ∈ xs → ∃ c1, v.schema.validate c = some c1)
    (hEp : ∀ c : SchemaCtx, c.Val ∈ xs → ∃ c1, v.schema.process c = some c1) :
    (ctx.Val.elems = some xs →
      (∃ done sub, validateItems v.schema xs 0 []
            (ctx.NewSchemaCtx ctx.Val ctx.DestPtr ctx.Path v.schema.getType) log =
          some (done, sub, log ++ (List.range xs.length).map Event.schema) ∧
        done.length = xs.length) ∧
      ∀ r, v.validateItemsAndTests ctx log = some r →
        r.2 = log ++ (List.range xs.length).map Event.schema ++
          (List.range v.tests.length).map Event.test) ∧
    (refVal.elems = some xs →
      (∃ dest sub, processItems v.schema xs 0 []
            ({ ctx with DestPtr := MakeSlice xs.length }.NewSchemaCtx ctx.Val
              (MakeSlice xs.length) ctx.Path v.schema.getType) log =
          some (dest, sub, log ++ (List.range xs.length).map Event.schema) ∧
        dest.length = xs.length) ∧
      ∀ r, v.processItemsAndTests ctx refVal log = some r →
        r.2 = log ++ (List.range xs.length).map Event.schema ++
          (List.range v.tests.length).map Event.test) := by
  constructor
  · intro hxs
    obtain ⟨done, sub, h1, h2⟩ := validateItems_total v.schema xs 0 []
      (ctx.NewSchemaCtx ctx.Val ctx.DestPtr ctx.Path v.schema.getType) log hEv
    rw [← List.range_eq_range'] at h1
    refine ⟨⟨done, sub, h1, by simpa using h2⟩, ?_⟩
    intro r hr
    simp only [SliceSchema.validateItemsAndTests, hxs, h1, validateTests_eq] at hr
    obtain ⟨_, _, _, h4⟩ := testsLoop_ret _ _ _ _ _ _ hr
    rw [h4, List.range_eq_range' (n := v.tests.length)]
  · intro hxs
    obtain ⟨dest, sub, h1, h2⟩ := processItems_total v.schema xs 0 []
      ({ ctx with DestPtr := MakeSlice xs.length }.NewSchemaCtx ctx.Val
        (MakeSlice xs.length) ctx.Path v.schema.getType) log hEp
    rw [← List.range_eq_range'] at h1
    refine ⟨⟨dest, sub, h1, by simpa using h2⟩, ?_⟩
    intro r hr
    simp only [SliceSchema.processItemsAndTests, hxs, h1, processTests_eq] at hr
    obtain ⟨_, _, _, h4⟩ := testsLoop_ret _ _ _ _ _ _ hr
    rw [h4, List.range_eq_range' (n := v.tests.length)]

/-- Witness of C7: an element schema that records an issue for every element, on a
sequence of length 3: all three elements are visited, in order. -/
theorem C7_every_element_visited_witness :
    (∀ c : SchemaCtx, c.Val ∈ [Any.int 1, .int 2, .int 3] →
      ∃ c1, (Slice coerceSame leafReject []).schema.validate c = some c1) ∧
    (∀ c : SchemaCtx, c.Val ∈ [Any.int 1, .int 2, .int 3] →
      ∃ c1, (Slice coerceSame leafReject []).schema.process c = some c1) ∧
    (rootCtx (.slice [.int 1, .int 2, .int 3]) .nilSlice).Val.elems =
      some [.int 1, .int 2, .int 3] ∧
    ((Slice coerceSame leafReject []).validate
        (rootCtx (.slice [.int 1, .int 2, .int 3]) .nilSlice)).map
      (fun r => (r.1.exec.Errs.map Issue.Path, r.2)) =
        some (["[0]", "[1]", "[2]"], [Event.schema 0, Event.schema 1, Event.schema 2]) ∧
    ((∃ done sub, validateItems (Slice coerceSame leafReject []).schema
            [.int 1, .int 2, .int 3] 0 []
            ((rootCtx (.slice [.int 1, .int 2, .int 3]) .nilSlice).NewSchemaCtx
              (rootCtx (.slice [.int 1, .int 2, .int 3]) .nilSlice).Val
              (rootCtx (.slice [.int 1, .int 2, .int 3]) .nilSlice).DestPtr
              (rootCtx (.slice [.int 1, .int 2, .int 3]) .nilSlice).Path
              (Slice coerceSame leafReject []).schema.getType) [] =
          some (done, sub, [] ++ (List.range [Any.int 1, .int 2, .int 3].length).map Event.schema) ∧
        done.length = [Any.int 1, .int 2, .int 3].length) ∧
      ∀ r, (Slice coerceSame leafReject []).validateItemsAndTests
          (rootCtx (.slice [.int 1, .int 2, .int 3]) .nilSlice) [] = some r →
        r.2 = [] ++ (List.range [Any.int 1, .int 2, .int 3].length).map Event.schema ++
          (List.range (Slice coerceSame leafReject []).tests.length).map Event.test) :=
  ⟨fun c _ => ⟨_, rfl⟩, fun c _ => ⟨_, rfl⟩, rfl, by decide,
    (C7_every_element_visited (Slice coerceSame leafReject [])
      (rootCtx (.slice [.int 1, .int 2, .int 3]) .nilSlice) [] [.int 1, .int 2, .int 3]
      (.slice [.int 1, .int 2, .int 3]) (fun c _ => ⟨_, rfl⟩) (fun c _ => ⟨_, rfl⟩)).1 rfl⟩

/-- C8: for `Slice(Slice(E))` validated on a sequence of sequences `xss`, with an element
schema `E` that on the innermost elements returns, leaves the path builder as it found
it and records at its current path the issues `g path value`: `Validate` returns, and
the issue map is exactly, for each outer index `i` and inner index `j` in ascending
order, the issues `E` records for element `j` of sequence `i`, built at the path made of
the segments `[i]` and `[j]`; so every issue of the map is keyed `[i][j]` for the
position it was recorded at, and at no other key. -/
theorem C8_nested_slice_path (co co1 : CoercerFunc) (E : ZogSchema)
    (g : String → Any → List Issue) (xss : List (List Any)) (options : List ExecOption)
    (hg : ∀ (p : String) (x : Any), ∀ e ∈ g p x, e.Path = p)
    (hE : ∀ c : SchemaCtx, (∃ xs ∈ xss, c.Val ∈ xs) → ∃ c1, E.validate c = some c1 ∧
        c1.Path = c.Path ∧ c1.exec.Errs = c.exec.Errs ++ g c.Path.String c.Val) :
    ∃ M out, (Slice co (Slice co1 E []).toZogSchema []).Validate
          (.slice (xss.map Any.slice)) options = some (M, out) ∧
      M = xss.enum.flatMap (fun ixs => ixs.2.enum.flatMap (fun jx =>
        g (("[" ++ toString ixs.1 ++ "]") ++ ("[" ++ toString jx.1 ++ "]")) jx.2)) ∧
      ∀ e ∈ M, ∃ (i j : Nat) (xs : List Any) (x : Any),
        xss[i]? = some xs ∧ xs[j]? = some x ∧
        e ∈ g (("[" ++ toString i ++ "]") ++ ("[" ++ toString j ++ "]")) x ∧
        e.Path = ("[" ++ toString i ++ "]") ++ ("[" ++ toString j ++ "]") := by
  have hopt := execOptions_Errs options (NewExecCtx NewErrsMap)
  simp only [NewExecCtx, NewErrsMap] at hopt
  have hinner : ∀ c : SchemaCtx, c.Val ∈ xss.map Any.slice →
      ∃ c1, (Slice co1 E []).toZogSchema.validate c = some c1 ∧ c1.Path = c.Path ∧
        c1.exec.Errs = c.exec.Errs ++ innerIssues g c.Path c.Val := by
    intro c hc
    obtain ⟨xs, hxs, hval⟩ := List.mem_map.mp hc
    obtain ⟨c1, h1, h2, h3⟩ := plainSlice_validate_keyed co1 E
      (fun P x => g P.String x) c xs hval.symm
      (fun c2 hc2 => hE c2 ⟨xs, hxs, hc2⟩)
    refine ⟨c1, h1, h2, ?_⟩
    rw [h3, ← hval]
    rfl
  obtain ⟨c1, h1, _, h3⟩ := plainSlice_validate_keyed co (Slice co1 E []).toZogSchema
    (innerIssues g)
    ((options.foldl (fun e opt => ExecOption.apply opt e) (NewExecCtx NewErrsMap)).NewSchemaCtx
      (.slice (xss.map Any.slice)) (.slice (xss.map Any.slice)) NewPathBuilder
      (Slice co (Slice co1 E []).toZogSchema []).getType)
    (xss.map Any.slice) rfl hinner
  rw [toZogSchema_validate] at h1
  simp only [Option.map_eq_some'] at h1
  obtain ⟨r, hr, hr1⟩ := h1
  have hM : r.1.exec.Errs = xss.enum.flatMap (fun ixs => ixs.2.enum.flatMap (fun jx =>
      g (("[" ++ toString ixs.1 ++ "]") ++ ("[" ++ toString jx.1 ++ "]")) jx.2)) := by
    rw [hr1, h3]
    simp only [ExecCtx.NewSchemaCtx, NewExecCtx, NewErrsMap, hopt, List.nil_append,
      List.enum_map, List.flatMap_map, Prod.map, id, pathString_Push, NewPathBuilder,
      innerIssues]
    simp [PathBuilder.String, String.join]
  refine ⟨r.1.exec.Errs, r.1.Val, ?_, hM, ?_⟩
  · simp only [SliceSchema.Validate, hr, Option.map_some']
  · intro e he
    rw [hM] at he
    obtain ⟨⟨i, xs⟩, hi, he1⟩ := List.mem_flatMap.mp he
    obtain ⟨⟨j, x⟩, hj, he2⟩ := List.mem_flatMap.mp he1
    exact ⟨i, j, xs, x, List.mk_mem_enum_iff_getElem?.mp hi, List.mk_mem_enum_iff_getElem?.mp hj,
      he2, hg _ _ e he2⟩

/-- Witness of C8: a slice of slices of integers whose element schema rejects negative
integers, on `[[1], [2, 3, -4]]`: the one issue is keyed `"[1][2]"`. -/
theorem C8_nested_slice_path_witness :
    (∀ (p : String) (x : Any), ∀ e ∈ notNegativeIssues p x, e.Path = p) ∧
    (Slice coerceSame (Slice coerceSame leafNotNegative []).toZogSchema []).Validate
        (.slice ([[Any.int 1], [.int 2, .int 3, .int (-4)]].map Any.slice)) [] =
      some ([Issue.test "[1][2]" "gte" [("gte", .int 0)]],
        .slice [.slice [.int 1], .slice [.int 2, .int 3, .int (-4)]]) ∧
    ∃ M out, (Slice coerceSame (Slice coerceSame leafNotNegative []).toZogSchema []).Validate
          (.slice ([[Any.int 1], [.int 2, .int 3, .int (-4)]].map Any.slice)) [] = some (M, out) ∧
      M = [[Any.int 1], [.int 2, .int 3, .int (-4)]].enum.flatMap (fun ixs =>
        ixs.2.enum.flatMap (fun jx =>
          notNegativeIssues (("[" ++ toString ixs.1 ++ "]") ++ ("[" ++ toString jx.1 ++ "]"))
            jx.2)) ∧
      ∀ e ∈ M, ∃ (i j : Nat) (xs : List Any) (x : Any),
        [[Any.int 1], [.int 2, .int 3, .int (-4)]][i]? = some xs ∧ xs[j]? = some x ∧
        e ∈ notNegativeIssues (("[" ++ toString i ++ "]") ++ ("[" ++ toString j ++ "]")) x ∧
        e.Path = ("[" ++ toString i ++ "]") ++ ("[" ++ toString j ++ "]") :=
  have hg : ∀ (p : String) (x : Any), ∀ e ∈ notNegativeIssues p x, e.Path = p := by
    intro p x e he
    cases x with
    | int n =>
      simp only [notNegativeIssues] at he
      split at he
      · simp only [List.mem_singleton] at he
        subst he
        rfl
      · simp at he
    | _ => simp [notNegativeIssues] at he
  ⟨hg, by decide,
    C8_nested_slice_path coerceSame coerceSame leafNotNegative notNegativeIssues
      [[Any.int 1], [.int 2, .int 3, .int (-4)]] [] hg
      (fun c _ => ⟨_, rfl, rfl, rfl⟩)⟩

/-- C9: for a slice schema whose element schema leaves the path builder as it found it,
whenever `validate` or `process` returns, on whichever exit path, the path builder holds
the segments it held at entry: every `[i]` pushed has been popped. -/
theorem C9_path_restored (v : SliceSchema) (ctx : SchemaCtx)
    (hEv : ∀ c c1, v.schema.validate c = some c1 → c1.Path = c.Path)
    (hEp : ∀ c c1, v.schema.process c = some c1 → c1.Path = c.Path) :
    (∀ r, v.validate ctx = some r → r.1.Path = ctx.Path) ∧
    (∀ r, v.process ctx = some r → r.1.Path = ctx.Path) := by
  constructor
  · intro r hr
    simp only [SliceSchema.validate, Option.map_eq_some'] at hr
    obtain ⟨b, hb, rfl⟩ := hr
    rw [validateDeferred_path]
    simp only [SliceSchema.validateBody] at hb
    split at hb
    · next c log hpre =>
      simp only [Option.some.injEq] at hb
      subst hb
      exact (preTransformLoop_returned _ _ _ _ _ _ hpre).1
    · next c log hpre =>
      rw [validateFromZeroCheck_path v hEv _ _ _ hb]
      exact (preTransformLoop_continues _ _ _ _ _ _ hpre).2.1
  · intro r hr
    simp only [SliceSchema.process] at hr
    split at hr
    · next c log hpre =>
      simp only [Option.some.injEq] at hr
      subst hr
      exact (preTransformLoop_returned _ _ _ _ _ _ hpre).1
    · next c log hpre =>
      simp only [Option.map_eq_some'] at hr
      obtain ⟨b, hb, rfl⟩ := hr
      rw [processDeferred_path, processFromZeroCheck_path v hEp _ _ _ hb]
      exact (preTransformLoop_continues _ _ _ _ _ _ hpre).2.1

/-- Witness of C9: a node entered with the path `items`, its element schema recording an
issue for every element. The path is `items` again at the return of a full run over two
elements, of a pre-transform failure, of a required failure, of an optional skip and, in
process mode, of a coercion failure. -/
theorem C9_path_restored_witness :
    (∀ c c1, (Slice coerceSame leafReject []).schema.validate c = some c1 → c1.Path = c.Path) ∧
    (∀ c c1, (Slice coerceSame leafReject []).schema.process c = some c1 → c1.Path = c.Path) ∧
    ((∀ r : SchemaCtx × List Event, (Slice coerceSame leafReject []).validate (nestedCtx (.slice [.int 1, .int 2]) .nilSlice)
        = some r → r.1.Path = (nestedCtx (.slice [.int 1, .int 2]) .nilSlice).Path) ∧
      (∀ r : SchemaCtx × List Event, (Slice coerceSame leafReject []).process (nestedCtx (.slice [.int 1, .int 2]) .nilSlice)
        = some r → r.1.Path = (nestedCtx (.slice [.int 1, .int 2]) .nilSlice).Path)) ∧
    ((Slice coerceSame leafReject []).validate (nestedCtx (.slice [.int 1, .int 2]) .nilSlice)).map
      (fun r => (r.1.Path, r.1.exec.Errs.map Issue.Path)) =
        some (["items"], ["items[0]", "items[1]"]) ∧
    ((Slice coerceSame leafReject []).process (nestedCtx (.slice [.int 1, .int 2]) .nilSlice)).map
      (fun r => (r.1.Path, r.1.exec.Errs.map Issue.Path)) =
        some (["items"], ["items[0]", "items[1]"]) ∧
    (((Slice coerceSame leafReject []).PreTransform preFail).validate
      (nestedCtx (.slice [.int 1, .int 2]) .nilSlice)).map (fun r => r.1.Path) = some ["items"] ∧
    (((Slice coerceSame leafReject []).PreTransform preFail).process
      (nestedCtx (.slice [.int 1, .int 2]) .nilSlice)).map (fun r => r.1.Path) = some ["items"] ∧
    (({ Slice coerceSame leafReject [] with required := some requiredTest } : SliceSchema).validate
      (nestedCtx .nilSlice .nilSlice)).map (fun r => r.1.Path) = some ["items"] ∧
    (({ Slice coerceSame leafReject [] with required := some requiredTest } : SliceSchema).process
      (nestedCtx .null .nilSlice)).map (fun r => r.1.Path) = some ["items"] ∧
    ((Slice coerceSame leafReject []).validate (nestedCtx .nilSlice .nilSlice)).map
      (fun r => r.1.Path) = some ["items"] ∧
    ((Slice coerceSame leafReject []).process (nestedCtx .null .nilSlice)).map
      (fun r => r.1.Path) = some ["items"] ∧
    ((Slice coerceFail leafReject []).process (nestedCtx (.int 5) .nilSlice)).map
      (fun r => (r.1.Path, r.1.exec.Errs)) = some (["items"], [Issue.coerce "items" "not a slice"]) :=
  have hv : ∀ c c1, (Slice coerceSame leafReject []).schema.validate c = some c1 →
      c1.Path = c.Path := by
    intro c c1 h
    simp only [Slice, List.foldl_nil, leafReject, Option.some.injEq] at h
    subst h; rfl
  have hp : ∀ c c1, (Slice coerceSame leafReject []).schema.process c = some c1 →
      c1.Path = c.Path := by
    intro c c1 h
    simp only [Slice, List.foldl_nil, leafReject, Option.some.injEq] at h
    subst h; rfl
  ⟨hv, hp,
    C9_path_restored (Slice coerceSame leafReject [])
      (nestedCtx (.slice [.int 1, .int 2]) .nilSlice) hv hp,
    by decide, by decide, by decide, by decide, by decide, by decide, by decide, by decide,
    by decide⟩

/-- C10: let `b` be the context and the callbacks invoked at the point where the earlier
phases of `validate` (of `process`) end. No post-transform has been invoked up to there.
If the execution context holds an issue at that point, whoever recorded it, the node
returns `b` as it is: no post-transform of the node is invoked. Only if it holds none is
the loop over the post-transforms run. -/
theorem C10_post_transforms_gate (v : SliceSchema) (ctx : SchemaCtx) :
    (∀ b, v.validateBody ctx = some b →
      (∀ i, Event.postTransform i ∉ b.2) ∧
      (b.1.HasErrored = true → v.validate ctx = some b) ∧
      (b.1.HasErrored = false →
        v.validate ctx = some (validatePostLoop v.postTransforms 0 b.1 b.2))) ∧
    (∀ b, v.processBody ctx = some b →
      (∀ i, Event.postTransform i ∉ b.2) ∧
      (b.1.HasErrored = true → v.process ctx = some b) ∧
      (b.1.HasErrored = false →
        v.process ctx = some (processPostLoop v.postTransforms 0 b.1 b.2))) := by
  constructor
  · intro b hb
    refine ⟨?_, ?_, ?_⟩
    · simp only [SliceSchema.validateBody] at hb
      split at hb
      · next c log hpre =>
        simp only [Option.some.injEq] at hb
        subst hb
        obtain ⟨_, _, _, k, _, hk⟩ := preTransformLoop_returned _ _ _ _ _ _ hpre
        simp [hk]
      · next c log hpre =>
        obtain ⟨l, hl, hnp⟩ := validateFromZeroCheck_log v _ _ _ hb
        obtain ⟨_, _, _, h4⟩ := preTransformLoop_continues _ _ _ _ _ _ hpre
        intro i
        rw [hl, h4]
        simpa using hnp i
    · intro he
      simp [SliceSchema.validate, hb, SliceSchema.validateDeferred, he]
    · intro he
      simp [SliceSchema.validate, hb, SliceSchema.validateDeferred, he]
  · intro b hb
    simp only [SliceSchema.processBody] at hb
    split at hb
    · next c log hpre =>
      simp only [Option.some.injEq] at hb
      subst hb
      obtain ⟨_, _, ⟨err, herr⟩, k, _, hk⟩ := preTransformLoop_returned _ _ _ _ _ _ hpre
      refine ⟨by simp [hk], ?_, ?_⟩
      · intro _
        simp [SliceSchema.process, hpre]
      · intro he
        simp [SchemaCtx.HasErrored, herr] at he
    · next c log hpre =>
      refine ⟨?_, ?_, ?_⟩
      · obtain ⟨l, hl, hnp⟩ := processFromZeroCheck_log v _ _ _ hb
        obtain ⟨_, _, _, h4⟩ := preTransformLoop_continues _ _ _ _ _ _ hpre
        intro i
        rw [hl, h4]
        simpa using hnp i
      · intro he
        simp [SliceSchema.process, hpre, hb, SliceSchema.processDeferred, he]
      · intro he
        simp [SliceSchema.process, hpre, hb, SliceSchema.processDeferred, he]

/-- Witness of C10: a node with one post-transform. With an element schema that records
an issue (a descendant issue) the post-transform is not invoked; so it is when a sibling
has recorded an issue before the node is entered; with an accepting element schema and
no issue in the context it is invoked after the elements. -/
theorem C10_post_transforms_gate_witness :
    (((Slice coerceSame leafReject []).PostTransform postSame).validate
        (rootCtx (.slice [.int 1]) .nilSlice)).map (fun r => r.2) = some [Event.schema 0] ∧
    (((Slice coerceSame leafReject []).PostTransform postSame).process
        (rootCtx (.slice [.int 1]) .nilSlice)).map (fun r => r.2) =
      some [Event.coercer, Event.schema 0] ∧
    (((Slice coerceSame leafAccept []).PostTransform postSame).validate
        (siblingErroredCtx (.slice [.int 1]) .nilSlice)).map (fun r => r.2) =
      some [Event.schema 0] ∧
    (((Slice coerceSame leafAccept []).PostTransform postSame).validate
        (rootCtx (.slice [.int 1]) .nilSlice)).map (fun r => r.2) =
      some [Event.schema 0, Event.postTransform 0] ∧
    ((Slice coerceSame leafReject []).PostTransform postSame).validateBody
        (rootCtx (.slice [.int 1]) .nilSlice) =
      some ((rootCtx (.slice [.int 1]) .nilSlice).AddIssue (Issue.test "[0]" "rejected" []),
        [Event.schema 0]) ∧
    ((∀ i, Event.postTransform i ∉ [Event.schema 0]) ∧
      (((rootCtx (.slice [.int 1]) .nilSlice).AddIssue
          (Issue.test "[0]" "rejected" [])).HasErrored = true →
        ((Slice coerceSame leafReject []).PostTransform postSame).validate
            (rootCtx (.slice [.int 1]) .nilSlice) =
          some ((rootCtx (.slice [.int 1]) .nilSlice).AddIssue (Issue.test "[0]" "rejected" []),
            [Event.schema 0])) ∧
      (((rootCtx (.slice [.int 1]) .nilSlice).AddIssue
          (Issue.test "[0]" "rejected" [])).HasErrored = false →
        ((Slice coerceSame leafReject []).PostTransform postSame).validate
            (rootCtx (.slice [.int 1]) .nilSlice) =
          some (validatePostLoop
            ((Slice coerceSame leafReject []).PostTransform postSame).postTransforms 0
            ((rootCtx (.slice [.int 1]) .nilSlice).AddIssue (Issue.test "[0]" "rejected" []))
            [Event.schema 0]))) :=
  ⟨by decide, by decide, by decide, by decide, by decide,
    (C10_post_transforms_gate ((Slice coerceSame leafReject []).PostTransform postSame)
      (rootCtx (.slice [.int 1]) .nilSlice)).1
      ((rootCtx (.slice [.int 1]) .nilSlice).AddIssue (Issue.test "[0]" "rejected" []),
        [Event.schema 0]) (by decide)⟩

theorem processItemsAndTests_written (v : SliceSchema) (ctx : SchemaCtx) (refVal : Any)
    (log : List Event) (xs : List Any) (w : Any → Any) (hxs : refVal.elems = some xs)
    (hE : ∀ c : SchemaCtx, c.Val ∈ xs → ∃ c1, v.schema.process c = some c1 ∧
      c1.DestPtr = w c.Val)
    (hT : ∀ t ∈ v.tests, ∀ (x : Any) (c : SchemaCtx), ∃ b, t.ValidateFunc (.ptr x) c = some b) :
    ∃ b, v.processItemsAndTests ctx refVal log = some b ∧
      b.1.DestPtr = .slice (xs.map w) ∧
      b.2 = log ++ (List.range xs.length).map Event.schema ++
        (List.range v.tests.length).map Event.test ∧
      ((∀ c c1 : SchemaCtx, c.Val ∈ xs → v.schema.process c = some c1 →
          c1.exec.Errs = c.exec.Errs) → v.tests = [] → b.1.exec.Errs = ctx.exec.Errs) := by
  obtain ⟨sub1, h1, h2⟩ := processItems_written v.schema w xs 0 []
    ({ ctx with DestPtr := MakeSlice xs.length }.NewSchemaCtx ctx.Val
      (MakeSlice xs.length) ctx.Path v.schema.getType) log hE
  obtain ⟨oks, _, h3, _⟩ := testsLoop_spec (.ptr (.slice ([] ++ xs.map w))) v.tests 0
    { ctx with DestPtr := .slice ([] ++ xs.map w), Path := sub1.Path, exec := sub1.exec }
    (log ++ (List.range' 0 xs.length).map Event.schema) (fun t ht c => hT t ht _ c)
  have hfull : v.processItemsAndTests ctx refVal log =
      testsLoop (.ptr (.slice ([] ++ xs.map w))) v.tests 0
        { ctx with DestPtr := .slice ([] ++ xs.map w), Path := sub1.Path, exec := sub1.exec }
        (log ++ (List.range' 0 xs.length).map Event.schema) := by
    simp only [SliceSchema.processItemsAndTests, hxs, h1, processTests_eq]
  refine ⟨_, hfull.trans h3, by simp [SchemaCtx.withIssues], by simp [List.range_eq_range'], ?_⟩
  intro hq ht
  have := h2 hq
  simp only [SchemaCtx.NewSchemaCtx, ExecCtx.NewSchemaCtx] at this
  simp [SchemaCtx.withIssues, ht, failedIssues, this]

/-- C11 as the claim states it, at a schema with no rule tests and one post-transform,
with an element schema for integers, on the source `["1"]`: the coercion yields a
sequence of length 1 and no element records an issue, yet it is false that the returned
map is empty. The post-transform runs after the elements and records its error. -/
theorem C11_counterexample :
    ((Slice coerceSame leafInt []).PostTransform postFail).tests = [] ∧
    IsParseZeroValue (Any.slice [.str "1"]) (rootCtx (.slice [.str "1"]) .nilSlice) = false ∧
    ((Slice coerceSame leafInt []).PostTransform postFail).coercer (Any.slice [.str "1"]) =
      .ok (Any.slice [.str "1"]) ∧
    ((Slice coerceSame leafInt []).PostTransform postFail).Parse (.slice [.str "1"]) .nilSlice [] =
      some ([Issue.unknown "" "post failed"], .slice [.int 1]) ∧
    ¬ (∃ out, ((Slice coerceSame leafInt []).PostTransform postFail).Parse
        (.slice [.str "1"]) .nilSlice [] = some ([], out)) := by
  have h : ((Slice coerceSame leafInt []).PostTransform postFail).Parse
      (.slice [.str "1"]) .nilSlice [] =
        some ([Issue.unknown "" "post failed"], .slice [.int 1]) := by decide
  refine ⟨rfl, rfl, rfl, h, ?_⟩
  rintro ⟨out, h1⟩
  rw [h] at h1
  simp at h1

/-- C11 (amended): in process mode, when the pre-transforms have succeeded and left a
value that is not zero, the coercer yields a sequence of elements `xs`, the element
schema returns on each element and writes `w` of the source element to the destination
element, and no rule test panics on a pointer: at the point where the earlier phases of
`process` end, the destination is a sequence of length `len(xs)` whose element `i` is
what the element schema wrote for source element `i`. When furthermore no element
records an issue, there are no rule tests and no post-transform returns an error,
`process` adds no issue, so `Parse` returns an empty map; and with no post-transforms
the destination at the return is still that sequence. -/
theorem C11_process_fills_destination (v : SliceSchema) (ctx c : SchemaCtx) (log : List Event)
    (coerced : Any) (xs : List Any) (w : Any → Any)
    (hpre : preTransformLoop v.preTransforms 0 ctx [] = .continues c log)
    (hz : IsParseZeroValue c.Val c = false)
    (hco : v.coercer c.Val = .ok coerced)
    (hxs : coerced.elems = some xs)
    (hE : ∀ c1 : SchemaCtx, c1.Val ∈ xs → ∃ c2, v.schema.process c1 = some c2 ∧
      c2.DestPtr = w c1.Val)
    (hT : ∀ t ∈ v.tests, ∀ (x : Any) (c1 : SchemaCtx), ∃ b, t.ValidateFunc (.ptr x) c1 = some b) :
    (∃ b, v.processBody ctx = some b ∧ b.1.DestPtr = .slice (xs.map w) ∧
      (xs.map w).length = xs.length ∧
      b.2 = log ++ [Event.coercer] ++ (List.range xs.length).map Event.schema ++
        (List.range v.tests.length).map Event.test) ∧
    ((∀ c1 c2 : SchemaCtx, c1.Val ∈ xs → v.schema.process c1 = some c2 →
        c2.exec.Errs = c1.exec.Errs) →
      v.tests = [] →
      (∀ fn ∈ v.postTransforms, ∀ (x : Any) (c1 : SchemaCtx), (fn x c1).2 = none) →
      ∃ r, v.process ctx = some r ∧ r.1.exec.Errs = ctx.exec.Errs ∧
        (v.postTransforms = [] → r.1.DestPtr = .slice (xs.map w)) ∧
        ∀ (data dest : Any) (options : List ExecOption),
          ctx = (options.foldl (fun e opt => ExecOption.apply opt e)
            (NewExecCtx NewErrsMap)).NewSchemaCtx data dest NewPathBuilder v.getType →
          v.Parse data dest options = some ([], r.1.DestPtr)) := by
  obtain ⟨b, hb, hdest, hlog, hquiet⟩ :=
    processItemsAndTests_written v c coerced (log ++ [Event.coercer]) xs w hxs hE hT
  obtain ⟨hexec, _, _, _⟩ := preTransformLoop_continues _ _ _ _ _ _ hpre
  have hrun : v.processFromZeroCheck c log = some b := by
    simp only [SliceSchema.processFromZeroCheck, hz, hco]
    exact hb
  have hbody : v.processBody ctx = some b := by
    simp only [SliceSchema.processBody, hpre, hrun]
  refine ⟨⟨b, hbody, hdest, by simp, hlog⟩, ?_⟩
  intro hq ht hpost
  have herrs : b.1.exec.Errs = ctx.exec.Errs := by rw [hquiet hq ht, hexec]
  have hproc : v.process ctx = some (v.processDeferred b) := by
    simp only [SliceSchema.process, hpre, hrun, Option.map_some']
  obtain ⟨p1, _⟩ := processPostLoop_ok v.postTransforms hpost 0 b.1 b.2
  have hderrs : (v.processDeferred b).1.exec.Errs = ctx.exec.Errs := by
    simp only [SliceSchema.processDeferred]
    split
    · rw [p1, herrs]
    · exact herrs
  refine ⟨v.processDeferred b, hproc, hderrs, ?_, ?_⟩
  · intro hnil
    rw [processDeferred_nil v hnil]
    exact hdest
  · intro data dest options hctx
    have hopt := execOptions_Errs options (NewExecCtx NewErrsMap)
    simp only [NewExecCtx, NewErrsMap] at hopt
    have hempty : ctx.exec.Errs = [] := by
      rw [hctx]
      simpa [ExecCtx.NewSchemaCtx, NewExecCtx, NewErrsMap] using hopt
    simp only [SliceSchema.Parse]
    rw [← hctx, hproc]
    simp [hderrs, hempty]

/-- Witness of C11 (amended): the source `["1", "2", "3"]` into a sequence of integers,
with an element schema for integers that has no rules: the map is empty and the
destination is `[1, 2, 3]`. -/
theorem C11_process_fills_destination_witness :
    preTransformLoop (Slice coerceSame leafInt []).preTransforms 0
        (rootCtx (.slice [.str "1", .str "2", .str "3"]) .nilSlice) [] =
      .continues (rootCtx (.slice [.str "1", .str "2", .str "3"]) .nilSlice) [] ∧
    IsParseZeroValue (rootCtx (.slice [.str "1", .str "2", .str "3"]) .nilSlice).Val
      (rootCtx (.slice [.str "1", .str "2", .str "3"]) .nilSlice) = false ∧
    (Slice coerceSame leafInt []).coercer
        (rootCtx (.slice [.str "1", .str "2", .str "3"]) .nilSlice).Val =
      .ok (.slice [.str "1", .str "2", .str "3"]) ∧
    (Any.slice [.str "1", .str "2", .str "3"]).elems = some [.str "1", .str "2", .str "3"] ∧
    (∀ c1 : SchemaCtx, c1.Val ∈ [Any.str "1", .str "2", .str "3"] →
      ∃ c2, (Slice coerceSame leafInt []).schema.process c1 = some c2 ∧
        c2.DestPtr = parsedInt c1.Val) ∧
    (Slice coerceSame leafInt []).Parse (.slice [.str "1", .str "2", .str "3"]) .nilSlice [] =
      some ([], .slice [.int 1, .int 2, .int 3]) ∧
    ∃ b, (Slice coerceSame leafInt []).processBody
          (rootCtx (.slice [.str "1", .str "2", .str "3"]) .nilSlice) = some b ∧
      b.1.DestPtr = .slice ([Any.str "1", .str "2", .str "3"].map parsedInt) ∧
      ([Any.str "1", .str "2", .str "3"].map parsedInt).length =
        [Any.str "1", .str "2", .str "3"].length ∧
      b.2 = [] ++ [Event.coercer] ++
        (List.range [Any.str "1", .str "2", .str "3"].length).map Event.schema ++
        (List.range (Slice coerceSame leafInt []).tests.length).map Event.test :=
  have hE : ∀ c1 : SchemaCtx, c1.Val ∈ [Any.str "1", .str "2", .str "3"] →
      ∃ c2, (Slice coerceSame leafInt []).schema.process c1 = some c2 ∧
        c2.DestPtr = parsedInt c1.Val := by
    intro c1 _
    refine ⟨_, rfl, ?_⟩
    by_cases h : parsedInt c1.Val = .null
    · simp [h, SchemaCtx.AddIssue]
    · simp [h]
  ⟨rfl, rfl, rfl, rfl, hE, by decide,
    (C11_process_fills_destination (Slice coerceSame leafInt [])
      (rootCtx (.slice [.str "1", .str "2", .str "3"]) .nilSlice)
      (rootCtx (.slice [.str "1", .str "2", .str "3"]) .nilSlice) []
      (.slice [.str "1", .str "2", .str "3"]) [.str "1", .str "2", .str "3"] parsedInt
      rfl rfl rfl rfl hE (fun t ht => by simp [Slice] at ht)).1⟩

/-- C12: in process mode, when the pre-transforms have succeeded and left a value that
is not zero, and the coercer returns the error `err` on it: `process` returns with
exactly one more issue recorded, the coercion issue of `err` at the current path, and
the callbacks invoked are the pre-transforms and the coercer and nothing else: no
element schema, no rule test, no post-transform. -/
theorem C12_coercer_error (v : SliceSchema) (ctx c : SchemaCtx) (log : List Event)
    (err : String)
    (hpre : preTransformLoop v.preTransforms 0 ctx [] = .continues c log)
    (hz : IsParseZeroValue c.Val c = false)
    (hco : v.coercer c.Val = .error err) :
    ∃ r : SchemaCtx × List Event,
      v.process ctx = some r ∧
      r.1.exec.Errs = ctx.exec.Errs ++ [Issue.coerce ctx.Path.String err] ∧
      r.1.Path = ctx.Path ∧
      r.2 = (List.range v.preTransforms.length).map Event.preTransform ++ [Event.coercer] := by
  obtain ⟨h1, h2, _, h4⟩ := preTransformLoop_continues _ _ _ _ _ _ hpre
  refine ⟨(c.AddIssue (c.IssueFromCoerce err), log ++ [Event.coercer]), ?_, ?_, ?_, ?_⟩
  · simp [SliceSchema.process, hpre, SliceSchema.processFromZeroCheck, hz, hco,
      SliceSchema.processDeferred, hasErrored_AddIssue]
  · simp [SchemaCtx.AddIssue, SchemaCtx.IssueFromCoerce, h1, h2]
  · simp [SchemaCtx.AddIssue, h2]
  · rw [h4]
    simp [List.range_eq_range']

/-- Witness of C12: a failing coercer on the value `5`, with a minimum and a
post-transform configured. -/
theorem C12_coercer_error_witness :
    preTransformLoop (((Slice coerceFail leafAccept []).Min 1 []).PostTransform postFail).preTransforms
        0 (rootCtx (.int 5) .nilSlice) [] = .continues (rootCtx (.int 5) .nilSlice) [] ∧
    IsParseZeroValue (rootCtx (.int 5) .nilSlice).Val (rootCtx (.int 5) .nilSlice) = false ∧
    (((Slice coerceFail leafAccept []).Min 1 []).PostTransform postFail).coercer
        (rootCtx (.int 5) .nilSlice).Val = .error "not a slice" ∧
    ∃ r : SchemaCtx × List Event,
      (((Slice coerceFail leafAccept []).Min 1 []).PostTransform postFail).process
          (rootCtx (.int 5) .nilSlice) = some r ∧
      r.1.exec.Errs = (rootCtx (.int 5) .nilSlice).exec.Errs ++
        [Issue.coerce (rootCtx (.int 5) .nilSlice).Path.String "not a slice"] ∧
      r.1.Path = (rootCtx (.int 5) .nilSlice).Path ∧
      r.2 = (List.range
          (((Slice coerceFail leafAccept []).Min 1 []).PostTransform postFail).preTransforms.length).map
            Event.preTransform ++ [Event.coercer] :=
  ⟨rfl, rfl, rfl,
    C12_coercer_error (((Slice coerceFail leafAccept []).Min 1 []).PostTransform postFail)
      (rootCtx (.int 5) .nilSlice) (rootCtx (.int 5) .nilSlice) [] "not a slice" rfl rfl rfl⟩

/-- C13 as the claim states it, at `Slice(E).Contains(5)` on `[0, 2, 9]` with an element
schema `E` that has the default 5: no element of the sequence equals 5, yet it is false
that `Validate` records the issue with code "contains". The element schema replaces the
zero element in place before the rule tests run, and the test passes on `[5, 2, 9]`. -/
theorem C13_counterexample :
    (∀ e ∈ [Any.int 0, .int 2, .int 9], e ≠ Any.int 5) ∧
    ((Slice coerceSame (leafWithDefault (.int 5)) []).Contains (.int 5) []).Validate
        (.slice [.int 0, .int 2, .int 9]) [] = some ([], .slice [.int 5, .int 2, .int 9]) ∧
    ¬ (∃ M out,
        ((Slice coerceSame (leafWithDefault (.int 5)) []).Contains (.int 5) []).Validate
          (.slice [.int 0, .int 2, .int 9]) [] = some (M, out) ∧
        M.get NewPathBuilder.String =
          [Issue.test NewPathBuilder.String IssueCodeContains [(IssueCodeContains, .int 5)]]) := by
  have h : ((Slice coerceSame (leafWithDefault (.int 5)) []).Contains (.int 5) []).Validate
      (.slice [.int 0, .int 2, .int 9]) [] = some ([], .slice [.int 5, .int 2, .int 9]) := by
    decide
  refine ⟨by decide, h, ?_⟩
  rintro ⟨M, out, h1, h2⟩
  rw [h] at h1
  simp only [Option.some.injEq, Prod.mk.injEq] at h1
  obtain ⟨rfl, _⟩ := h1
  revert h2
  decide

/-- C13 (amended): for every value `x` and every non-empty sequence `s`, with an element
schema that on the elements of `s` returns, leaves the path builder as it found it and
keys its issues under its own path: `Validate` of `Slice(E).Contains(x)` on `s` returns,
leaving a sequence `left` of the same length, the elements as the element schema left
them. The contains test passes (no issue at the root path) if and only if some element
of `left` equals `x`; when none does, the issues at the root path are exactly one issue
with code "contains" and parameter `x`. When the element schema changes no element,
`left` is `s`. -/
theorem C13_contains (co : CoercerFunc) (E : ZogSchema) (x : Any) (s : List Any)
    (options : List ExecOption) (hs : s ≠ [])
    (hE : ∀ c : SchemaCtx, c.Val ∈ s → ∃ c1, E.validate c = some c1 ∧ c1.Path = c.Path ∧
        ∃ new, c1.exec.Errs = c.exec.Errs ++ new ∧
          ∀ e ∈ new, ∃ suffix, e.Path = c.Path.String ++ suffix) :
    ∃ M left, ((Slice co E []).Contains x []).Validate (.slice s) options =
        some (M, .slice left) ∧
      left.length = s.length ∧
      (M.get NewPathBuilder.String = [] ↔ ∃ e ∈ left, e = x) ∧
      ((∀ e ∈ left, e ≠ x) → M.get NewPathBuilder.String =
        [Issue.test NewPathBuilder.String IssueCodeContains [(IssueCodeContains, x)]]) ∧
      ((∀ c c1 : SchemaCtx, c.Val ∈ s → E.validate c = some c1 → c1.Val = c.Val) →
        left = s) := by
  have hopt := execOptions_Errs options (NewExecCtx NewErrsMap)
  simp only [NewExecCtx, NewErrsMap] at hopt
  obtain ⟨y, ys, rfl⟩ := List.exists_cons_of_ne_nil hs
  obtain ⟨done1, sub1, new, h1, h2, h3, h4, h5⟩ :=
    validateItems_issues E (y :: ys) 0 []
      (((options.foldl (fun c opt => ExecOption.apply opt c) (NewExecCtx NewErrsMap)).NewSchemaCtx
        (.slice (y :: ys)) (.slice (y :: ys)) NewPathBuilder TypeSlice).NewSchemaCtx
        (.slice (y :: ys)) (.slice (y :: ys)) NewPathBuilder E.getType) [] hE
  simp only [SchemaCtx.NewSchemaCtx, ExecCtx.NewSchemaCtx, hopt, NewExecCtx, NewErrsMap,
    List.nil_append, List.length_nil, Nat.zero_add] at h1 h2 h3 h4 h5
  have hfilter : ZogIssueMap.get new NewPathBuilder.String = [] := by
    simp only [ZogIssueMap.get, List.filter_eq_nil_iff, decide_eq_true_eq]
    exact h5
  refine ⟨new ++ (if containsLoop x done1 then [] else
      [Issue.test NewPathBuilder.String IssueCodeContains [(IssueCodeContains, x)]]),
    done1, ?_, h2, ?_, ?_, ?_⟩
  · simp only [SliceSchema.Validate, SliceSchema.validate, SliceSchema.validateBody, Slice,
      SliceSchema.Contains, preTransformLoop, SliceSchema.validateFromZeroCheck, IsZeroValue,
      ExecCtx.NewSchemaCtx, NewExecCtx, NewErrsMap, Any.Len, SliceSchema.validateItemsAndTests,
      SchemaCtx.NewSchemaCtx, Any.elems, h1, validateTests, containsFunc, SliceSchema.getType,
      SchemaCtx.AddIssue, SchemaCtx.IssueFromTest, h3, h4, List.foldl_nil, List.nil_append]
    cases hc : containsLoop x done1 <;> simp [hc, validateDeferred_nil, ← h4]
  · simp only [ZogIssueMap.get, List.filter_append]
    simp only [ZogIssueMap.get] at hfilter
    rw [hfilter, ← containsLoop_iff]
    cases hc : containsLoop x done1 <;> simp [Issue.Path]
  · intro hne
    have hc : containsLoop x done1 = false := by
      cases hc : containsLoop x done1
      · rfl
      · obtain ⟨e, he, hex⟩ := (containsLoop_iff x done1).mp hc
        exact absurd hex (hne e he)
    simp only [hc, ZogIssueMap.get, List.filter_append]
    simp only [ZogIssueMap.get] at hfilter
    rw [hfilter]
    simp [Issue.Path]
  · intro hun
    simpa using validateItems_unchanged E _ _ _ _ _ _ hun h1

/-- Witness of C13 (amended): `Contains(5)` with an element schema that changes nothing
passes on `[1, 5, 9]` and fails on `[1, 2, 9]` with code "contains" and parameter 5. -/
theorem C13_contains_witness :
    [Any.int 1, .int 2, .int 9] ≠ [] ∧
    (∀ c : SchemaCtx, c.Val ∈ [Any.int 1, .int 2, .int 9] →
      ∃ c1, leafAccept.validate c = some c1 ∧ c1.Path = c.Path ∧
        ∃ new, c1.exec.Errs = c.exec.Errs ++ new ∧
          ∀ e ∈ new, ∃ suffix, e.Path = c.Path.String ++ suffix) ∧
    ((Slice coerceSame leafAccept []).Contains (.int 5) []).Validate
        (.slice [.int 1, .int 5, .int 9]) [] = some ([], .slice [.int 1, .int 5, .int 9]) ∧
    ((Slice coerceSame leafAccept []).Contains (.int 5) []).Validate
        (.slice [.int 1, .int 2, .int 9]) [] =
      some ([Issue.test "" "contains" [("contains", .int 5)]], .slice [.int 1, .int 2, .int 9]) ∧
    ∃ M left, ((Slice coerceSame leafAccept []).Contains (.int 5) []).Validate
          (.slice [.int 1, .int 2, .int 9]) [] = some (M, .slice left) ∧
      left.length = [Any.int 1, .int 2, .int 9].length ∧
      (M.get NewPathBuilder.String = [] ↔ ∃ e ∈ left, e = Any.int 5) ∧
      ((∀ e ∈ left, e ≠ Any.int 5) → M.get NewPathBuilder.String =
        [Issue.test NewPathBuilder.String IssueCodeContains [(IssueCodeContains, .int 5)]]) ∧
      ((∀ c c1 : SchemaCtx, c.Val ∈ [Any.int 1, .int 2, .int 9] →
          leafAccept.validate c = some c1 → c1.Val = c.Val) →
        left = [Any.int 1, .int 2, .int 9]) :=
  ⟨by decide, fun c _ => ⟨c, rfl, rfl, [], by simp, by simp⟩, by decide, by decide,
    C13_contains coerceSame leafAccept (.int 5) [.int 1, .int 2, .int 9] [] (by decide)
      (fun c _ => ⟨c, rfl, rfl, [], by simp, by simp⟩)⟩

/-- C14: the test that `Len(n)` appends is `sliceLength(n)`; handed the address of a
sequence `s` (nil or not), its predicate returns, and returns true if and only if
`len(s) = n`, so it returns false on a shorter and on a longer sequence; it carries the
issue code "len" and the parameter `n` under the key "len". -/
theorem C14_len_test (n : Int) (data : Any) (s : List Any) (ctx : SchemaCtx) (v : SliceSchema) :
    (v.Len n []).tests = v.tests ++ [sliceLength n] ∧
    (sliceLength n).IssueCode = "len" ∧
    (sliceLength n).Params = [("len", .int n)] ∧
    (data.elems = some s →
      (sliceLength n).ValidateFunc (.ptr data) ctx = some (decide ((s.length : Int) = n)) ∧
      ((sliceLength n).ValidateFunc (.ptr data) ctx = some true ↔ (s.length : Int) = n) ∧
      ((s.length : Int) < n → (sliceLength n).ValidateFunc (.ptr data) ctx = some false) ∧
      ((s.length : Int) > n → (sliceLength n).ValidateFunc (.ptr data) ctx = some false)) := by
  refine ⟨by simp [SliceSchema.Len], rfl, rfl, ?_⟩
  intro hs
  have hrun : (sliceLength n).ValidateFunc (.ptr data) ctx =
      some (decide ((s.length : Int) = n)) := by
    cases data with
    | slice xs =>
      simp only [Any.elems, Option.some.injEq] at hs
      subst hs
      rfl
    | nilSlice =>
      simp only [Any.elems, Option.some.injEq] at hs
      subst hs
      rfl
    | null => simp [Any.elems] at hs
    | int k => simp [Any.elems] at hs
    | str k => simp [Any.elems] at hs
    | bool k => simp [Any.elems] at hs
    | ptr k => simp [Any.elems] at hs
  refine ⟨hrun, ?_, ?_, ?_⟩
  · rw [hrun]; simp
  · intro h
    rw [hrun]
    have : ¬ ((s.length : Int) = n) := by omega
    simp [this]
  · intro h
    rw [hrun]
    have : ¬ ((s.length : Int) = n) := by omega
    simp [this]

/-- Witness of C14: `Len(3)` on a sequence of 2 elements, of 3 and of 4. -/
theorem C14_len_test_witness :
    (Any.slice [.int 1, .int 2]).elems = some [.int 1, .int 2] ∧
    (sliceLength 3).ValidateFunc (.ptr (.slice [.int 1, .int 2])) (rootCtx .null .null) =
      some false ∧
    (sliceLength 3).ValidateFunc (.ptr (.slice [.int 1, .int 2, .int 3])) (rootCtx .null .null) =
      some true ∧
    (sliceLength 3).ValidateFunc (.ptr (.slice [.int 1, .int 2, .int 3, .int 4]))
      (rootCtx .null .null) = some false ∧
    ((Slice coerceSame leafAccept []).Len 3 []).Validate (.slice [.int 1, .int 2]) [] =
      some ([Issue.test "" "len" [("len", .int 3)]], .slice [.int 1, .int 2]) ∧
    ((sliceLength 3).ValidateFunc (.ptr (.slice [.int 1, .int 2])) (rootCtx .null .null) =
      some true ↔ (([Any.int 1, .int 2].length : Nat) : Int) = 3) :=
  ⟨rfl, by decide, by decide, by decide, by decide,
    ((C14_len_test 3 (.slice [.int 1, .int 2]) [.int 1, .int 2] (rootCtx .null .null)
      (Slice coerceSame leafAccept [])).2.2.2 rfl).2.1⟩

/-- C15 as the claim states it, at the value `5`, which is not a sequence, handed to the
predicate of `Min(0)`: it is false that the predicate returns false without a crash.
`Elem` is called on the value handed before its kind is looked at, and panics on a value
that is no pointer; so do the predicates of `Max`, `Len` and `Contains`. -/
theorem C15_counterexample :
    (Any.int 5).Len = none ∧
    ¬ ((sliceMin 0).ValidateFunc (Any.int 5) (rootCtx .null .null) = some false) ∧
    (sliceMin 0).ValidateFunc (Any.int 5) (rootCtx .null .null) = none ∧
    (sliceMax 0).ValidateFunc (Any.int 5) (rootCtx .null .null) = none ∧
    (sliceLength 0).ValidateFunc (Any.int 5) (rootCtx .null .null) = none ∧
    containsFunc (.int 1) (Any.int 5) (rootCtx .null .null) = none := by
  decide

/-- C15 (amended): for every parameter and every pointer handed to the built-in tests
`Min`, `Max`, `Len` and `Contains` whose addressed value is not a sequence, each
predicate returns false and does not panic. The test `Contains(x)` appends has
`containsFunc x` as its predicate. -/
theorem C15_non_sequence_fails (n : Int) (x rv : Any) (ctx : SchemaCtx) (v : SliceSchema)
    (hrv : rv.Len = none) :
    (sliceMin n).ValidateFunc (.ptr rv) ctx = some false ∧
    (sliceMax n).ValidateFunc (.ptr rv) ctx = some false ∧
    (sliceLength n).ValidateFunc (.ptr rv) ctx = some false ∧
    containsFunc x (.ptr rv) ctx = some false ∧
    (∃ t, (v.Contains x []).tests = v.tests ++ [t] ∧ t.ValidateFunc = containsFunc x) := by
  refine ⟨?_, ?_, ?_, ?_, ⟨_, by simp only [SliceSchema.Contains, List.foldl_nil]; rfl, rfl⟩⟩ <;>
    cases rv <;> first | rfl | simp [Any.Len] at hrv

/-- Witness of C15 (amended): the address of the integer `5`. -/
theorem C15_non_sequence_fails_witness :
    (Any.int 5).Len = none ∧
    (sliceMin 0).ValidateFunc (.ptr (.int 5)) (rootCtx .null .null) = some false ∧
    (sliceMax 0).ValidateFunc (.ptr (.int 5)) (rootCtx .null .null) = some false ∧
    (sliceLength 0).ValidateFunc (.ptr (.int 5)) (rootCtx .null .null) = some false ∧
    containsFunc (.int 5) (.ptr (.int 5)) (rootCtx .null .null) = some false ∧
    (∃ t, ((Slice coerceSame leafAccept []).Contains (.int 5) []).tests =
      (Slice coerceSame leafAccept []).tests ++ [t] ∧ t.ValidateFunc = containsFunc (.int 5)) :=
  ⟨rfl, C15_non_sequence_fails 0 (.int 5) (.int 5) (rootCtx .null .null)
    (Slice coerceSame leafAccept []) rfl⟩

/-- C16 as the claim states it, at a schema with one post-transform on which `Required()`
and then `Optional()` are called, with no default, on a sequence of length 0: the node
has no required test, yet it is false that no issue is recorded. The node returns at the
optional check and its deferred post-transform runs and records its error. -/
theorem C16_counterexample :
    ((((Slice coerceSame leafAccept []).PostTransform postFail).Required requiredTest
        []).Optional).required.isNone = true ∧
    ((((Slice coerceSame leafAccept []).PostTransform postFail).Required requiredTest
        []).Optional).defaultVal = Any.null ∧
    (Any.slice []).Len = some 0 ∧
    ¬ (∃ out, ((((Slice coerceSame leafAccept []).PostTransform postFail).Required requiredTest
        []).Optional).Validate (.slice []) [] = some ([], out)) := by
  have h : ((((Slice coerceSame leafAccept []).PostTransform postFail).Required requiredTest
      []).Optional).Validate (.slice []) [] =
        some ([Issue.unknown "" "post failed"], .slice []) := by decide
  refine ⟨rfl, rfl, rfl, ?_⟩
  rintro ⟨out, h1⟩
  rw [h] at h1
  simp at h1

/-- C16 (amended): `Optional()` sets the required test to none and changes no other
field. The last call among `Required()` and `Optional()` decides: after `Required()`
then `Optional()` the node has no required test; after `Optional()` then `Required()`
it has the one `Required()` built. On a zero-length input (the value addressed is a
sequence of length 0, nil or not) with no default, the pre-transforms having succeeded,
the first node returns at the optional check having recorded nothing, so no required
issue, and its deferred post-transforms then run as at any return without an issue; the
second records the required issue and returns. -/
theorem C16_last_call_wins (v : SliceSchema) (pRequired : Test) (options : List TestOption)
    (ctx c : SchemaCtx) (log : List Event) :
    (v.Optional.required = none ∧ v.Optional.preTransforms = v.preTransforms ∧
      v.Optional.tests = v.tests ∧ v.Optional.schema = v.schema ∧
      v.Optional.postTransforms = v.postTransforms ∧ v.Optional.defaultVal = v.defaultVal ∧
      v.Optional.coercer = v.coercer) ∧
    ((v.Required pRequired options).Optional).required = none ∧
    ((v.Optional).Required pRequired options).required =
      some (options.foldl (fun r opt => opt r) pRequired) ∧
    (v.defaultVal = .null →
      preTransformLoop v.preTransforms 0 ctx [] = .continues c log →
      c.Val.Len = some 0 →
      (((v.Required pRequired options).Optional).validateBody ctx = some (c, log) ∧
        c.exec = ctx.exec ∧
        ((v.Required pRequired options).Optional).validate ctx =
          some (if c.HasErrored then (c, log)
            else validatePostLoop v.postTransforms 0 c log)) ∧
      ((v.Optional).Required pRequired options).validate ctx =
        some (c.AddIssue (Issue.test ctx.Path.String
          (options.foldl (fun r opt => opt r) pRequired).IssueCode
          (options.foldl (fun r opt => opt r) pRequired).Params), log)) := by
  refine ⟨⟨rfl, rfl, rfl, rfl, rfl, rfl, rfl⟩, rfl, rfl, ?_⟩
  intro hdef hpre hz
  obtain ⟨h1, h2, _, _⟩ := preTransformLoop_continues _ _ _ _ _ _ hpre
  have hzero : (if IsZeroValue (.ptr c.Val) then some true
      else c.Val.Len.map (fun n => n == 0)) = some true := by
    simp [IsZeroValue, hz]
  have hpre1 : preTransformLoop ((v.Required pRequired options).Optional).preTransforms 0 ctx [] =
      .continues c log := hpre
  have hpre2 : preTransformLoop ((v.Optional).Required pRequired options).preTransforms 0 ctx [] =
      .continues c log := hpre
  have hd1 : ((v.Required pRequired options).Optional).defaultVal = .null := hdef
  have hd2 : ((v.Optional).Required pRequired options).defaultVal = .null := hdef
  have hbody : ((v.Required pRequired options).Optional).validateBody ctx = some (c, log) := by
    simp only [SliceSchema.validateBody, hpre1, SliceSchema.validateFromZeroCheck, hzero, hd1]
    simp [SliceSchema.Optional]
  refine ⟨⟨hbody, h1, ?_⟩, ?_⟩
  · simp only [SliceSchema.validate, hbody, Option.map_some', SliceSchema.validateDeferred]
    cases hc : c.HasErrored <;> simp [SliceSchema.Optional, SliceSchema.Required]
  · simp only [SliceSchema.validate, SliceSchema.validateBody, hpre2,
      SliceSchema.validateFromZeroCheck, hzero, hd2]
    simp [SliceSchema.Optional, SliceSchema.Required, SliceSchema.validateDeferred,
      hasErrored_AddIssue, SchemaCtx.IssueFromTest, h2]

/-- Witness of C16 (amended): a schema with a minimum, on a sequence of length 0. -/
theorem C16_last_call_wins_witness :
    ((Slice coerceSame leafAccept []).Min 1 []).defaultVal = Any.null ∧
    preTransformLoop ((Slice coerceSame leafAccept []).Min 1 []).preTransforms 0
      (rootCtx (.slice []) .nilSlice) [] = .continues (rootCtx (.slice []) .nilSlice) [] ∧
    (rootCtx (.slice []) .nilSlice).Val.Len = some 0 ∧
    (((((Slice coerceSame leafAccept []).Min 1 []).Required requiredTest []).Optional).Validate
      (.slice []) [] = some ([], .slice [])) ∧
    (((((Slice coerceSame leafAccept []).Min 1 []).Optional).Required requiredTest []).Validate
      (.slice []) [] = some ([Issue.test "" "required" []], .slice [])) ∧
    ((((Slice coerceSame leafAccept []).Min 1 []).Optional).Required requiredTest []).validate
        (rootCtx (.slice []) .nilSlice) =
      some ((rootCtx (.slice []) .nilSlice).AddIssue
        (Issue.test (rootCtx (.slice []) .nilSlice).Path.String
          (([] : List TestOption).foldl (fun r opt => opt r) requiredTest).IssueCode
          (([] : List TestOption).foldl (fun r opt => opt r) requiredTest).Params), []) :=
  ⟨rfl, rfl, rfl, by decide, by decide,
    ((C16_last_call_wins ((Slice coerceSame leafAccept []).Min 1 []) requiredTest []
      (rootCtx (.slice []) .nilSlice) (rootCtx (.slice []) .nilSlice) []).2.2.2
      rfl rfl rfl).2⟩

/-- C17: for a slice schema with no pre-transforms, no post-transforms and no default,
and a sequence `data` (nil or not) with elements `s` such that every rule test passes on
it (the tests of the list return true on it; the required test, when one is configured,
passes: the sequence is not of length 0), and the element schema records no issue on its
elements and leaves each as it is: `Validate` returns an empty issue map and leaves
`data` as it was. -/
theorem C17_valid_input_unchanged (v : SliceSchema) (data : Any) (s : List Any)
    (options : List ExecOption)
    (hpre : v.preTransforms = []) (hpost : v.postTransforms = []) (hdef : v.defaultVal = .null)
    (hdata : data.elems = some s)
    (hreq : v.required.isSome = true → s ≠ [])
    (hT : ∀ t ∈ v.tests, ∀ c : SchemaCtx, t.ValidateFunc (.ptr data) c = some true)
    (hE : ∀ c : SchemaCtx, c.Val ∈ s → ∃ c1, v.schema.validate c = some c1 ∧ c1.Val = c.Val ∧
        c1.exec.Errs = c.exec.Errs) :
    v.Validate data options = some ([], data) := by
  have hopt := execOptions_Errs options (NewExecCtx NewErrsMap)
  simp only [NewExecCtx, NewErrsMap] at hopt
  have hnone : s = [] → v.required = none := by
    intro hs
    cases hr : v.required with
    | none => rfl
    | some r => exact absurd hs (hreq (by simp [hr]))
  cases data with
  | null => simp [Any.elems] at hdata
  | int n => simp [Any.elems] at hdata
  | str n => simp [Any.elems] at hdata
  | bool n => simp [Any.elems] at hdata
  | ptr n => simp [Any.elems] at hdata
  | nilSlice =>
    simp only [Any.elems, Option.some.injEq] at hdata
    have hr := hnone hdata.symm
    simp [SliceSchema.Validate, SliceSchema.validate, SliceSchema.validateBody, hpre,
      preTransformLoop, SliceSchema.validateFromZeroCheck, IsZeroValue, Any.Len, hdef, hr,
      validateDeferred_nil v hpost, ExecCtx.NewSchemaCtx, hopt, NewExecCtx, NewErrsMap]
  | slice xs =>
    simp only [Any.elems, Option.some.injEq] at hdata
    subst hdata
    cases xs with
    | nil =>
      have hr := hnone rfl
      simp [SliceSchema.Validate, SliceSchema.validate, SliceSchema.validateBody, hpre,
        preTransformLoop, SliceSchema.validateFromZeroCheck, IsZeroValue, hdef, hr, Any.Len,
        validateDeferred_nil v hpost, ExecCtx.NewSchemaCtx, hopt, NewExecCtx, NewErrsMap]
    | cons x xs =>
      obtain ⟨sub1, h1, h2⟩ := validateItems_quiet v.schema (x :: xs) 0 []
        (((options.foldl (fun c opt => ExecOption.apply opt c) (NewExecCtx NewErrsMap)).NewSchemaCtx
          (.slice (x :: xs)) (.slice (x :: xs)) NewPathBuilder v.getType).NewSchemaCtx
          (.slice (x :: xs)) (.slice (x :: xs)) NewPathBuilder v.schema.getType) [] hE
      simp only [SchemaCtx.NewSchemaCtx, ExecCtx.NewSchemaCtx, hopt, NewExecCtx, NewErrsMap,
        List.nil_append] at h1 h2
      simp only [SliceSchema.Validate, SliceSchema.validate, SliceSchema.validateBody, hpre,
        preTransformLoop, SliceSchema.validateFromZeroCheck, IsZeroValue, Any.Len,
        SliceSchema.validateItemsAndTests, SchemaCtx.NewSchemaCtx, ExecCtx.NewSchemaCtx,
        NewExecCtx, NewErrsMap, Any.elems, h1, validateTests_eq]
      rw [show (if false = true then some true
          else Option.map (fun n => n == 0) (some (x :: xs).length)) = some false from by simp]
      simp only [testsLoop_all_pass _ v.tests 0 _ _ hT, Option.map_some',
        validateDeferred_nil v hpost, h2]

/-- Witness of C17: a required slice schema with the tests `Min(2)` and `Contains(3)` on
the sequence `[1, 2, 3]`, with a context value given as option. -/
theorem C17_valid_input_unchanged_witness :
    ((((Slice coerceSame leafAccept []).Min 2 []).Contains (.int 3) []).Required requiredTest
        []).preTransforms = [] ∧
    ((((Slice coerceSame leafAccept []).Min 2 []).Contains (.int 3) []).Required requiredTest
        []).postTransforms = [] ∧
    ((((Slice coerceSame leafAccept []).Min 2 []).Contains (.int 3) []).Required requiredTest
        []).defaultVal = Any.null ∧
    (Any.slice [.int 1, .int 2, .int 3]).elems = some [.int 1, .int 2, .int 3] ∧
    (∀ t ∈ ((((Slice coerceSame leafAccept []).Min 2 []).Contains (.int 3) []).Required
        requiredTest []).tests,
      ∀ c : SchemaCtx, t.ValidateFunc (.ptr (.slice [.int 1, .int 2, .int 3])) c = some true) ∧
    ((((Slice coerceSame leafAccept []).Min 2 []).Contains (.int 3) []).Required requiredTest
        []).Validate (.slice [.int 1, .int 2, .int 3]) [ExecOption.WithCtxValue "k" (.int 1)] =
      some ([], .slice [.int 1, .int 2, .int 3]) :=
  have hT : ∀ t ∈ ((((Slice coerceSame leafAccept []).Min 2 []).Contains (.int 3) []).Required
      requiredTest []).tests,
      ∀ c : SchemaCtx, t.ValidateFunc (.ptr (.slice [.int 1, .int 2, .int 3])) c = some true := by
    intro t ht c
    simp only [Slice, SliceSchema.Min, SliceSchema.Contains, SliceSchema.Required,
      List.foldl_nil, List.nil_append, List.cons_append, List.mem_cons, List.mem_singleton,
      List.not_mem_nil, or_false] at ht
    rcases ht with rfl | rfl
    · rfl
    · rfl
  ⟨rfl, rfl, rfl, rfl, hT,
    C17_valid_input_unchanged
      ((((Slice coerceSame leafAccept []).Min 2 []).Contains (.int 3) []).Required requiredTest [])
      (.slice [.int 1, .int 2, .int 3]) [.int 1, .int 2, .int 3]
      [ExecOption.WithCtxValue "k" (.int 1)] rfl rfl rfl rfl (fun _ => by decide) hT
      (fun c _ => ⟨c, rfl, rfl, rfl⟩)⟩

/-- C18: for a slice schema with a default `d` that is a sequence of elements `ds`, with
or without a required test, when the pre-transforms have succeeded and left a zero
value (validate mode: the value addressed is a sequence of length 0, nil or not; process
mode: the zero check of process mode). Let the element schema, on an element `x` of `d`
at path `P`, leave `w x` (validate mode: as the element; process mode: in the
destination slot), keep the path and record the issues `F P x`; let no rule test panic
on a pointer to the sequence of the `w x`. Then the node goes on with `d` in place of
the input: the value addressed (validate mode) or the destination (process mode) ends
as the sequence of the `w x`, of length `len(d)`, which in validate mode is `d` itself
when the element schema leaves the elements as they are; the issues recorded are those
of the elements of `d`, element `i` at the path with `[i]` pushed, in order, followed by
one issue for each rule test that returned false on the pointer to that sequence (`oks`
lists what the tests returned); the callbacks invoked after the pre-transforms are the
element schema once per element of `d` and then every rule test. The required test
plays no part: no issue is built from it, and the run is the run of the same node
without a required test. -/
theorem C18_default_substituted (v : SliceSchema) (ctx c : SchemaCtx) (log : List Event)
    (d : Any) (ds : List Any) (w : Any → Any) (F : PathBuilder → Any → List Issue)
    (hd : v.defaultVal = d) (hnn : d ≠ .null) (hds : d.elems = some ds)
    (hpre : preTransformLoop v.preTransforms 0 ctx [] = .continues c log) :
    (c.Val.Len = some 0 →
      (∀ c1 : SchemaCtx, c1.Val ∈ ds → ∃ c2, v.schema.validate c1 = some c2 ∧
        c2.Val = w c1.Val ∧ c2.Path = c1.Path ∧ c2.exec.Errs = c1.exec.Errs ++ F c1.Path c1.Val) →
      (∀ t ∈ v.tests, ∀ (x : Any) (c1 : SchemaCtx), x.elems = some (ds.map w) →
        ∃ ok, t.ValidateFunc (.ptr x) c1 = some ok) →
      ∃ (b : SchemaCtx × List Event) (oks : List Bool),
        v.validateBody ctx = some b ∧
        b.1.Val.elems = some (ds.map w) ∧
        ((∀ x ∈ ds, w x = x) → b.1.Val = d) ∧
        oks.length = v.tests.length ∧
        b.1.exec.Errs = ctx.exec.Errs ++
          ds.enum.flatMap (fun ix => F (ctx.Path.Push ("[" ++ toString ix.1 ++ "]")) ix.2) ++
          failedIssues ctx.Path.String v.tests oks ∧
        (∀ (j : Nat) (t : Test) (ok : Bool), v.tests[j]? = some t → oks[j]? = some ok →
          t.ValidateFunc (.ptr b.1.Val)
            (b.1.setIssues (ctx.exec.Errs ++
              ds.enum.flatMap (fun ix => F (ctx.Path.Push ("[" ++ toString ix.1 ++ "]")) ix.2) ++
              failedIssues ctx.Path.String (v.tests.take j) (oks.take j))) = some ok) ∧
        b.2 = log ++ (List.range ds.length).map Event.schema ++
          (List.range v.tests.length).map Event.test ∧
        v.validate ctx = some (v.validateDeferred b) ∧
        v.validate ctx = ({ v with required := none } : SliceSchema).validate ctx) ∧
    (IsParseZeroValue c.Val c = true →
      (∀ c1 : SchemaCtx, c1.Val ∈ ds → ∃ c2, v.schema.process c1 = some c2 ∧
        c2.DestPtr = w c1.Val ∧ c2.Path = c1.Path ∧
        c2.exec.Errs = c1.exec.Errs ++ F c1.Path c1.Val) →
      (∀ t ∈ v.tests, ∀ c1 : SchemaCtx,
        ∃ ok, t.ValidateFunc (.ptr (.slice (ds.map w))) c1 = some ok) →
      ∃ (b : SchemaCtx × List Event) (oks : List Bool),
        v.processBody ctx = some b ∧
        b.1.DestPtr = .slice (ds.map w) ∧ (ds.map w).length = ds.length ∧
        oks.length = v.tests.length ∧
        b.1.exec.Errs = ctx.exec.Errs ++
          ds.enum.flatMap (fun ix => F (ctx.Path.Push ("[" ++ toString ix.1 ++ "]")) ix.2) ++
          failedIssues ctx.Path.String v.tests oks ∧
        (∀ (j : Nat) (t : Test) (ok : Bool), v.tests[j]? = some t → oks[j]? = some ok →
          t.ValidateFunc (.ptr b.1.DestPtr)
            (b.1.setIssues (ctx.exec.Errs ++
              ds.enum.flatMap (fun ix => F (ctx.Path.Push ("[" ++ toString ix.1 ++ "]")) ix.2) ++
              failedIssues ctx.Path.String (v.tests.take j) (oks.take j))) = some ok) ∧
        b.2 = log ++ (List.range ds.length).map Event.schema ++
          (List.range v.tests.length).map Event.test ∧
        v.process ctx = some (v.processDeferred b) ∧
        v.process ctx = ({ v with required := none } : SliceSchema).process ctx) := by
  subst hd
  obtain ⟨hexec, hpath, _, _⟩ := preTransformLoop_continues _ _ _ _ _ _ hpre
  constructor
  · intro hz hE hT
    have hzero : (if IsZeroValue (.ptr c.Val) then some true
        else c.Val.Len.map (fun n => n == 0)) = some true := by
      simp [IsZeroValue, hz]
    have hbody : v.validateBody ctx =
        v.validateItemsAndTests { c with Val := v.defaultVal } log := by
      simp only [SliceSchema.validateBody, hpre, SliceSchema.validateFromZeroCheck, hzero]
      rw [if_pos hnn]
    have hbody1 : ({ v with required := none } : SliceSchema).validateBody ctx =
        v.validateItemsAndTests { c with Val := v.defaultVal } log := by
      simp only [SliceSchema.validateBody, hpre, SliceSchema.validateFromZeroCheck, hzero]
      rw [if_pos hnn]
      rfl
    obtain ⟨b, oks, h1, h2, h3, _, h5, h6, h7, h8⟩ :=
      validateItemsAndTests_effect v { c with Val := v.defaultVal } log ds w F hds hE hT
    simp only [hexec, hpath] at h6 h7
    refine ⟨b, oks, hbody.trans h1, h2, h3, h5, h6, h7, h8, ?_, ?_⟩
    · simp only [SliceSchema.validate, hbody, h1, Option.map_some']
    · simp only [SliceSchema.validate, hbody, hbody1]
      rfl
  · intro hz hE hT
    have hrun : v.processFromZeroCheck c log = v.processItemsAndTests c v.defaultVal log := by
      simp only [SliceSchema.processFromZeroCheck, hz, if_true]
      rw [if_pos hnn]
    have hbody : v.processBody ctx = v.processItemsAndTests c v.defaultVal log := by
      simp only [SliceSchema.processBody, hpre, hrun]
    have hrun1 : ({ v with required := none } : SliceSchema).processFromZeroCheck c log =
        v.processItemsAndTests c v.defaultVal log := by
      simp only [SliceSchema.processFromZeroCheck, hz, if_true]
      rw [if_pos hnn]
      rfl
    obtain ⟨b, oks, h1, h2, _, _, h5, h6, h7, h8⟩ :=
      processItemsAndTests_effect v c v.defaultVal log ds w F hds hE hT
    simp only [hexec, hpath] at h6 h7
    refine ⟨b, oks, hbody.trans h1, h2, by simp, h5, h6, h7, h8, ?_, ?_⟩
    · simp only [SliceSchema.process, hpre, hrun, h1, Option.map_some']
    · simp only [SliceSchema.process, hpre, hrun, hrun1]
      rfl

/-- Witness of C18: a required schema of not negative integers with the default
`[1, -2]` and a minimum of 3, in validate mode on a nil slice and in process mode on an
absent input: the value left (validate mode) and the destination (process mode) are
`[1, -2]`, the issues are the one of element 1 and the one of the minimum, no required
issue; the element schema is invoked twice, then the rule test. -/
theorem C18_default_substituted_witness :
    defaultedSchema.defaultVal = Any.slice [.int 1, .int (-2)] ∧
    defaultedSchema.required.isSome = true ∧
    (rootCtx .nilSlice .nilSlice).Val.Len = some 0 ∧
    IsParseZeroValue (rootCtx .null .nilSlice).Val (rootCtx .null .nilSlice) = true ∧
    (defaultedSchema.validate (rootCtx .nilSlice .nilSlice)).map
        (fun r => (r.1.exec.Errs, r.1.Val, r.2)) =
      some ([Issue.test "[1]" "gte" [("gte", .int 0)], Issue.test "" "min" [("min", .int 3)]],
        .slice [.int 1, .int (-2)], [Event.schema 0, Event.schema 1, Event.test 0]) ∧
    (defaultedSchema.process (rootCtx .null .nilSlice)).map
        (fun r => (r.1.exec.Errs, r.1.DestPtr, r.2)) =
      some ([Issue.test "[1]" "gte" [("gte", .int 0)], Issue.test "" "min" [("min", .int 3)]],
        .slice [.int 1, .int (-2)], [Event.schema 0, Event.schema 1, Event.test 0]) ∧
    (∃ (b : SchemaCtx × List Event) (oks : List Bool),
      defaultedSchema.validateBody (rootCtx .nilSlice .nilSlice) = some b ∧
      b.1.Val = Any.slice [.int 1, .int (-2)] ∧
      oks.length = defaultedSchema.tests.length ∧
      b.1.exec.Errs = (rootCtx .nilSlice .nilSlice).exec.Errs ++
        [Any.int 1, .int (-2)].enum.flatMap
          (fun ix => notNegativeIssues
            ((rootCtx .nilSlice .nilSlice).Path.Push ("[" ++ toString ix.1 ++ "]")).String ix.2) ++
        failedIssues (rootCtx .nilSlice .nilSlice).Path.String defaultedSchema.tests oks) ∧
    (∃ (b : SchemaCtx × List Event) (oks : List Bool),
      defaultedSchema.processBody (rootCtx .null .nilSlice) = some b ∧
      b.1.DestPtr = Any.slice ([Any.int 1, .int (-2)].map (fun x => x)) ∧
      oks.length = defaultedSchema.tests.length ∧
      b.1.exec.Errs = (rootCtx .null .nilSlice).exec.Errs ++
        [Any.int 1, .int (-2)].enum.flatMap
          (fun ix => notNegativeIssues
            ((rootCtx .null .nilSlice).Path.Push ("[" ++ toString ix.1 ++ "]")).String ix.2) ++
        failedIssues (rootCtx .null .nilSlice).Path.String defaultedSchema.tests oks) :=
  have hT : ∀ t ∈ defaultedSchema.tests, ∀ (x : Any) (c1 : SchemaCtx),
      ∃ ok, t.ValidateFunc (.ptr x) c1 = some ok := by
    intro t ht x c1
    simp only [defaultedSchema, Slice, SliceSchema.Min, SliceSchema.Default,
      SliceSchema.Required, List.foldl_nil, List.nil_append, List.mem_singleton] at ht
    subst ht
    cases x <;> exact ⟨_, rfl⟩
  ⟨rfl, rfl, rfl, rfl, by decide, by decide,
    ((C18_default_substituted defaultedSchema (rootCtx .nilSlice .nilSlice)
        (rootCtx .nilSlice .nilSlice) [] (.slice [.int 1, .int (-2)]) [.int 1, .int (-2)]
        (fun x => x) (fun P x => notNegativeIssues P.String x) rfl (by decide) rfl rfl).1 rfl
        (fun c1 _ => ⟨_, rfl, rfl, rfl, rfl⟩) (fun t ht x c1 _ => hT t ht x c1)).elim
      (fun b h => h.elim (fun oks h =>
        ⟨b, oks, h.1, h.2.2.1 (fun _ _ => rfl), h.2.2.2.1, h.2.2.2.2.1⟩)),
    ((C18_default_substituted defaultedSchema (rootCtx .null .nilSlice)
        (rootCtx .null .nilSlice) [] (.slice [.int 1, .int (-2)]) [.int 1, .int (-2)]
        (fun x => x) (fun P x => notNegativeIssues P.String x) rfl (by decide) rfl rfl).2 rfl
        (fun c1 _ => ⟨_, rfl, rfl, rfl, rfl⟩) (fun t ht c1 => hT t ht _ c1)).elim
      (fun b h => h.elim (fun oks h =>
        ⟨b, oks, h.1, h.2.1, h.2.2.2.1, h.2.2.2.2.1⟩))⟩

/-- C19: in process mode, on each of the three early returns with a recorded failure,
the value the destination pointer addresses is at the return of `process` what it was at
entry: (a) a pre-transform returns an error; (b) the pre-transformed input is zero, no
default is set and a required test is; (c) the pre-transformed input is not zero and the
coercer returns an error. In each case an issue has been recorded. -/
theorem C19_destination_untouched (v : SliceSchema) (ctx c : SchemaCtx) (log : List Event) :
    (preTransformLoop v.preTransforms 0 ctx [] = .returned c log →
      v.process ctx = some (c, log) ∧ c.DestPtr = ctx.DestPtr ∧ c.HasErrored = true) ∧
    (∀ req : Test, preTransformLoop v.preTransforms 0 ctx [] = .continues c log →
      IsParseZeroValue c.Val c = true → v.defaultVal = .null → v.required = some req →
      ∃ r, v.process ctx = some r ∧ r.1.DestPtr = ctx.DestPtr ∧ r.1.HasErrored = true) ∧
    (∀ err : String, preTransformLoop v.preTransforms 0 ctx [] = .continues c log →
      IsParseZeroValue c.Val c = false → v.coercer c.Val = .error err →
      ∃ r, v.process ctx = some r ∧ r.1.DestPtr = ctx.DestPtr ∧ r.1.HasErrored = true) := by
  refine ⟨?_, ?_, ?_⟩
  · intro hpre
    obtain ⟨_, h2, ⟨err, h3⟩, _⟩ := preTransformLoop_returned _ _ _ _ _ _ hpre
    refine ⟨by simp [SliceSchema.process, hpre], h2, ?_⟩
    simp [SchemaCtx.HasErrored, h3]
  · intro req hpre hz hdef hreq
    obtain ⟨_, _, h3, _⟩ := preTransformLoop_continues _ _ _ _ _ _ hpre
    refine ⟨(c.AddIssue (c.IssueFromTest req c.Val), log), ?_, ?_, hasErrored_AddIssue _ _⟩
    · simp [SliceSchema.process, hpre, SliceSchema.processFromZeroCheck, hz, hdef, hreq,
        SliceSchema.processDeferred, hasErrored_AddIssue]
    · simpa [SchemaCtx.AddIssue] using h3
  · intro err hpre hz hco
    obtain ⟨_, _, h3, _⟩ := preTransformLoop_continues _ _ _ _ _ _ hpre
    refine ⟨(c.AddIssue (c.IssueFromCoerce err), log ++ [Event.coercer]), ?_, ?_,
      hasErrored_AddIssue _ _⟩
    · simp [SliceSchema.process, hpre, SliceSchema.processFromZeroCheck, hz, hco,
        SliceSchema.processDeferred, hasErrored_AddIssue]
    · simpa [SchemaCtx.AddIssue] using h3

/-- Witness of C19: a destination that already holds `[7]`, and a post-transform that
would overwrite it; it is left as it is by a pre-transform failure, by a required
failure and by a coercion failure. -/
theorem C19_destination_untouched_witness :
    preTransformLoop ((Slice coerceSame leafAccept []).PreTransform preFail).preTransforms 0
        (rootCtx (.slice [.int 1]) (.slice [.int 7])) [] =
      .returned ((rootCtx (.slice [.int 1]) (.slice [.int 7])).AddIssue
        (Issue.unknown "" "pre failed")) [Event.preTransform 0] ∧
    (((Slice coerceSame leafAccept []).PreTransform preFail).process
        (rootCtx (.slice [.int 1]) (.slice [.int 7])) =
      some ((rootCtx (.slice [.int 1]) (.slice [.int 7])).AddIssue
        (Issue.unknown "" "pre failed"), [Event.preTransform 0]) ∧
      ((rootCtx (.slice [.int 1]) (.slice [.int 7])).AddIssue
        (Issue.unknown "" "pre failed")).DestPtr = (rootCtx (.slice [.int 1]) (.slice [.int 7])).DestPtr ∧
      ((rootCtx (.slice [.int 1]) (.slice [.int 7])).AddIssue
        (Issue.unknown "" "pre failed")).HasErrored = true) ∧
    ((({ (Slice coerceSame leafAccept []).PostTransform postClear with
        required := some requiredTest } : SliceSchema).process
        (rootCtx .null (.slice [.int 7]))).map (fun r => r.1.DestPtr) = some (.slice [.int 7])) ∧
    ((((Slice coerceFail leafAccept []).PostTransform postClear).process
        (rootCtx (.int 5) (.slice [.int 7]))).map (fun r => r.1.DestPtr) = some (.slice [.int 7])) :=
  ⟨rfl,
    (C19_destination_untouched ((Slice coerceSame leafAccept []).PreTransform preFail)
      (rootCtx (.slice [.int 1]) (.slice [.int 7]))
      ((rootCtx (.slice [.int 1]) (.slice [.int 7])).AddIssue (Issue.unknown "" "pre failed"))
      [Event.preTransform 0]).1 rfl,
    by decide, by decide⟩

/-- C20: let `b` be the point where the earlier phases of a node end, with no issue in
the context. The post-transforms are handed the value one after the other: `val 0` is
the value at that point (validate mode: the value addressed; process mode: the
destination) and `val (k+1)` is the value post-transform `k` leaves when handed `val k`.
(I) If on this run no post-transform returns an error, all of them are invoked, in
declared order, no issue is recorded and the value is left as the last of them left it.
(II) If on this run the post-transforms `qs` before `fn` return no error and `fn`, handed
the value they leave, leaves `y` and returns the error `err`, then the post-transforms
invoked are those up to `fn`, in declared order, and none after it: the value stays `y`
and exactly one issue is recorded, the uncategorized error `err` at the current path.
(III) In every case the post-transform phase adds no issue or exactly one. All three hold
in validate mode and in process mode. -/
theorem C20_post_transforms_stop_at_first_error (v : SliceSchema) (b : SchemaCtx × List Event)
    (hb : b.1.HasErrored = false) :
    (∀ val : Nat → Any,
      (val 0 = b.1.Val →
        (∀ (k : Nat) (g : PostTransform), v.postTransforms[k]? = some g →
          g (val k) { b.1 with Val := val k } = (val (k + 1), none)) →
        v.validateDeferred b =
          ({ b.1 with Val := val v.postTransforms.length },
            b.2 ++ (List.range v.postTransforms.length).map Event.postTransform)) ∧
      (val 0 = b.1.DestPtr →
        (∀ (k : Nat) (g : PostTransform), v.postTransforms[k]? = some g →
          g (val k) { b.1 with DestPtr := val k } = (val (k + 1), none)) →
        v.processDeferred b =
          ({ b.1 with DestPtr := val v.postTransforms.length },
            b.2 ++ (List.range v.postTransforms.length).map Event.postTransform))) ∧
    (∀ (qs rest : List PostTransform) (fn : PostTransform) (err : String) (val : Nat → Any)
        (y : Any),
      v.postTransforms = qs ++ fn :: rest →
      (val 0 = b.1.Val →
        (∀ (k : Nat) (g : PostTransform), qs[k]? = some g →
          g (val k) { b.1 with Val := val k } = (val (k + 1), none)) →
        fn (val qs.length) { b.1 with Val := val qs.length } = (y, some err) →
        v.validateDeferred b =
          ({ b.1 with Val := y }.AddIssue (Issue.unknown b.1.Path.String err),
            b.2 ++ (List.range (qs.length + 1)).map Event.postTransform) ∧
        (v.validateDeferred b).1.exec.Errs =
          b.1.exec.Errs ++ [Issue.unknown b.1.Path.String err]) ∧
      (val 0 = b.1.DestPtr →
        (∀ (k : Nat) (g : PostTransform), qs[k]? = some g →
          g (val k) { b.1 with DestPtr := val k } = (val (k + 1), none)) →
        fn (val qs.length) { b.1 with DestPtr := val qs.length } = (y, some err) →
        v.processDeferred b =
          ({ b.1 with DestPtr := y }.AddIssue (Issue.unknown b.1.Path.String err),
            b.2 ++ (List.range (qs.length + 1)).map Event.postTransform) ∧
        (v.processDeferred b).1.exec.Errs =
          b.1.exec.Errs ++ [Issue.unknown b.1.Path.String err])) ∧
    (((v.validateDeferred b).1.exec.Errs = b.1.exec.Errs ∨
        ∃ err, (v.validateDeferred b).1.exec.Errs =
          b.1.exec.Errs ++ [Issue.unknown b.1.Path.String err]) ∧
      ((v.processDeferred b).1.exec.Errs = b.1.exec.Errs ∨
        ∃ err, (v.processDeferred b).1.exec.Errs =
          b.1.exec.Errs ++ [Issue.unknown b.1.Path.String err])) := by
  have hvd : v.validateDeferred b = validatePostLoop v.postTransforms 0 b.1 b.2 := by
    simp [SliceSchema.validateDeferred, hb]
  have hpd : v.processDeferred b = processPostLoop v.postTransforms 0 b.1 b.2 := by
    simp [SliceSchema.processDeferred, hb]
  rw [hvd, hpd]
  refine ⟨?_, ?_, ?_⟩
  · intro val
    constructor
    · intro h0 hq
      have htr := validatePostLoop_trace v.postTransforms [] 0 b.1 b.2 val h0 hq
      simp only [List.append_nil, validatePostLoop, Nat.zero_add] at htr
      rw [htr, List.range_eq_range']
    · intro h0 hq
      have htr := processPostLoop_trace v.postTransforms [] 0 b.1 b.2 val h0 hq
      simp only [List.append_nil, processPostLoop, Nat.zero_add] at htr
      rw [htr, List.range_eq_range']
  · intro qs rest fn err val y hv
    constructor
    · intro h0 hq hfn
      have htr := validatePostLoop_trace qs (fn :: rest) 0 b.1 b.2 val h0 hq
      simp only [validatePostLoop, hfn, Nat.zero_add] at htr
      rw [hv, htr]
      simp [SchemaCtx.AddIssue, SchemaCtx.IssueFromUnknownError, List.range_eq_range',
        List.range'_concat]
    · intro h0 hq hfn
      have htr := processPostLoop_trace qs (fn :: rest) 0 b.1 b.2 val h0 hq
      simp only [processPostLoop, hfn, Nat.zero_add] at htr
      rw [hv, htr]
      simp [SchemaCtx.AddIssue, SchemaCtx.IssueFromUnknownError, List.range_eq_range',
        List.range'_concat]
  · exact ⟨validatePostLoop_errs _ _ _ _, processPostLoop_errs _ _ _ _⟩

/-- Witness of C20: the post-transforms are one that returns an error on a nil slice but
none on `[1]`, one that returns an error, and one more; on `[1]` the first two are
invoked, the third is not, one issue is recorded. -/
theorem C20_post_transforms_stop_at_first_error_witness :
    (rootCtx (.slice [.int 1]) .nilSlice, [Event.schema 0]).1.HasErrored = false ∧
    threePostSchema.postTransforms = [postNotNil] ++ postFail :: [postClear] ∧
    postNotNil .nilSlice (rootCtx (.slice [.int 1]) .nilSlice) = (.nilSlice, some "nil slice") ∧
    (threePostSchema.validate (rootCtx (.slice [.int 1]) .nilSlice)).map
      (fun r => (r.1.exec.Errs, r.1.Val, r.2)) =
        some ([Issue.unknown "" "post failed"], .slice [.int 1],
          [Event.schema 0, Event.postTransform 0, Event.postTransform 1]) ∧
    (threePostSchema.validateDeferred (rootCtx (.slice [.int 1]) .nilSlice, [Event.schema 0]) =
        ({ (rootCtx (.slice [.int 1]) .nilSlice, [Event.schema 0]).1 with
            Val := .slice [.int 1] }.AddIssue
            (Issue.unknown (rootCtx (.slice [.int 1]) .nilSlice, [Event.schema 0]).1.Path.String
              "post failed"),
          (rootCtx (.slice [.int 1]) .nilSlice, [Event.schema 0]).2 ++
            (List.range ([postNotNil].length + 1)).map Event.postTransform) ∧
      (threePostSchema.validateDeferred
          (rootCtx (.slice [.int 1]) .nilSlice, [Event.schema 0])).1.exec.Errs =
        (rootCtx (.slice [.int 1]) .nilSlice, [Event.schema 0]).1.exec.Errs ++
          [Issue.unknown (rootCtx (.slice [.int 1]) .nilSlice, [Event.schema 0]).1.Path.String
            "post failed"]) :=
  have hqs : ∀ (k : Nat) (g : PostTransform), [postNotNil][k]? = some g →
      g ((fun _ => Any.slice [.int 1]) k)
          { (rootCtx (.slice [.int 1]) .nilSlice, [Event.schema 0]).1 with
            Val := (fun _ => Any.slice [.int 1]) k } =
        ((fun _ => Any.slice [.int 1]) (k + 1), none) := by
    intro k g hg
    cases k with
    | zero =>
      simp only [List.getElem?_cons_zero, Option.some.injEq] at hg
      subst hg
      rfl
    | succ k => simp at hg
  ⟨rfl, rfl, rfl, by decide,
    ((C20_post_transforms_stop_at_first_error threePostSchema
      (rootCtx (.slice [.int 1]) .nilSlice, [Event.schema 0]) rfl).2.1
      [postNotNil] [postClear] postFail "post failed" (fun _ => .slice [.int 1])
      (.slice [.int 1]) rfl).1 rfl hqs rfl⟩

end Zog
